import Mathlib

/-!
# Cossacks 3 LAN server: packet codec, session framing and lobby dispatch

A shallow embedding of `Packet.cpp`, `Player.cpp`, `Room.hpp`, `Session.cpp`
and `Lobby.cpp`, followed by theorems about the embedded functions.

Conventions of the embedding

* `unsigned char` is `Fin 256`; `unsigned short`, `unsigned int` and `size_t`
  are `Nat`, reduced `% 2^16` / `% 2^32` wherever the source stores into a
  variable of that width.
* `std::vector<unsigned char>` and `std::string` are lists of bytes.
* `std::map<unsigned int, T>` is an association list kept in ascending key
  order, the iteration order of `std::map`.
* The one piece of ghost state is `Packet.oob_writes`: the source indexes the
  vector with the unchecked `operator[]`, so a store past the end is undefined
  behaviour; the embedding leaves the vector unchanged in that case and
  appends the offending offset to `oob_writes`.
* The release build is embedded: `assert` and the `#ifndef NDEBUG` output are
  left out. A `std::out_of_range` thrown by `std::map::at` or
  `std::vector::at` ends the branch with the state reached so far and is
  reported in `Outcome.thrown`.
-/

namespace Cossacks

/-! ## Bytes, buffers, strings -/

/-- One `unsigned char`. -/
abbrev Byte := Fin 256

/-- The conversion `static_cast<unsigned char>( n )`. -/
def toByte (n : Nat) : Byte := ⟨n % 256, Nat.mod_lt n (by decide)⟩

/-- The type `Buffer` of `Precompiled.hpp`: `std::vector<unsigned char>`. -/
abbrev Buffer := List Byte

/-- A `std::string`, as its sequence of `char`s. -/
abbrev Str := List Byte

/-- The bytes of a string literal of the source. -/
def lit (s : String) : Str := s.toList.map (fun c => toByte c.toNat)

/-- Little-endian bytes of an `unsigned short` (the union `byte_short`). -/
def le16 (s : Nat) : List Byte := [toByte s, toByte (s / 256)]

/-- Little-endian bytes of an `unsigned int` (the union `byte_int`). -/
def le32 (i : Nat) : List Byte :=
  [toByte i, toByte (i / 256), toByte (i / 65536), toByte (i / 16777216)]

/-! ## Packet.hpp / Packet.cpp -/

/-- The enum `Packet::LengthType`. -/
inductive LengthType where
  | Byte
  | Short
  | Int
  deriving DecidableEq, Repr

/-- Number of bytes of the length prefix. -/
def LengthType.width : LengthType → Nat
  | .Byte => 1
  | .Short => 2
  | .Int => 4

/-- The enum value `Packet::packet_header_size`. -/
def packet_header_size : Nat := 14

/-- The class `Packet`: header variables, seek position and the Session buffer
it wraps (held by reference in the source, threaded by value here).
`oob_writes` is ghost state, see the module comment. -/
structure Packet where
  m_source_id : Nat
  m_send_size : Nat
  m_size : Nat
  m_cmd : Nat
  m_id1 : Nat
  m_id2 : Nat
  m_seek_pos : Nat
  m_buf : Buffer
  oob_writes : List Nat
  deriving DecidableEq, Repr

namespace Packet

/-- The load `m_buf[i]`. Past the end of the vector (undefined behaviour in
the source) the embedding reads `0`. -/
def load (p : Packet) (i : Nat) : Byte := p.m_buf.getD i 0

/-- The store `m_buf[i] = b`. -/
def store (p : Packet) (i : Nat) (b : Byte) : Packet :=
  if i < p.m_buf.length then { p with m_buf := p.m_buf.set i b }
  else { p with oob_writes := p.oob_writes ++ [i] }

/-- The post-increment `m_seek_pos++` on an `unsigned int`. -/
def advance (p : Packet) (n : Nat) : Packet :=
  { p with m_seek_pos := (p.m_seek_pos + n) % 2 ^ 32 }

/-- `Packet::seek`. -/
def seek (p : Packet) (offset : Nat) : Packet := p.advance offset

/-- `Packet::seek_to_start`. -/
def seek_to_start (p : Packet) : Packet := { p with m_seek_pos := packet_header_size }

/-- `Packet::seek_to_end`. -/
def seek_to_end (p : Packet) : Packet :=
  { p with m_seek_pos := (packet_header_size + p.m_size) % 2 ^ 32 }

/-- `Packet::read_byte`. -/
def read_byte (p : Packet) : Nat × Packet :=
  ((p.load p.m_seek_pos).val, p.advance 1)

/-- `Packet::read_short`. -/
def read_short (p : Packet) : Nat × Packet :=
  let (b0, p) := p.read_byte
  let (b1, p) := p.read_byte
  (b0 + 256 * b1, p)

/-- `Packet::read_int`. -/
def read_int (p : Packet) : Nat × Packet :=
  let (b0, p) := p.read_byte
  let (b1, p) := p.read_byte
  let (b2, p) := p.read_byte
  let (b3, p) := p.read_byte
  (b0 + 256 * b1 + 65536 * b2 + 16777216 * b3, p)

/-- `Packet::read_string`: the length prefix, then `l` chars starting at
`&m_buf[m_seek_pos]`. -/
def read_string (p : Packet) (lt : LengthType := .Byte) : Str × Packet :=
  let (l, p) := match lt with
    | .Byte => p.read_byte
    | .Short => p.read_short
    | .Int => p.read_int
  ((List.range l).map (fun i => p.load (p.m_seek_pos + i)), p.advance l)

/-- `Packet::write_byte`. -/
def write_byte (p : Packet) (b : Nat) : Packet :=
  (p.store p.m_seek_pos (toByte b)).advance 1

/-- `Packet::write_short`. -/
def write_short (p : Packet) (s : Nat) : Packet :=
  (p.write_byte s).write_byte (s / 256)

/-- `Packet::write_int`. -/
def write_int (p : Packet) (i : Nat) : Packet :=
  (((p.write_byte i).write_byte (i / 256)).write_byte (i / 65536)).write_byte (i / 16777216)

/-- The call `std::memcpy( &m_buf[i], str.c_str(), l )`. -/
def memcpy : Packet → Nat → Str → Packet
  | p, _, [] => p
  | p, i, b :: bs => memcpy (p.store i b) (i + 1) bs

/-- `Packet::write_string`. -/
def write_string (p : Packet) (str : Str) (lt : LengthType := .Byte) : Packet :=
  let l := str.length
  let p := match lt with
    | .Byte => p.write_byte l
    | .Short => p.write_short l
    | .Int => p.write_int l
  (p.memcpy p.m_seek_pos str).advance l

/-- `Packet::write_header`. -/
def write_header (p : Packet) (cmd : Nat) (id1 : Nat := 0) (id2 : Nat := 0) : Packet :=
  let p := { p with m_send_size := p.m_seek_pos }
  let p := { p with m_seek_pos := 0 }
  let p := { p with m_size := (p.m_send_size % 2 ^ 32 + 2 ^ 32 - packet_header_size) % 2 ^ 32 }
  let p := { p with m_cmd := cmd % 2 ^ 16 }
  let p := { p with m_id1 := id1 % 2 ^ 32 }
  let p := { p with m_id2 := id2 % 2 ^ 32 }
  (((p.write_int p.m_size).write_short p.m_cmd).write_int p.m_id1).write_int p.m_id2

/-- `Packet::keep_whole_message( unsigned short cmd )`. -/
def keep_whole_message (p : Packet) (cmd : Nat) : Packet :=
  p.seek_to_end.write_header cmd p.m_id1 p.m_id2

/-- `Packet::keep_whole_message()`. -/
def keep_whole_message_same (p : Packet) : Packet := p.keep_whole_message p.m_cmd

/-- The constructor `Packet::Packet( Buffer& buf, unsigned int source_id )`. -/
def ctor (buf : Buffer) (source_id : Nat) : Packet :=
  let p : Packet :=
    { m_source_id := source_id, m_send_size := 0, m_size := 0, m_cmd := 0, m_id1 := 0,
      m_id2 := 0, m_seek_pos := 0, m_buf := buf, oob_writes := [] }
  let (size, p) := p.read_int
  let p := { p with m_size := size }
  let (cmd, p) := p.read_short
  let p := { p with m_cmd := cmd }
  let (id1, p) := p.read_int
  let p := { p with m_id1 := id1 }
  let (id2, p) := p.read_int
  { p with m_id2 := id2 }

end Packet

/-! ## std::map -/

/-- A `std::map<unsigned int, T>`: the entries in ascending key order. -/
abbrev IdMap (α : Type) := List (Nat × α)

namespace IdMap

/-- `std::map::find` (`none` for `end()`). -/
def find {α : Type} : IdMap α → Nat → Option α
  | [], _ => none
  | (k0, v) :: m, k => if k0 = k then some v else find m k

/-- Membership test `m.find( k ) != m.end()`. -/
def contains {α : Type} (m : IdMap α) (k : Nat) : Bool := (m.find k).isSome

/-- Insertion of a new entry at its place in the key order. -/
def insertSorted {α : Type} : IdMap α → Nat → α → IdMap α
  | [], k, v => [(k, v)]
  | (k0, v0) :: m, k, v =>
    if k < k0 then (k, v) :: (k0, v0) :: m
    else (k0, v0) :: insertSorted m k v

/-- `std::map::emplace`: when the key is already present the map is left as
it is, otherwise the entry is inserted. -/
def emplace {α : Type} (m : IdMap α) (k : Nat) (v : α) : IdMap α :=
  if (m.find k).isSome then m else m.insertSorted k v

/-- The mapped object `m.emplace( k, v ).first->second`: the one already
stored under `k` when there is one, the new `v` otherwise. -/
def emplaced {α : Type} (m : IdMap α) (k : Nat) (v : α) : α := (m.find k).getD v

/-- `std::map::erase( key )`. -/
def erase {α : Type} (m : IdMap α) (k : Nat) : IdMap α := m.filter (fun e => e.1 != k)

/-- Mutation of the mapped object through a reference obtained from the map. -/
def modify {α : Type} (m : IdMap α) (k : Nat) (f : α → α) : IdMap α :=
  m.map (fun e => if e.1 = k then (e.1, f e.2) else e)

/-- Assignment to the mapped object through a reference. -/
def set {α : Type} (m : IdMap α) (k : Nat) (v : α) : IdMap α := m.modify k (fun _ => v)

/-- The keys in iteration order. -/
def keys {α : Type} (m : IdMap α) : List Nat := m.map (fun e => e.1)

end IdMap

/-! ## Room.hpp -/

/-- The class `Room`. -/
structure Room where
  m_description : Str
  m_host_id : Nat
  m_info : Str
  m_players : List Nat
  m_hidden : Bool
  deriving DecidableEq, Repr

namespace Room

/-- The constructor `Room::Room( int host_id, const std::string& description )`. -/
def ctor (host_id : Nat) (description : Str) : Room :=
  { m_description := description, m_host_id := host_id % 2 ^ 32, m_info := lit "0",
    m_players := [], m_hidden := false }

/-- `Room::set_info`. -/
def set_info (r : Room) (s : Str) : Room := { r with m_info := s }

/-- `Room::add_player`. -/
def add_player (r : Room) (id : Nat) : Room := { r with m_players := r.m_players ++ [id] }

/-- `Room::remove_player` (erase-remove idiom: every occurrence goes). -/
def remove_player (r : Room) (id : Nat) : Room :=
  { r with m_players := r.m_players.filter (fun x => x != id) }

/-- `Room::hide_from_lobby`. -/
def hide_from_lobby (r : Room) : Room := { r with m_hidden := true }

end Room

/-! ## Player.hpp / Player.cpp -/

/-- The class `Player`. The `Room*` link is held as the key under which the
Room object lives in `Lobby::m_rooms` (`none` for `nullptr`). -/
structure Player where
  m_id : Nat
  m_name : Str
  m_ver1 : Str
  m_ver2 : Str
  m_props : Str
  m_status : Nat
  m_room : Option Nat
  deriving DecidableEq, Repr

/-- The default properties string of the `Player` constructor, as in the
`Player.hpp` that sits beside `Lobby.hpp` (which is the header `Lobby.hpp`
includes). The `Player.hpp` beside `Player.cpp` carries the longer literal
`pur|0|dlc|0|ram|4|sic|0|si1|0|si2|0|si3|0|snc||sn1||sn2||sn3|`. -/
def default_props : Str := lit "pur|0|dlc|0|ram|4"

namespace Player

/-- The constructor `Player::Player( int id, name, ver1, ver2 )`. -/
def ctor (id : Nat) (name ver1 ver2 : Str) : Player :=
  { m_id := id % 2 ^ 32, m_name := name, m_ver1 := ver1, m_ver2 := ver2,
    m_props := default_props, m_status := 0x01, m_room := none }

/-- `Player::set_status`. -/
def set_status (pl : Player) (s : Nat) : Player := { pl with m_status := s % 256 }

/-- `Player::set_props`. -/
def set_props (pl : Player) (props : Str) : Player := { pl with m_props := props }

/-- `Player::join_room( Room& room )`, for the Room stored under `key`. -/
def join_room (pl : Player) (key : Nat) (room : Room) : Player × Room :=
  let pl := if room.m_host_id = pl.m_id then { pl with m_status := 0x05 }
            else { pl with m_status := 0x03 }
  let pl := { pl with m_room := some key }
  (pl, room.add_player pl.m_id)

/-- `Player::leave_room()` (release build: the `assert` is compiled out).
The Room the link points to is updated inside `rooms`. -/
def leave_room (pl : Player) (rooms : IdMap Room) : Player × IdMap Room :=
  let pl1 := { pl with m_status := 0x01 }
  match pl.m_room with
  | some key => ({ pl1 with m_room := none }, rooms.modify key (fun r => r.remove_player pl.m_id))
  | none => (pl1, rooms)

end Player

/-! ## Lobby.hpp / Lobby.cpp -/

/-- The enum `Lobby::SendTo`. -/
inductive SendTo where
  | Source
  | Id2
  | Everyone
  | EveryoneButSource
  | RoomHost
  | EveryoneInRoom
  | EveryoneInRoomButSource
  | PropagateInRoom
  deriving DecidableEq, Repr

/-- The class `Lobby`. Of each registered Client the Lobby only ever touches
its send queue (`Session::m_buf_queue`, through `queue_buf`), so `m_clients`
maps the Client ID to the slices queued for that Client, oldest first. The
receive buffer of the Session being served is passed to `process_buf` and
`disconnect` beside the Lobby. -/
structure Lobby where
  m_clients : IdMap (List Buffer)
  m_players : IdMap Player
  m_rooms : IdMap Room
  m_last_issued_id : Nat
  deriving DecidableEq, Repr

/-- What a call into the Lobby leaves behind: the Lobby, the Packet (hence
the Session buffer) and whether a `std::out_of_range` left the call. -/
structure Outcome where
  lobby : Lobby
  p : Packet
  thrown : Bool
  deriving DecidableEq, Repr

namespace Lobby

/-- The constructor `Lobby::Lobby()`. -/
def ctor : Lobby := { m_clients := [], m_players := [], m_rooms := [], m_last_issued_id := 0 }

/-- `Lobby::connect`: returns the Lobby and the id given to the Client. -/
def connect (L : Lobby) : Lobby × Nat :=
  let id := (L.m_last_issued_id + 1) % 2 ^ 32
  ({ L with m_last_issued_id := id, m_clients := L.m_clients.emplace id [] }, id)

/-- `Session::queue_buf` on the Client stored under `id`. -/
def queue_buf (clients : IdMap (List Buffer)) (id : Nat) (buf_ptr : Buffer) :
    IdMap (List Buffer) :=
  clients.modify id (fun q => q ++ [buf_ptr])

/-- The loops `for p_id : ids  m_clients.at( p_id )->queue_buf( buf_ptr )` of
`Lobby::send`; the first failing `at` ends the loop, since the exception is
caught outside it. -/
def deliver (clients : IdMap (List Buffer)) (buf_ptr : Buffer) : List Nat → IdMap (List Buffer)
  | [] => clients
  | id :: ids =>
    if clients.contains id then deliver (queue_buf clients id buf_ptr) buf_ptr ids
    else clients

/-- `Lobby::send` (release build: the `assert`s are compiled out), returning
the client map with its queues. The slice is `buf[0 .. send_size)`. For the
room targets a failed `m_players.at` is caught like the others, and a link to
a Room that is not in `m_rooms` (a dangling pointer in the source) delivers
nothing. -/
def send_clients (L : Lobby) (p : Packet) (target : SendTo) : IdMap (List Buffer) :=
  let send_size := p.m_send_size
  if send_size = 0 then L.m_clients
  else
    let src_id := p.m_source_id
    let buf_ptr : Buffer := p.m_buf.take send_size
    match target with
    | .Source => deliver L.m_clients buf_ptr [src_id]
    | .Id2 => deliver L.m_clients buf_ptr [p.m_id2]
    | .Everyone => L.m_clients.map (fun c => (c.1, c.2 ++ [buf_ptr]))
    | .EveryoneButSource =>
      L.m_clients.map (fun c => if src_id = c.1 then c else (c.1, c.2 ++ [buf_ptr]))
    | _ =>
      match L.m_players.find src_id with
      | none => L.m_clients
      | some player =>
        match player.m_room with
        | none => L.m_clients
        | some key =>
          match L.m_rooms.find key with
          | none => L.m_clients
          | some room =>
            match target with
            | .RoomHost => deliver L.m_clients buf_ptr [room.m_host_id]
            | .EveryoneInRoom => deliver L.m_clients buf_ptr room.m_players
            | .EveryoneInRoomButSource =>
              deliver L.m_clients buf_ptr (room.m_players.filter (fun p_id => src_id != p_id))
            | _ =>
              if src_id = room.m_host_id then
                deliver L.m_clients buf_ptr (room.m_players.filter (fun p_id => p_id != src_id))
              else deliver L.m_clients buf_ptr [room.m_host_id]

/-- `Lobby::send`. -/
def send (L : Lobby) (p : Packet) (target : SendTo) : Lobby :=
  { L with m_clients := send_clients L p target }

/-- `std::to_string` of an unsigned value. -/
def to_string (n : Nat) : Str := (Nat.toDigits 10 n).map (fun c => toByte c.toNat)

/-- The Outcome of a branch that ran to its end. -/
def done (L : Lobby) (p : Packet) : Outcome := { lobby := L, p := p, thrown := false }

/-- The Outcome of a branch left by a `std::out_of_range` (a failed
`std::map::at` or `std::vector::at`). -/
def raise (L : Lobby) (p : Packet) : Outcome := { lobby := L, p := p, thrown := true }

/-- The branches of `process_buf` that only forward:
`p.keep_whole_message( cmd ); send( p, target );`. -/
def forward (L : Lobby) (p : Packet) (cmd : Nat) (target : SendTo) : Outcome :=
  let p := p.keep_whole_message cmd
  done (L.send p target) p

/-- Branch `0x192` (request player info). -/
def on_192 (L : Lobby) (p : Packet) : Outcome :=
  let id1 := p.m_id1
  let (info_id, p) := p.read_int
  match L.m_players.find info_id with
  | none => raise L p
  | some player =>
    let p := p.seek_to_start
    let p := p.write_int info_id
    let p := p.write_byte player.m_status
    let p := p.write_string player.m_name
    let p := p.write_byte 0
    let p := p.write_int 0
    let p := p.write_int 0
    let p := p.write_int 0
    let p := p.write_int 0
    let p := p.write_int 0
    let p := p.write_string player.m_props
    let p := p.write_header 0x193 info_id id1
    done (L.send p .Source) p

/-- Branch `0x1ad` (version check). -/
def on_1ad (L : Lobby) (p : Packet) (c_id : Nat) : Outcome :=
  match L.m_players.find c_id with
  | none => raise L p
  | some player =>
    let p := p.write_string player.m_ver1
    let p := p.write_string player.m_ver2
    let p := p.write_int 0
    let p := p.write_header 0x1ae 0 player.m_id
    done (L.send p .Source) p

/-- Branch `0x1b3` (set player properties). -/
def on_1b3 (L : Lobby) (p : Packet) (c_id : Nat) : Outcome :=
  let (_, p) := p.read_string
  let (_, p) := p.read_string
  let (_, p) := p.read_string
  let (props, p) := p.read_string
  match L.m_players.find c_id with
  | none => raise L p
  | some player => done { L with m_players := L.m_players.set c_id (player.set_props props) } p

/-- Branch `0x19c`, the reads of the create-room message: five bytes
skipped, then `desc`, `info` and `magic`. -/
def read_create_room (p : Packet) : Str × Str × Nat × Packet :=
  let p := p.seek 5
  let (desc, p) := p.read_string
  let (info, p) := p.read_string
  let (magic, p) := p.read_int
  (desc, info, magic, p)

/-- Branch `0x19c` (create room). -/
def on_19c (L : Lobby) (p : Packet) (c_id : Nat) : Outcome :=
  let id1 := p.m_id1
  let (desc, info, magic, p) := read_create_room p
  let room := L.m_rooms.emplaced c_id (Room.ctor c_id desc)
  let L := { L with m_rooms := L.m_rooms.emplace c_id (Room.ctor c_id desc) }
  match L.m_players.find c_id with
  | none => raise L p
  | some player =>
    let (player, room) := player.join_room c_id room
    let L := { L with m_players := L.m_players.set c_id player, m_rooms := L.m_rooms.set c_id room }
    let p := p.seek_to_start
    let p := p.write_byte 7
    let p := p.write_int 8
    let p := p.write_string desc
    let p := p.write_string info
    let p := p.write_int magic
    let p := p.write_short 0
    let p := p.write_header 0x19d id1 0
    done (L.send p .Everyone) p

/-- Branch `0x19e` (join room). -/
def on_19e (L : Lobby) (p : Packet) : Outcome :=
  let id1 := p.m_id1
  let (room_host_id, p) := p.read_int
  match L.m_rooms.find room_host_id with
  | none => raise L p
  | some room =>
    match L.m_players.find id1 with
    | none => raise L p
    | some player =>
      let (player, room) := player.join_room room_host_id room
      let L := { L with m_players := L.m_players.set id1 player,
                        m_rooms := L.m_rooms.set room_host_id room }
      let p := p.seek_to_start
      let p := p.write_int room_host_id
      let p := p.write_byte player.m_status
      let p := p.write_header 0x19f id1 0
      done (L.send p .Everyone) p

/-- The loop of branch `0x1a0` over the members of the room of a leaving
host: `m_players.at( p_id )->leave_room()`, then the id and status written. -/
def leave_all (L : Lobby) (p : Packet) : List Nat → Outcome
  | [] => done L p
  | p_id :: ids =>
    match L.m_players.find p_id with
    | none => raise L p
    | some pl =>
      let (pl, rooms) := pl.leave_room L.m_rooms
      let L := { L with m_players := L.m_players.set p_id pl, m_rooms := rooms }
      let p := p.write_int p_id
      let p := p.write_byte pl.m_status
      leave_all L p ids

/-- The `clientslist` items of the `0x1bd` packet. -/
def write_clientslist (p : Packet) (ids : List Nat) : Packet :=
  ids.foldl (fun p id => (p.write_string (lit "*") .Int).write_string (to_string id) .Int) p

/-- Composition of the `0x1bd` packet (new host notification) in branch
`0x1a0`, up to and including the back-patched length. -/
def compose_1bd (p : Packet) (description info : Str) (players : List Nat)
    (new_host_id : Nat) : Packet :=
  let p := p.seek_to_start
  let p := p.seek 4
  let p := p.write_int 0
  let p := p.write_int 1
  let p := p.write_byte 0
  let p := p.write_int 6
  let p := p.write_string (lit "gamename") .Int
  let p := p.write_string description .Int
  let p := p.write_int 0
  let p := p.write_string (lit "mapname") .Int
  let p := p.write_string info .Int
  let p := p.write_int 0
  let p := p.write_string (lit "master") .Int
  let p := p.write_string (to_string new_host_id) .Int
  let p := p.write_int 0
  let p := p.write_string (lit "session") .Int
  let p := p.write_string (lit "1337") .Int
  let p := p.write_int 0
  let p := p.write_string (lit "clients") .Int
  let p := p.write_string (to_string (players.length - 1)) .Int
  let p := p.write_int 0
  let p := p.write_string (lit "clientslist") .Int
  let p := p.write_int 1
  let p := p.write_byte 0
  let p := p.write_int (players.length % 2 ^ 32 + 2 ^ 32 - 1)
  let p := write_clientslist p (players.drop 1)
  let p := p.write_int 0
  let p := p.write_header 0x1bd new_host_id new_host_id
  p.write_int (p.m_size + 2 ^ 32 - 4)

/-- The loop of branch `0x1a0` that sends one `0x1be` packet to every id of
the list but the new host. -/
def send_1be (L : Lobby) (p : Packet) (new_host_id : Nat) : List Nat → Lobby × Packet
  | [] => (L, p)
  | id :: ids =>
    if new_host_id = id then send_1be L p new_host_id ids
    else
      let p := p.write_header 0x1be new_host_id id
      send_1be (L.send p .Id2) p new_host_id ids

/-- Branch `0x1a0` (leave room or game). A link to a Room that is not in
`m_rooms` would be a dangling pointer in the source; the embedding returns
at once in that case. -/
def on_1a0 (L : Lobby) (p : Packet) (c_id : Nat) : Outcome :=
  let id1 := p.m_id1
  match L.m_players.find c_id with
  | none => raise L p
  | some player =>
    match player.m_room with
    | none => done L p
    | some key =>
      match L.m_rooms.find key with
      | none => done L p
      | some room =>
        let room_id := room.m_host_id
        let players := room.m_players
        let status := player.m_status
        let room_host_leaving : Bool := status = 0x05 || status = 0x0f
        let host_transfer_needed : Bool := status = 0x0f && 1 < players.length
        match players.getLast? with
        | none => raise L p
        | some new_host_id =>
          let r : Outcome :=
            if room_host_leaving then
              let p := p.write_byte 1
              let p := p.write_int players.length
              leave_all L p players
            else
              let (player, rooms) := player.leave_room L.m_rooms
              let L := { L with m_players := L.m_players.set c_id player, m_rooms := rooms }
              let p := p.write_byte 0
              let p := p.write_int 1
              let p := p.write_int player.m_id
              let p := p.write_byte player.m_status
              done L p
          if r.thrown then r
          else
            let L := r.lobby
            let p := r.p
            let p := p.write_header 0x1a1 id1 0
            let L := L.send p .Everyone
            let (L, p) :=
              if host_transfer_needed then
                let p := compose_1bd p room.m_description room.m_info players new_host_id
                let L := L.send p .Id2
                let p := p.seek_to_start
                send_1be L p new_host_id (players.drop 1)
              else (L, p)
            let L := if room_host_leaving then { L with m_rooms := L.m_rooms.erase room_id } else L
            done L p

/-- The loop of branch `0x1a2`: status update and `(id, status)` pair for
each id, in the order given. -/
def start_all (L : Lobby) (p : Packet) (c_id : Nat) : List Nat → Outcome
  | [] => done L p
  | p_id :: ids =>
    match L.m_players.find p_id with
    | none => raise L p
    | some player =>
      let player := if p_id = c_id then player.set_status 0x0f else player.set_status 0x0b
      let L := { L with m_players := L.m_players.set p_id player }
      let p := p.write_int p_id
      let p := p.write_byte player.m_status
      start_all L p c_id ids

/-- Branch `0x1a2` (start game). -/
def on_1a2 (L : Lobby) (p : Packet) (c_id : Nat) : Outcome :=
  let id1 := p.m_id1
  match L.m_players.find c_id with
  | none => raise L p
  | some sender =>
    match sender.m_room with
    | none => done L p
    | some key =>
      match L.m_rooms.find key with
      | none => done L p
      | some room =>
        let L := { L with m_rooms := L.m_rooms.set key room.hide_from_lobby }
        let players := room.m_players
        let p := p.write_int players.length
        let r := start_all L p c_id players.reverse
        if r.thrown then r
        else
          let p := r.p.write_header 0x1a3 id1 0
          done (r.lobby.send p .Everyone) p

/-- The loop of branch `0x1aa`: `(id, status)` pair for each id, in the order
given; the id is written before the player is looked up. -/
def status_all (L : Lobby) (p : Packet) : List Nat → Outcome
  | [] => done L p
  | p_id :: ids =>
    let p := p.write_int p_id
    match L.m_players.find p_id with
    | none => raise L p
    | some player => status_all L (p.write_byte player.m_status) ids

/-- Branch `0x1aa` (room update from host). -/
def on_1aa (L : Lobby) (p : Packet) (c_id : Nat) : Outcome :=
  let id1 := p.m_id1
  let (desc, p) := p.read_string
  let (info, p) := p.read_string
  match L.m_players.find c_id with
  | none => raise L p
  | some sender =>
    match sender.m_room with
    | none => done L p
    | some key =>
      match L.m_rooms.find key with
      | none => done L p
      | some room =>
        let players := room.m_players
        let L := { L with m_rooms := L.m_rooms.set key (room.set_info info) }
        let p := p.seek_to_start
        let p := p.write_int 8
        let p := p.write_string desc
        let p := p.write_string info
        let p := p.write_int 0
        let p := p.write_short 0
        let p := p.write_int players.length
        let r := status_all L p players.reverse
        if r.thrown then r
        else
          let p := r.p.write_header 0x1a5 id1 0
          done (r.lobby.send p .Everyone) p

/-- Branch `0x1b5` (player kicked from game). -/
def on_1b5 (L : Lobby) (p : Packet) : Outcome :=
  let (kick_id, p) := p.read_int
  let p := p.keep_whole_message 0x1b6
  let L := L.send p .Everyone
  let p := p.seek_to_start
  let p := p.write_byte 0
  let p := p.write_int 1
  let p := p.write_int kick_id
  let p := p.write_byte 1
  let p := p.write_header 0x1a1 kick_id 0
  done (L.send p .Everyone) p

/-- Branch `0x196` (lobby message). -/
def on_196 (L : Lobby) (p : Packet) : Outcome :=
  let id1 := p.m_id1
  let id2 := p.m_id2
  let p := p.keep_whole_message 0x197
  if 0 = id2 then done (L.send p .Everyone) p
  else if id1 = id2 then done (L.send p .Source) p
  else done ((L.send p .Source).send p .Id2) p

/-- Branch `0x1a8` (email form). -/
def on_1a8 (L : Lobby) (p : Packet) : Outcome :=
  let p := p.seek_to_end
  let p := p.write_byte 1
  let p := p.write_header 0x1a9
  done (L.send p .Source) p

/-- The string `ac` of branch `0x19a`: the characters allowed in a name. -/
def allowed_chars : Str :=
  lit "abcdefghijklmnopqrstuvwxyzABCDEFGHIJKLMNOPQRSTUVWXYZ0123456789()+-_.[]"

/-- The character `'_'`. -/
def underscore : Byte := 95

/-- Branch `0x19a`, "shrink or expand name length". -/
def fit_length (name : Str) : Str :=
  let len := name.length
  if 4 > len then name ++ List.replicate (4 - len) underscore
  else if 16 < len then name.take 16
  else name

/-- Branch `0x19a`, the lambda passed to `std::transform`. -/
def substitute (c : Byte) : Byte := if c ∈ allowed_chars then c else underscore

/-- Branch `0x19a`: the name made from the Game Key field. -/
def normalise_name (name : Str) : Str := (fit_length name).map substitute

/-- Branch `0x19a`, one pass of the loop "players in lobby". -/
def write_player_entry (p : Packet) (e : Nat × Player) : Packet :=
  let p := p.write_int e.1
  let p := p.write_byte e.2.m_status
  let p := p.write_string e.2.m_name
  let p := p.write_byte 0
  p.write_string e.2.m_props

/-- Branch `0x19a`, one pass of the loop "open rooms, reversed order". -/
def write_room_entry (p : Packet) (e : Nat × Room) : Packet :=
  if e.2.m_hidden then p
  else
    let pl := e.2.m_players
    let p := p.write_int e.1
    let p := p.write_int 8
    let p := p.write_string e.2.m_description
    let p := p.write_string e.2.m_info
    let p := p.write_int 0
    let p := p.write_short 0
    let p := p.write_int pl.length
    pl.reverse.foldl (fun p id => p.write_int id) p

/-- Branch `0x19a`: composition of the `0x19b` response. -/
def compose_19b (L : Lobby) (p : Packet) (c_id : Nat) (name props : Str) : Packet :=
  let p := p.seek_to_start
  let p := p.write_byte 0
  let p := p.write_string name
  let p := p.write_byte 0
  let p := p.write_int 0
  let p := p.write_int 0
  let p := p.write_int 0
  let p := p.write_int 0
  let p := p.write_int 0
  let p := p.write_string props
  let p := L.m_players.foldl write_player_entry p
  let p := p.write_int 0
  let p := L.m_rooms.reverse.foldl write_room_entry p
  let p := p.write_int 0
  p.write_header 0x19b c_id c_id

/-- Branch `0x19a`: composition of the `0x1a6` notification. -/
def compose_1a6 (p : Packet) (c_id : Nat) (player : Player) : Packet :=
  let p := p.seek_to_start
  let p := p.write_string player.m_name
  let p := p.write_byte 0
  let p := p.write_string player.m_props
  let p := p.write_byte player.m_status
  p.write_header 0x1a6 c_id 0

/-- Branch `0x19a`, the reads of the login form: `ver1`, `ver2`, email and
password skipped, then the Game Key as `name`. -/
def read_login (p : Packet) : Str × Str × Str × Packet :=
  let (ver1, p) := p.read_string
  let (ver2, p) := p.read_string
  let (l, p) := p.read_byte
  let p := p.seek l
  let (l, p) := p.read_byte
  let p := p.seek l
  let (name, p) := p.read_string
  (ver1, ver2, name, p)

/-- Branch `0x19a` (login form). -/
def on_19a (L : Lobby) (p : Packet) (c_id : Nat) : Outcome :=
  let (ver1, ver2, name, p) := read_login p
  let name := normalise_name name
  let player := L.m_players.emplaced c_id (Player.ctor c_id name ver1 ver2)
  let L := { L with m_players := L.m_players.emplace c_id (Player.ctor c_id name ver1 ver2) }
  let p := compose_19b L p c_id name player.m_props
  let L := L.send p .Source
  let p := compose_1a6 p c_id player
  done (L.send p .Everyone) p

/-- `Lobby::process_buf` (release build) for the Client with id `c_id` and
Session buffer `buf`. -/
def process_buf (L : Lobby) (c_id : Nat) (buf : Buffer) : Outcome :=
  let p := Packet.ctor buf c_id
  let cmd := p.m_cmd
  if 0x4b0 = cmd then forward L p p.m_cmd .PropagateInRoom
  else if 0x032 = cmd then forward L p p.m_cmd .EveryoneInRoomButSource
  else if 0x456 = cmd then forward L p p.m_cmd .PropagateInRoom
  else if 0x457 = cmd then forward L p p.m_cmd .EveryoneInRoomButSource
  else if 0x460 = cmd then forward L p p.m_cmd .RoomHost
  else if 0x461 = cmd then forward L p p.m_cmd .EveryoneInRoomButSource
  else if 0x064 = cmd then forward L p p.m_cmd .RoomHost
  else if 0x065 = cmd then forward L p p.m_cmd .RoomHost
  else if 0x066 = cmd then forward L p p.m_cmd .Source
  else if 0x192 = cmd then on_192 L p
  else if 0x1ab = cmd then forward L p 0x1ac .Everyone
  else if 0x1ad = cmd then on_1ad L p c_id
  else if 0x1b3 = cmd then on_1b3 L p c_id
  else if 0x1b7 = cmd then done L p
  else if 0x0c8 = cmd then forward L p p.m_cmd .EveryoneButSource
  else if 0x0c9 = cmd then forward L p p.m_cmd .Id2
  else if 0x19c = cmd then on_19c L p c_id
  else if 0x19e = cmd then on_19e L p
  else if 0x1a0 = cmd then on_1a0 L p c_id
  else if 0x1a2 = cmd then on_1a2 L p c_id
  else if 0x1aa = cmd then on_1aa L p c_id
  else if 0x1af = cmd then forward L p p.m_cmd .Everyone
  else if 0x1b5 = cmd then on_1b5 L p
  else if 0x1bb = cmd then forward L p 0x1bc .EveryoneInRoom
  else if 0x194 = cmd then forward L p 0x195 .EveryoneInRoom
  else if 0x196 = cmd then on_196 L p
  else if 0x1a8 = cmd then on_1a8 L p
  else if 0x198 = cmd then done L p
  else if 0x19a = cmd then on_19a L p c_id
  else done L p

/-- `Lobby::disconnect` for the Client with id `id` and Session buffer `buf`. -/
def disconnect (L : Lobby) (id : Nat) (buf : Buffer) : Outcome :=
  let L := { L with m_clients := L.m_clients.erase id }
  let p := Packet.ctor buf id
  match L.m_players.find id with
  | none => done L p
  | some player =>
    let r : Outcome :=
      if player.m_room.isSome then
        let p := p.write_header 0x1a0 id 0
        let r := process_buf L id p.m_buf
        { lobby := r.lobby,
          p := { p with m_buf := r.p.m_buf, oob_writes := p.oob_writes ++ r.p.oob_writes },
          thrown := r.thrown }
      else done L p
    if r.thrown then r
    else
      let L := r.lobby
      let p := r.p
      let L := { L with m_players := L.m_players.erase id }
      let p := p.seek_to_start
      let p := p.write_header 0x1a7 id 0
      done (L.send p .Everyone) p

end Lobby

/-! ## Session.hpp / Session.cpp -/

/-- The enum value `Session::max_packet_size` (1 MiB). -/
def max_packet_size : Nat := 0x100000

/-- The outcome `ec` of an asynchronous read: no error, `asio::error::eof`,
or any other error. -/
inductive ErrorCode where
  | success
  | eof
  | other
  deriving DecidableEq, Repr

/-- What the Session does next: the pending asynchronous operation after a
completion handler has run. -/
inductive RecvState where
  | ReadHeader
  | ReadBody (data_size : Nat)
  | Closed
  deriving DecidableEq, Repr

/-- State after a completion handler of the Session has run: the Lobby, the
Session buffer `m_buf`, the next read, the out-of-bounds stores made
meanwhile (ghost) and whether an exception left the handler. -/
structure Recv where
  lobby : Lobby
  m_buf : Buffer
  state : RecvState
  oob_writes : List Nat
  escaped : Bool
  deriving DecidableEq, Repr

namespace Session

/-- The `try { m_lobby.process_buf( self ); } catch ( const std::out_of_range )`
block followed by `do_read_header()`. -/
def dispatch (L : Lobby) (m_client_id : Nat) (m_buf : Buffer) : Recv :=
  let r := L.process_buf m_client_id m_buf
  { lobby := r.lobby, m_buf := r.p.m_buf, state := .ReadHeader,
    oob_writes := r.p.oob_writes, escaped := false }

/-- The call `m_lobby.disconnect( self )` that ends a completion handler. -/
def close (L : Lobby) (m_client_id : Nat) (m_buf : Buffer) : Recv :=
  let r := L.disconnect m_client_id m_buf
  { lobby := r.lobby, m_buf := r.p.m_buf, state := .Closed,
    oob_writes := r.p.oob_writes, escaped := r.thrown }

/-- The data size announced by the header: the first `unsigned int` of the
buffer, read through the union `byte_int` of `Session`. -/
def announced_size (m_buf : Buffer) : Nat :=
  (m_buf.getD 0 0).val + 256 * (m_buf.getD 1 0).val + 65536 * (m_buf.getD 2 0).val
    + 16777216 * (m_buf.getD 3 0).val

/-- The completion handler of `Session::do_read_header`; `m_buf` already holds
the bytes read. -/
def do_read_header (L : Lobby) (m_client_id : Nat) (m_buf : Buffer) (ec : ErrorCode)
    (bytes_read : Nat) : Recv :=
  match ec with
  | .success =>
    if packet_header_size > bytes_read then
      { lobby := L, m_buf := m_buf, state := .ReadHeader, oob_writes := [], escaped := false }
    else
      let data_size := announced_size m_buf
      if 0 = data_size then dispatch L m_client_id m_buf
      else if max_packet_size - packet_header_size < data_size then close L m_client_id m_buf
      else
        { lobby := L, m_buf := m_buf, state := .ReadBody data_size, oob_writes := [],
          escaped := false }
  | .eof => close L m_client_id m_buf
  | .other => close L m_client_id m_buf

/-- The completion handler of `Session::do_read_body`; `m_buf` already holds
the bytes read. -/
def do_read_body (L : Lobby) (m_client_id : Nat) (m_buf : Buffer) (data_size : Nat)
    (ec : ErrorCode) (bytes_read : Nat) : Recv :=
  match ec with
  | .success =>
    if data_size ≠ bytes_read then
      { lobby := L, m_buf := m_buf, state := .ReadHeader, oob_writes := [], escaped := false }
    else dispatch L m_client_id m_buf
  | .eof => close L m_client_id m_buf
  | .other => close L m_client_id m_buf

end Session

/-! ## Vocabulary of the statements -/

/-- The length prefix `write_string` puts in front of a string of length `l`. -/
def lenPrefix : LengthType → Nat → List Byte
  | .Byte, l => [toByte l]
  | .Short, l => le16 l
  | .Int, l => le32 l

/-- The bytes `write_string` produces for `s`. -/
def encString (lt : LengthType) (s : Str) : List Byte := lenPrefix lt s.length ++ s

/-- The 14 header bytes of a packet. -/
def encHeader (size cmd id1 id2 : Nat) : List Byte :=
  le32 size ++ le16 cmd ++ le32 id1 ++ le32 id2

/-- Room for `n` more bytes at the seek position: they stay inside the vector
and the seek position does not wrap. -/
def Packet.fits (p : Packet) (n : Nat) : Prop :=
  p.m_seek_pos + n ≤ p.m_buf.length ∧ p.m_seek_pos + n < 2 ^ 32

instance (p : Packet) (n : Nat) : Decidable (p.fits n) := by
  unfold Packet.fits; infer_instance

/-- The Packet with `bs` laid over the buffer at the seek position and the
seek position moved behind them. -/
def Packet.emit (p : Packet) (bs : List Byte) : Packet :=
  { p with
    m_buf := p.m_buf.take p.m_seek_pos ++ bs ++ p.m_buf.drop (p.m_seek_pos + bs.length)
    m_seek_pos := p.m_seek_pos + bs.length }

/-- The function `W` on Packets writes exactly the bytes `e` at the seek
position, whenever they fit. -/
def Emits (W : Packet → Packet) (e : List Byte) : Prop :=
  ∀ p : Packet, p.fits e.length → W p = p.emit e

/-- A wire packet: the 14 header bytes announcing `payload.length`, then the
payload. -/
def packetBytes (cmd id1 id2 : Nat) (payload : List Byte) : Buffer :=
  encHeader payload.length cmd id1 id2 ++ payload

/-- One entry of the player list of a `0x19b` response: id, status byte, name,
a zero byte (empty score string), props. -/
def encPlayerEntry (e : Nat × Player) : List Byte :=
  le32 e.1 ++ [toByte e.2.m_status] ++ encString .Byte e.2.m_name ++ [toByte 0]
    ++ encString .Byte e.2.m_props

/-- One entry of the room list of a `0x19b` response (nothing for a hidden
room): key, 8, description, info, six zero bytes, member count, member ids in
reverse order. -/
def encRoomEntry (e : Nat × Room) : List Byte :=
  if e.2.m_hidden then []
  else le32 e.1 ++ le32 8 ++ encString .Byte e.2.m_description ++ encString .Byte e.2.m_info
    ++ le32 0 ++ le16 0 ++ le32 e.2.m_players.length ++ e.2.m_players.reverse.flatMap le32

/-- The payload of a `0x19b` response listing `players` and `rooms`. -/
def payload_19b (name props : Str) (players : IdMap Player) (rooms : IdMap Room) : List Byte :=
  [toByte 0] ++ encString .Byte name ++ [toByte 0] ++ le32 0 ++ le32 0 ++ le32 0 ++ le32 0
    ++ le32 0 ++ encString .Byte props ++ players.flatMap encPlayerEntry ++ le32 0
    ++ rooms.reverse.flatMap encRoomEntry ++ le32 0

/-- The payload of a `0x1a6` notification. -/
def payload_1a6 (player : Player) : List Byte :=
  encString .Byte player.m_name ++ [toByte 0] ++ encString .Byte player.m_props
    ++ [toByte player.m_status]

/-- The payload of a `0x19d` notification. -/
def payload_19d (desc info : Str) (magic : Nat) : List Byte :=
  [toByte 7] ++ le32 8 ++ encString .Byte desc ++ encString .Byte info ++ le32 magic ++ le16 0

/-- A received `0x19a` packet: header, the five byte-prefixed fields of the
login form, then whatever else the buffer holds. -/
def login_packet (size id1 id2 : Nat) (ver1 ver2 email password game_key : Str)
    (rest : Buffer) : Buffer :=
  encHeader size 0x19a id1 id2 ++ (encString .Byte ver1 ++ (encString .Byte ver2 ++
    (encString .Byte email ++ (encString .Byte password ++ (encString .Byte game_key ++ rest)))))

/-- A received `0x19c` packet: header, five bytes that are skipped, the
byte-prefixed description and info, the magic `unsigned int`, then whatever
else the buffer holds. -/
def create_room_packet (size id1 id2 : Nat) (skipped : List Byte) (desc info : Str) (magic : Nat)
    (rest : Buffer) : Buffer :=
  encHeader size 0x19c id1 id2 ++ (skipped ++ (encString .Byte desc ++ (encString .Byte info ++
    (le32 magic ++ rest))))

/-- The characters the spec allows in a name: `a-z`, `A-Z`, `0-9` and
`( ) + - _ . [ ]`. -/
def isNameChar (c : Byte) : Prop :=
  (97 ≤ c.val ∧ c.val ≤ 122) ∨ (65 ≤ c.val ∧ c.val ≤ 90) ∨ (48 ≤ c.val ∧ c.val ≤ 57) ∨
    c.val = 40 ∨ c.val = 41 ∨ c.val = 43 ∨ c.val = 45 ∨ c.val = 95 ∨ c.val = 46 ∨
    c.val = 91 ∨ c.val = 93

instance (c : Byte) : Decidable (isNameChar c) := by
  unfold isNameChar; infer_instance

/-! ### Packets and states of the examples -/

/-- A buffer holding `bytes` followed by 200 zero bytes. -/
def padded (bytes : List Byte) : Buffer := bytes ++ List.replicate 200 0

/-- A login packet with Game Key `key`. -/
def login_of (key : String) : Buffer :=
  login_packet 21 0 0 (lit "1.0.0.7") (lit "2.0.7") (lit "a") (lit "b") (lit key)
    (List.replicate 200 0)

/-- A packet with command `cmd`, header ids `id1`, `id2` and no data. -/
def bare_packet (cmd id1 id2 : Nat) : Buffer := padded (encHeader 0 cmd id1 id2)

/-- A `0x19e` packet with header id `id1` that names the room of `host`. -/
def join_of (id1 host : Nat) : Buffer := padded (encHeader 4 0x19e id1 0 ++ le32 host)

/-- A `0x19c` packet with header id `id1` for a room described by `desc`. -/
def create_of (id1 : Nat) (desc : String) : Buffer :=
  create_room_packet 15 id1 0 [8, 0, 0, 0, 0] (lit desc) (lit "0") 200002 (List.replicate 200 0)

/-- Three clients connected and logged in as `alice`, `bob` and `carol` (ids
1, 2, 3), client 1 having created the room `r1`. -/
def lobby_r1 : Lobby :=
  let L := Lobby.ctor.connect.1.connect.1.connect.1
  let L := (L.process_buf 1 (login_of "alice")).lobby
  let L := (L.process_buf 2 (login_of "bob")).lobby
  let L := (L.process_buf 3 (login_of "carol")).lobby
  (L.process_buf 1 (create_of 1 "r1")).lobby

/-- The state `lobby_r1` after clients 2 and 3 have joined the room of 1. -/
def lobby_r123 : Lobby :=
  let L := (lobby_r1.process_buf 2 (join_of 2 1)).lobby
  (L.process_buf 3 (join_of 3 1)).lobby

/-- The state `lobby_r123` after client 1 has started the game. -/
def lobby_game : Lobby := (lobby_r123.process_buf 1 (bare_packet 0x1a2 1 0)).lobby

/-- The payload of a `0x1a1` notification: the flag byte, the number of
pairs, then for each listed id the pair of the id and the status `0x01` of a
player outside any room. -/
def payload_1a1 (flag : Nat) (ids : List Nat) : List Byte :=
  [toByte flag] ++ le32 ids.length ++ ids.flatMap (fun id => le32 id ++ [toByte 0x01])

/-- One entry of the dictionary of a `0x1bd` packet: key, value, separator. -/
def encEntry (key value : Str) : List Byte :=
  encString .Int key ++ encString .Int value ++ le32 0

/-- One item of the `clientslist` array: the key `*` and the decimal id. -/
def encClient (id : Nat) : List Byte :=
  encString .Int (lit "*") ++ encString .Int (Lobby.to_string id)

/-- The dictionary of a `0x1bd` packet for the new host `master` and the
remaining `clients`. -/
def dict_1bd (desc info : Str) (master : Nat) (clients : List Nat) : List Byte :=
  le32 0 ++ le32 1 ++ [toByte 0] ++ le32 6
    ++ encEntry (lit "gamename") desc
    ++ encEntry (lit "mapname") info
    ++ encEntry (lit "master") (Lobby.to_string master)
    ++ encEntry (lit "session") (lit "1337")
    ++ encEntry (lit "clients") (Lobby.to_string clients.length)
    ++ (encString .Int (lit "clientslist") ++ le32 1 ++ [toByte 0] ++ le32 clients.length
        ++ clients.flatMap encClient ++ le32 0)

/-- The payload of a `0x1bd` packet: the length of the dictionary, then the
dictionary. -/
def payload_1bd (desc info : Str) (master : Nat) (clients : List Nat) : List Byte :=
  le32 (dict_1bd desc info master clients).length ++ dict_1bd desc info master clients

/-- Clients 1, 2, 3 logged in, rooms created by 1 and by 2, and client 3
having joined the room of 1 and then, without leaving it, the room of 2. -/
def lobby_two_rooms : Lobby :=
  let L := (lobby_r1.process_buf 2 (create_of 2 "r2")).lobby
  let L := (L.process_buf 3 (join_of 3 1)).lobby
  (L.process_buf 3 (join_of 3 2)).lobby

/-- The state `lobby_two_rooms` after client 3 has disconnected. -/
def lobby_stale_member : Lobby := (lobby_two_rooms.disconnect 3 (padded [])).lobby

/-- Clients 1, 2, 3, 4 logged in, rooms created by 1 and by 4; 3 and then 2
have joined the room of 1, 3 has joined the room of 4 as well and has then
disconnected. -/
def lobby_stale_second : Lobby :=
  let L := Lobby.ctor.connect.1.connect.1.connect.1.connect.1
  let L := (L.process_buf 1 (login_of "alice")).lobby
  let L := (L.process_buf 2 (login_of "bob")).lobby
  let L := (L.process_buf 3 (login_of "carol")).lobby
  let L := (L.process_buf 4 (login_of "dave")).lobby
  let L := (L.process_buf 1 (create_of 1 "r1")).lobby
  let L := (L.process_buf 4 (create_of 4 "r4")).lobby
  let L := (L.process_buf 3 (join_of 3 1)).lobby
  let L := (L.process_buf 2 (join_of 2 1)).lobby
  let L := (L.process_buf 3 (join_of 3 4)).lobby
  (L.disconnect 3 (padded [])).lobby

/-- A call into the Lobby: `Server` connects a new Session, a Session hands
over its buffer with a received packet, a Session disconnects. -/
inductive Event where
  | connect : Event
  | packet (c_id : Nat) (buf : Buffer) : Event
  | disconnect (c_id : Nat) (buf : Buffer) : Event

/-- The Lobby after one call; a `std::out_of_range` thrown by `process_buf`
is caught by the Session and the Lobby stays as the throw left it. -/
def Lobby.step (L : Lobby) : Event → Lobby
  | .connect => L.connect.1
  | .packet c_id buf => (L.process_buf c_id buf).lobby
  | .disconnect c_id buf => (L.disconnect c_id buf).lobby

/-- The Lobby after a sequence of calls. -/
def Lobby.run (L : Lobby) (es : List Event) : Lobby := es.foldl Lobby.step L

/-- The ids handed out by the `connect` calls of a sequence of calls, in the
order of the calls. -/
def Lobby.issued (L : Lobby) : List Event → List Nat
  | [] => []
  | .connect :: es => L.connect.2 :: Lobby.issued L.connect.1 es
  | .packet c_id buf :: es => Lobby.issued (L.process_buf c_id buf).lobby es
  | .disconnect c_id buf :: es => Lobby.issued (L.disconnect c_id buf).lobby es

/-- The number of `connect` calls in a sequence of calls. -/
def connects : List Event → Nat
  | [] => 0
  | .connect :: es => connects es + 1
  | _ :: es => connects es

/-- What no packet and no disconnect undoes: the id counter stays, every
registered client keeps being one, and nobody else becomes one. -/
def Lobby.Keeps (L L' : Lobby) : Prop :=
  L'.m_last_issued_id = L.m_last_issued_id ∧
  ∀ k, (L'.m_clients.find k).isSome = (L.m_clients.find k).isSome

/-- Every Player of `L` is a Player of `L'` with the same properties string. -/
def Lobby.KeepsProps (L L' : Lobby) : Prop :=
  ∀ k pl, L.m_players.find k = some pl →
    ∃ pl', L'.m_players.find k = some pl' ∧ pl'.m_props = pl.m_props

/-- The entry of a room that is not hidden in the room list of a `0x19b`
response: key, u32 8, description, info, six zero bytes, member count, member
ids in reverse member order. -/
def encVisibleRoom (e : Nat × Room) : List Byte :=
  le32 e.1 ++ le32 8 ++ encString .Byte e.2.m_description ++ encString .Byte e.2.m_info
    ++ List.replicate 6 0 ++ le32 e.2.m_players.length ++ e.2.m_players.reverse.flatMap le32

/-- The room section of a `0x19b` response: the rooms that are not hidden,
last key first. -/
def room_section (rooms : IdMap Room) : List Byte :=
  (rooms.reverse.filter (fun e => !e.2.m_hidden)).flatMap encVisibleRoom

/-- The part of the payload of a `0x19b` response before the room section. -/
def login_head (name props : Str) (players : IdMap Player) : List Byte :=
  [toByte 0] ++ encString .Byte name ++ [toByte 0] ++ le32 0 ++ le32 0 ++ le32 0 ++ le32 0
    ++ le32 0 ++ encString .Byte props ++ players.flatMap encPlayerEntry ++ le32 0

/-- The state `lobby_r1` after client 2 has joined the room of 1 and has
then, as a member, sent the start-game packet `0x1a2`. -/
def lobby_member_start : Lobby :=
  let L := (lobby_r1.process_buf 2 (join_of 2 1)).lobby
  (L.process_buf 2 (bare_packet 0x1a2 2 0)).lobby

/-- The state `lobby_r1` after client 2 has joined the room of 1 twice. -/
def lobby_joined_twice : Lobby :=
  let L := (lobby_r1.process_buf 2 (join_of 2 1)).lobby
  (L.process_buf 2 (join_of 2 1)).lobby

/-- The room links met by the calls `m_players.at( p_id )->leave_room()` of
the member loop of branch `0x1a0`, in call order: for each call the value of
`m_room` that the `assert` at the top of `Player::leave_room` tests. The
Lobby evolves as in `leave_all`, and a failed lookup ends the loop. -/
def Lobby.leave_links (L : Lobby) : List Nat → List (Option Nat)
  | [] => []
  | p_id :: ids =>
    match L.m_players.find p_id with
    | none => []
    | some pl =>
      pl.m_room :: Lobby.leave_links
        { L with m_players := L.m_players.set p_id (pl.leave_room L.m_rooms).1,
                 m_rooms := (pl.leave_room L.m_rooms).2 } ids

/-- Whether a sequence of calls can come from the Server and its Sessions: a
packet is handed over, and a disconnect is reported, only by the Session of a
registered Client. (The calls of a running server are among these; calls
after a `disconnect` that threw are admitted as well.) -/
def Lobby.admits (L : Lobby) : List Event → Bool
  | [] => true
  | .connect :: es => Lobby.admits L.connect.1 es
  | .packet c_id buf :: es =>
    L.m_clients.contains c_id && Lobby.admits (L.process_buf c_id buf).lobby es
  | .disconnect c_id buf :: es =>
    L.m_clients.contains c_id && Lobby.admits (L.disconnect c_id buf).lobby es

/-- What holds of the three maps in every state the Server can reach: the
Client ids are 32-bit values, a Room is stored under its host id, a Player is
stored under its id, and a Player with a room link is linked to a Room that
is in `m_rooms` and lists the Player. -/
def Lobby.Inv (L : Lobby) : Prop :=
  (∀ k, (L.m_clients.find k).isSome → k < 2 ^ 32) ∧
  (∀ k R, L.m_rooms.find k = some R → R.m_host_id = k) ∧
  (∀ k P, L.m_players.find k = some P → P.m_id = k) ∧
  (∀ k P r, L.m_players.find k = some P → P.m_room = some r →
    ∃ R, L.m_rooms.find r = some R ∧ k ∈ R.m_players)

/-- No Room is new in `L'`, and every Room of `L'` has the description it has
in `L`. -/
def Lobby.KeepsRooms (L L' : Lobby) : Prop :=
  ∀ k R', L'.m_rooms.find k = some R' →
    ∃ R, L.m_rooms.find k = some R ∧ R'.m_description = R.m_description

/-- What every call keeps: the facts `Inv` once they hold, and the Rooms with
their descriptions. -/
def Lobby.Step (L L1 : Lobby) : Prop := (Lobby.Inv L → Lobby.Inv L1) ∧ Lobby.KeepsRooms L L1

/-- A well-formed frame: at least the 14 header bytes, the first four bytes
holding, little-endian, the number of bytes behind the header. -/
def Frame (s : Buffer) : Prop := 14 ≤ s.length ∧ s.take 4 = le32 (s.length - 14)

/-- The slice `Lobby::send` would queue for this Packet is a well-formed
frame (nothing is queued when the send size is 0). -/
def Packet.Framed (p : Packet) : Prop :=
  p.m_send_size = 0 ∨ Frame (p.m_buf.take p.m_send_size)

/-- The seek position lies behind the header and inside the buffer, whose
size is a 32-bit value. -/
def Packet.InBuf (p : Packet) : Prop :=
  14 ≤ p.m_seek_pos ∧ p.m_seek_pos ≤ p.m_buf.length ∧ p.m_buf.length < 2 ^ 32

/-- A run of writes `W` that records a write outside the buffer whenever one
happens: a result without such a record means that there was none before,
and, for a Packet positioned inside the buffer, that the seek position is
still inside it and that a framed slice is still framed. -/
def Tight (W : Packet → Packet) : Prop :=
  (∀ p : Packet, (W p).oob_writes = [] → p.oob_writes = []) ∧
  (∀ p : Packet, p.InBuf → (W p).oob_writes = [] →
    (W p).InBuf ∧ (p.Framed → (W p).Framed))

/-- Every queue of `L'` is the queue the same Client has in `L` followed by
slices that are well-formed frames. -/
def Lobby.Sends (L L' : Lobby) : Prop :=
  ∀ k q', L'.m_clients.find k = some q' →
    ∃ q news, L.m_clients.find k = some q ∧ q' = q ++ news ∧ ∀ s ∈ news, Frame s

/-! ## Lemmas on bytes -/

theorem toByte_val (n : Nat) : (toByte n).val = n % 256 := rfl

theorem toByte_of_val (b : Byte) : toByte b.val = b := by
  apply Fin.ext
  simp [toByte, Nat.mod_eq_of_lt b.isLt]

theorem le32_length (i : Nat) : (le32 i).length = 4 := rfl

theorem le16_length (i : Nat) : (le16 i).length = 2 := rfl

theorem lenPrefix_length (lt : LengthType) (l : Nat) : (lenPrefix lt l).length = lt.width := by
  cases lt <;> rfl

theorem encString_length (lt : LengthType) (s : Str) :
    (encString lt s).length = lt.width + s.length := by
  simp [encString, lenPrefix_length]

theorem encHeader_length (size cmd id1 id2 : Nat) : (encHeader size cmd id1 id2).length = 14 := rfl

/-! ## Lemmas on the codec: writes that fit -/

theorem overlay_overlay {α : Type} (l a b : List α) (pos : Nat) (h : pos + a.length ≤ l.length) :
    List.take (pos + a.length) (List.take pos l ++ a ++ List.drop (pos + a.length) l) ++ b ++
      List.drop (pos + a.length + b.length) (List.take pos l ++ a ++ List.drop (pos + a.length) l)
    = List.take pos l ++ (a ++ b) ++ List.drop (pos + (a.length + b.length)) l := by
  have h1 : (List.take pos l ++ a).length = pos + a.length := by
    simp; omega
  rw [List.take_left' h1]
  have h2 : pos + a.length + b.length = (List.take pos l ++ a).length + b.length := by rw [h1]
  rw [h2, List.drop_append, List.drop_drop]
  simp [List.append_assoc, Nat.add_assoc]

theorem overlay_length {α : Type} (l a : List α) (pos : Nat) (h : pos + a.length ≤ l.length) :
    (List.take pos l ++ a ++ List.drop (pos + a.length) l).length = l.length := by
  simp; omega

namespace Packet

theorem store_of_lt (p : Packet) (i : Nat) (b : Byte) (h : i < p.m_buf.length) :
    p.store i b = { p with m_buf := p.m_buf.take i ++ [b] ++ p.m_buf.drop (i + 1) } := by
  simp [store, h, List.set_eq_take_append_cons_drop]

theorem emit_nil (p : Packet) : p.emit [] = p := by
  simp [emit]

theorem emit_buf_length (p : Packet) (a : List Byte) (h : p.m_seek_pos + a.length ≤ p.m_buf.length) :
    (p.emit a).m_buf.length = p.m_buf.length :=
  overlay_length _ _ _ h

theorem emit_emit (p : Packet) (a b : List Byte) (h : p.m_seek_pos + a.length ≤ p.m_buf.length) :
    (p.emit a).emit b = p.emit (a ++ b) := by
  cases p
  simp only [emit, Packet.mk.injEq, true_and, List.length_append, and_true]
  exact ⟨by omega, overlay_overlay _ _ _ _ h⟩

theorem fits_emit (p : Packet) (a : List Byte) (n : Nat) (h : p.fits (a.length + n)) :
    (p.emit a).fits n := by
  obtain ⟨h1, h2⟩ := h
  refine ⟨?_, ?_⟩
  · rw [emit_buf_length p a (by omega)]
    show p.m_seek_pos + a.length + n ≤ _
    omega
  · show p.m_seek_pos + a.length + n < _
    omega

theorem fits_mono (p : Packet) (m n : Nat) (h : p.fits n) (hmn : m ≤ n) : p.fits m :=
  ⟨by have := h.1; omega, by have := h.2; omega⟩

theorem write_byte_emit (p : Packet) (n : Nat) (h : p.fits 1) :
    p.write_byte n = p.emit [toByte n] := by
  obtain ⟨h1, h2⟩ := h
  rw [write_byte, store_of_lt p _ _ (by omega)]
  simp only [advance, emit, List.length_singleton]
  rw [Nat.mod_eq_of_lt h2]

theorem write_short_emit (p : Packet) (n : Nat) (h : p.fits 2) :
    p.write_short n = p.emit (le16 n) := by
  rw [write_short, write_byte_emit p _ (fits_mono p 1 2 h (by omega)),
    write_byte_emit _ _ (fits_emit p [toByte n] 1 h), emit_emit _ _ _ (by have := h.1; simp; omega)]
  rfl

theorem write_int_emit (p : Packet) (n : Nat) (h : p.fits 4) :
    p.write_int n = p.emit (le32 n) := by
  have e1 := write_byte_emit p n (fits_mono p 1 4 h (by omega))
  have f1 : (p.emit [toByte n]).fits 3 := fits_emit p _ 3 h
  have e2 := write_byte_emit _ (n / 256) (fits_mono _ 1 3 f1 (by omega))
  rw [emit_emit _ _ _ (by have := h.1; simp; omega)] at e2
  have f2 : (p.emit ([toByte n] ++ [toByte (n / 256)])).fits 2 := fits_emit p _ 2 h
  have e3 := write_byte_emit _ (n / 65536) (fits_mono _ 1 2 f2 (by omega))
  rw [emit_emit _ _ _ (by have := h.1; simp; omega)] at e3
  have f3 : (p.emit ([toByte n] ++ [toByte (n / 256)] ++ [toByte (n / 65536)])).fits 1 :=
    fits_emit p _ 1 h
  have e4 := write_byte_emit _ (n / 16777216) f3
  rw [emit_emit _ _ _ (by have := h.1; simp; omega)] at e4
  rw [write_int, e1, e2, e3, e4]
  rfl

theorem memcpy_of_le (s : Str) (p : Packet) (i : Nat) (h : i + s.length ≤ p.m_buf.length) :
    p.memcpy i s =
      { p with m_buf := p.m_buf.take i ++ s ++ p.m_buf.drop (i + s.length) } := by
  induction s generalizing p i with
  | nil => simp [memcpy]
  | cons b bs ih =>
    have hl : i < p.m_buf.length := by simp at h; omega
    rw [memcpy, store_of_lt p i b hl]
    have hlen : (List.take i p.m_buf ++ [b] ++ List.drop (i + 1) p.m_buf).length
        = p.m_buf.length := overlay_length _ [b] _ (by simpa using hl)
    rw [ih _ _ (by simp only [hlen]; simp at h; omega)]
    have key := overlay_overlay p.m_buf [b] bs i (by simpa using hl)
    simp only [List.length_singleton] at key
    cases p
    simp only [Packet.mk.injEq, true_and, and_true, List.length_cons]
    simp only [] at key
    rw [key]
    simp [Nat.add_comm]

theorem memcpy_advance_emit (p : Packet) (s : Str) (h : p.fits s.length) :
    (p.memcpy p.m_seek_pos s).advance s.length = p.emit s := by
  rw [memcpy_of_le s _ _ h.1]
  simp only [advance, emit]
  rw [Nat.mod_eq_of_lt h.2]

theorem write_string_emit (p : Packet) (s : Str) (lt : LengthType)
    (h : p.fits (lt.width + s.length)) : p.write_string s lt = p.emit (encString lt s) := by
  have hf : (p.emit (lenPrefix lt s.length)).fits s.length :=
    fits_emit p _ _ (by rw [lenPrefix_length]; exact h)
  have hw : p.m_seek_pos + (lenPrefix lt s.length).length ≤ p.m_buf.length := by
    have := h.1; rw [lenPrefix_length]; omega
  cases lt
  · simp only [write_string]
    rw [write_byte_emit p _ (fits_mono p _ _ h (by simp [LengthType.width]))]
    exact (memcpy_advance_emit _ s hf).trans (emit_emit _ _ _ hw)
  · simp only [write_string]
    rw [write_short_emit p _ (fits_mono p _ _ h (by simp [LengthType.width]))]
    exact (memcpy_advance_emit _ s hf).trans (emit_emit _ _ _ hw)
  · simp only [write_string]
    rw [write_int_emit p _ (fits_mono p _ _ h (by simp [LengthType.width]))]
    exact (memcpy_advance_emit _ s hf).trans (emit_emit _ _ _ hw)

theorem write_header_emit (q : Packet) (a b c d : Nat) (hs : q.m_seek_pos = 0)
    (h : 14 ≤ q.m_buf.length) :
    (((q.write_int a).write_short b).write_int c).write_int d = q.emit (encHeader a b c d) := by
  have f : ∀ n, n ≤ 14 → q.fits n := fun n hn => ⟨by rw [hs]; omega, by rw [hs]; omega⟩
  have hle : ∀ (x : List Byte), x.length ≤ 14 → q.m_seek_pos + x.length ≤ q.m_buf.length :=
    fun x hx => by rw [hs]; omega
  rw [write_int_emit q _ (f 4 (by omega)),
    write_short_emit _ _ (fits_emit q _ 2 (f _ (by simp [le32_length]))),
    emit_emit _ _ _ (hle _ (by simp [le32_length])),
    write_int_emit _ _ (fits_emit q _ 4 (f _ (by simp [le32_length, le16_length]))),
    emit_emit _ _ _ (hle _ (by simp [le32_length, le16_length])),
    write_int_emit _ _ (fits_emit q _ 4 (f _ (by simp [le32_length, le16_length]))),
    emit_emit _ _ _ (hle _ (by simp [le32_length, le16_length]))]
  rfl

theorem write_header_of_le (p : Packet) (cmd id1 id2 : Nat) (h : 14 ≤ p.m_buf.length) :
    p.write_header cmd id1 id2 =
      { p with
        m_send_size := p.m_seek_pos
        m_size := (p.m_seek_pos % 2 ^ 32 + 2 ^ 32 - packet_header_size) % 2 ^ 32
        m_cmd := cmd % 2 ^ 16
        m_id1 := id1 % 2 ^ 32
        m_id2 := id2 % 2 ^ 32
        m_seek_pos := 14
        m_buf := encHeader ((p.m_seek_pos % 2 ^ 32 + 2 ^ 32 - packet_header_size) % 2 ^ 32)
          (cmd % 2 ^ 16) (id1 % 2 ^ 32) (id2 % 2 ^ 32) ++ p.m_buf.drop 14 } := by
  simp only [write_header]
  rw [write_header_emit]
  · simp only [emit]
    simp only [Packet.mk.injEq, true_and]
    rw [encHeader_length]
    refine ⟨Nat.zero_add 14, ?_, trivial⟩
    rw [List.take_zero, List.nil_append, Nat.zero_add]
  · rfl
  · exact h

theorem ctor_encHeader (size cmd id1 id2 src : Nat) (rest : Buffer) :
    ctor (encHeader size cmd id1 id2 ++ rest) src =
      { m_source_id := src, m_send_size := 0, m_size := size % 2 ^ 32, m_cmd := cmd % 2 ^ 16,
        m_id1 := id1 % 2 ^ 32, m_id2 := id2 % 2 ^ 32, m_seek_pos := 14,
        m_buf := encHeader size cmd id1 id2 ++ rest, oob_writes := [] } := by
  simp only [ctor, read_int, read_short, read_byte, load, advance, encHeader, le32, le16,
    List.cons_append, List.nil_append, Packet.mk.injEq, true_and, and_true]
  simp [toByte]
  refine ⟨?_, ?_, ?_, ?_⟩ <;> omega

end Packet

/-! ## Lemmas on the codec: reads -/

theorem getD_overlay (l bs rest : List Byte) (pos i : Nat) (hp : pos ≤ l.length)
    (hi : i < bs.length) :
    (List.take pos l ++ bs ++ rest).getD (pos + i) 0 = bs.getD i 0 := by
  have h1 : (List.take pos l).length = pos := by simp; omega
  rw [List.getD_append _ _ _ _ (by simp; omega), List.getD_append_right _ _ _ _ (by omega), h1]
  congr 1
  omega

theorem map_range_getD (s : List Byte) :
    (List.range s.length).map (fun i => s.getD i 0) = s := by
  apply List.ext_getElem
  · simp
  · intro n h1 h2
    simp [List.getD_eq_getElem?_getD, h2]

namespace Packet

theorem read_string_of_load (q : Packet) (lt : LengthType) (s : Str)
    (hs : s.length < 2 ^ (8 * lt.width)) (h32 : q.m_seek_pos + lt.width + s.length < 2 ^ 32)
    (hpre : ∀ i, i < lt.width → q.load (q.m_seek_pos + i) = (lenPrefix lt s.length).getD i 0)
    (hbody : (List.range s.length).map (fun i => q.load (q.m_seek_pos + lt.width + i)) = s) :
    q.read_string lt = (s, { q with m_seek_pos := q.m_seek_pos + lt.width + s.length }) := by
  cases lt
  · simp only [LengthType.width] at hs h32 hpre hbody
    have p0 := hpre 0 (by omega)
    simp only [lenPrefix, List.getD_cons_zero, Nat.add_zero] at p0
    have e1 : (q.m_seek_pos + 1) % 2 ^ 32 = q.m_seek_pos + 1 := Nat.mod_eq_of_lt (by omega)
    have e2 : (q.m_seek_pos + 1 + s.length) % 2 ^ 32 = q.m_seek_pos + 1 + s.length :=
      Nat.mod_eq_of_lt (by omega)
    have v0 : (toByte s.length).val = s.length := Nat.mod_eq_of_lt (by omega)
    simp only [load] at p0 hbody
    simp only [read_string, read_byte, advance, load, p0, v0, e1, e2, hbody, LengthType.width]
  · simp only [LengthType.width] at hs h32 hpre hbody
    have p0 := hpre 0 (by omega)
    have p1 := hpre 1 (by omega)
    simp only [lenPrefix, le16, List.getD_cons_zero, List.getD_cons_succ, Nat.add_zero] at p0 p1
    have e1 : (q.m_seek_pos + 1) % 2 ^ 32 = q.m_seek_pos + 1 := Nat.mod_eq_of_lt (by omega)
    have e2 : (q.m_seek_pos + 1 + 1) % 2 ^ 32 = q.m_seek_pos + 2 := Nat.mod_eq_of_lt (by omega)
    have e3 : (q.m_seek_pos + 2 + s.length) % 2 ^ 32 = q.m_seek_pos + 2 + s.length :=
      Nat.mod_eq_of_lt (by omega)
    have v0 : (toByte s.length).val + 256 * (toByte (s.length / 256)).val = s.length := by
      simp only [toByte_val]; omega
    simp only [load] at p0 p1 hbody
    simp only [read_string, read_short, read_byte, advance, load, p0, p1, v0, e1, e2, e3, hbody,
      LengthType.width]
  · simp only [LengthType.width] at hs h32 hpre hbody
    have p0 := hpre 0 (by omega)
    have p1 := hpre 1 (by omega)
    have p2 := hpre 2 (by omega)
    have p3 := hpre 3 (by omega)
    simp only [lenPrefix, le32, List.getD_cons_zero, List.getD_cons_succ, Nat.add_zero]
      at p0 p1 p2 p3
    have e1 : (q.m_seek_pos + 1) % 2 ^ 32 = q.m_seek_pos + 1 := Nat.mod_eq_of_lt (by omega)
    have e2 : (q.m_seek_pos + 1 + 1) % 2 ^ 32 = q.m_seek_pos + 2 := Nat.mod_eq_of_lt (by omega)
    have e3 : (q.m_seek_pos + 2 + 1) % 2 ^ 32 = q.m_seek_pos + 3 := Nat.mod_eq_of_lt (by omega)
    have e4 : (q.m_seek_pos + 3 + 1) % 2 ^ 32 = q.m_seek_pos + 4 := Nat.mod_eq_of_lt (by omega)
    have e5 : (q.m_seek_pos + 4 + s.length) % 2 ^ 32 = q.m_seek_pos + 4 + s.length :=
      Nat.mod_eq_of_lt (by omega)
    have v0 : (toByte s.length).val + 256 * (toByte (s.length / 256)).val
        + 65536 * (toByte (s.length / 65536)).val
        + 16777216 * (toByte (s.length / 16777216)).val = s.length := by
      simp only [toByte_val]; omega
    simp only [load] at p0 p1 p2 p3 hbody
    simp only [read_string, read_int, read_byte, advance, load, p0, p1, p2, p3, v0, e1, e2, e3,
      e4, e5, hbody, LengthType.width]

theorem load_emit (p : Packet) (bs : List Byte) (i c : Nat) (hp : p.m_seek_pos ≤ p.m_buf.length)
    (hi : i < bs.length) :
    ({ p.emit bs with m_seek_pos := c } : Packet).load (p.m_seek_pos + i) = bs.getD i 0 :=
  getD_overlay _ _ _ _ _ hp hi

theorem read_body_emit (p : Packet) (pre s : List Byte) (c : Nat)
    (hp : p.m_seek_pos ≤ p.m_buf.length) :
    (List.range s.length).map
      (fun i => ({ p.emit (pre ++ s) with m_seek_pos := c } : Packet).load
        (p.m_seek_pos + pre.length + i)) = s := by
  have : ∀ i, i < s.length →
      ({ p.emit (pre ++ s) with m_seek_pos := c } : Packet).load (p.m_seek_pos + pre.length + i)
        = s.getD i 0 := by
    intro i hi
    rw [Nat.add_assoc, load_emit p (pre ++ s) (pre.length + i) c hp (by simp; omega),
      List.getD_append_right _ _ _ _ (by omega)]
    congr 1
    omega
  conv_rhs => rw [← map_range_getD s]
  apply List.map_congr_left
  intro i hi
  exact this i (List.mem_range.mp hi)

end Packet

/-- C1: after `write_header( cmd, id1, id2 )` at a cursor `c` with
`14 ≤ c ≤ buffer length`, a new `Packet` over the same buffer decodes `cmd`,
`id1`, `id2` and `size = c - 14` and has its cursor at 14; `send_size` is `c`. -/
theorem C1_write_header_roundtrip (p : Packet) (cmd id1 id2 source_id : Nat)
    (hlo : 14 ≤ p.m_seek_pos) (hhi : p.m_seek_pos ≤ p.m_buf.length)
    (hc : p.m_seek_pos < 2 ^ 32) (hcmd : cmd < 2 ^ 16) (h1 : id1 < 2 ^ 32) (h2 : id2 < 2 ^ 32) :
    (Packet.ctor (p.write_header cmd id1 id2).m_buf source_id).m_cmd = cmd ∧
    (Packet.ctor (p.write_header cmd id1 id2).m_buf source_id).m_id1 = id1 ∧
    (Packet.ctor (p.write_header cmd id1 id2).m_buf source_id).m_id2 = id2 ∧
    (Packet.ctor (p.write_header cmd id1 id2).m_buf source_id).m_size = p.m_seek_pos - 14 ∧
    (Packet.ctor (p.write_header cmd id1 id2).m_buf source_id).m_seek_pos = 14 ∧
    (p.write_header cmd id1 id2).m_send_size = p.m_seek_pos := by
  rw [Packet.write_header_of_le p cmd id1 id2 (by omega)]
  simp only [Packet.ctor_encHeader, packet_header_size]
  refine ⟨?_, ?_, ?_, ?_, trivial, trivial⟩ <;> omega

theorem C1_write_header_roundtrip_witness :
    (Packet.ctor ((Packet.mk 1 0 0 0 0 0 17 (List.replicate 20 7) []).write_header
      0x19b 5 6).m_buf 9).m_size = 17 - 14 :=
  (C1_write_header_roundtrip (Packet.mk 1 0 0 0 0 0 17 (List.replicate 20 7) [])
    0x19b 5 6 9 (by decide) (by decide) (by decide) (by decide) (by decide) (by decide)).2.2.2.1

/-- C2: `write_string( s, W )` at cursor `c` followed by `read_string( W )`
from `c` returns `s` and leaves the cursor at `c + width + |s|` (the Packet
read from ends up equal to the Packet written to), when `|s| < 2^(8*width)`
and `c + width + |s|` lies inside the buffer. -/
theorem C2_string_roundtrip (p : Packet) (s : Str) (lt : LengthType)
    (hlen : s.length < 2 ^ (8 * lt.width))
    (hfit : p.m_seek_pos + lt.width + s.length ≤ p.m_buf.length)
    (hbuf : p.m_buf.length < 2 ^ 32) :
    ({ p.write_string s lt with m_seek_pos := p.m_seek_pos } : Packet).read_string lt
      = (s, p.write_string s lt) ∧
    (p.write_string s lt).m_seek_pos = p.m_seek_pos + lt.width + s.length := by
  have hf : p.fits (lt.width + s.length) := ⟨by omega, by omega⟩
  have hp : p.m_seek_pos ≤ p.m_buf.length := by omega
  rw [Packet.write_string_emit p s lt hf]
  refine ⟨?_, by simp [Packet.emit, encString_length, Nat.add_assoc]⟩
  have hq := Packet.read_string_of_load
    ({ p.emit (encString lt s) with m_seek_pos := p.m_seek_pos } : Packet) lt s hlen
    (by show p.m_seek_pos + lt.width + s.length < 2 ^ 32; omega)
    (fun i hi => by
      rw [show (lenPrefix lt s.length).getD i 0 = (encString lt s).getD i 0 from
        (List.getD_append _ _ _ _ (by rw [lenPrefix_length]; exact hi)).symm]
      exact Packet.load_emit p _ i _ hp (by rw [encString_length]; omega))
    (by
      have hb := Packet.read_body_emit p (lenPrefix lt s.length) s p.m_seek_pos hp
      rw [lenPrefix_length] at hb
      exact hb)
  rw [hq]
  simp [Packet.emit, encString_length, Nat.add_assoc]

theorem C2_string_roundtrip_witness :
    ({ (Packet.mk 1 0 0 0 0 0 14 (List.replicate 30 0) []).write_string [104, 105] .Short with
        m_seek_pos := 14 } : Packet).read_string .Short
      = ([104, 105], (Packet.mk 1 0 0 0 0 0 14 (List.replicate 30 0) []).write_string
          [104, 105] .Short) :=
  (C2_string_roundtrip (Packet.mk 1 0 0 0 0 0 14 (List.replicate 30 0) []) [104, 105] .Short
    (by decide) (by decide) (by decide)).1

/-! ## Forwarding -/

theorem exists_header (buf : Buffer) (h : 14 ≤ buf.length) :
    ∃ b0 b1 b2 b3 b4 b5 b6 b7 b8 b9 b10 b11 b12 b13 rest,
      buf = b0 :: b1 :: b2 :: b3 :: b4 :: b5 :: b6 :: b7 :: b8 :: b9 :: b10 :: b11 :: b12 :: b13
        :: rest := by
  match buf, h with
  | b0 :: b1 :: b2 :: b3 :: b4 :: b5 :: b6 :: b7 :: b8 :: b9 :: b10 :: b11 :: b12 :: b13 :: rest,
    _ => exact ⟨b0, b1, b2, b3, b4, b5, b6, b7, b8, b9, b10, b11, b12, b13, rest, rfl⟩

theorem toByte_le32_0 (b0 b1 b2 b3 : Byte) :
    toByte (b0.val + 256 * b1.val + 65536 * b2.val + 16777216 * b3.val) = b0 := by
  apply Fin.ext; simp only [toByte_val]; omega

theorem toByte_le32_1 (b0 b1 b2 b3 : Byte) :
    toByte ((b0.val + 256 * b1.val + 65536 * b2.val + 16777216 * b3.val) / 256) = b1 := by
  apply Fin.ext; simp only [toByte_val]; omega

theorem toByte_le32_2 (b0 b1 b2 b3 : Byte) :
    toByte ((b0.val + 256 * b1.val + 65536 * b2.val + 16777216 * b3.val) / 65536) = b2 := by
  apply Fin.ext; simp only [toByte_val]; omega

theorem toByte_le32_3 (b0 b1 b2 b3 : Byte) :
    toByte ((b0.val + 256 * b1.val + 65536 * b2.val + 16777216 * b3.val) / 16777216) = b3 := by
  apply Fin.ext; simp only [toByte_val]; omega

theorem le32_decode (b0 b1 b2 b3 : Byte) :
    le32 (b0.val + 256 * b1.val + 65536 * b2.val + 16777216 * b3.val) = [b0, b1, b2, b3] := by
  simp only [le32, toByte_le32_0, toByte_le32_1, toByte_le32_2, toByte_le32_3]

theorem le32_mod (n : Nat) : le32 (n % 2 ^ 32) = le32 n := by
  simp only [le32, List.cons.injEq, and_true]
  refine ⟨?_, ?_, ?_, ?_⟩ <;> apply Fin.ext <;> simp only [toByte_val] <;> omega

theorem le16_mod (n : Nat) : le16 (n % 2 ^ 16) = le16 n := by
  simp only [le16, List.cons.injEq, and_true]
  refine ⟨?_, ?_⟩ <;> apply Fin.ext <;> simp only [toByte_val] <;> omega

theorem le16_decode (b0 b1 : Byte) : le16 (b0.val + 256 * b1.val) = [b0, b1] := by
  simp only [le16, List.cons.injEq, and_true]
  refine ⟨?_, ?_⟩ <;> apply Fin.ext <;> simp only [toByte_val] <;> omega

namespace Packet

/-- The Packet the constructor builds, field by field. -/
theorem ctor_cons (b0 b1 b2 b3 b4 b5 b6 b7 b8 b9 b10 b11 b12 b13 : Byte) (rest : Buffer)
    (src : Nat) :
    ctor (b0 :: b1 :: b2 :: b3 :: b4 :: b5 :: b6 :: b7 :: b8 :: b9 :: b10 :: b11 :: b12 :: b13
        :: rest) src =
      { m_source_id := src, m_send_size := 0,
        m_size := b0.val + 256 * b1.val + 65536 * b2.val + 16777216 * b3.val,
        m_cmd := b4.val + 256 * b5.val,
        m_id1 := b6.val + 256 * b7.val + 65536 * b8.val + 16777216 * b9.val,
        m_id2 := b10.val + 256 * b11.val + 65536 * b12.val + 16777216 * b13.val,
        m_seek_pos := 14,
        m_buf := b0 :: b1 :: b2 :: b3 :: b4 :: b5 :: b6 :: b7 :: b8 :: b9 :: b10 :: b11 :: b12
          :: b13 :: rest,
        oob_writes := [] } := by
  simp [ctor, read_int, read_short, read_byte, load, advance]

theorem keep_whole_message_cons (b0 b1 b2 b3 b4 b5 b6 b7 b8 b9 b10 b11 b12 b13 : Byte)
    (rest : Buffer) (src cmd : Nat)
    (h32 : 14 + (b0.val + 256 * b1.val + 65536 * b2.val + 16777216 * b3.val) < 2 ^ 32) :
    (ctor (b0 :: b1 :: b2 :: b3 :: b4 :: b5 :: b6 :: b7 :: b8 :: b9 :: b10 :: b11 :: b12 :: b13
        :: rest) src).keep_whole_message cmd =
      { m_source_id := src,
        m_send_size := 14 + (b0.val + 256 * b1.val + 65536 * b2.val + 16777216 * b3.val),
        m_size := b0.val + 256 * b1.val + 65536 * b2.val + 16777216 * b3.val,
        m_cmd := cmd % 2 ^ 16,
        m_id1 := b6.val + 256 * b7.val + 65536 * b8.val + 16777216 * b9.val,
        m_id2 := b10.val + 256 * b11.val + 65536 * b12.val + 16777216 * b13.val,
        m_seek_pos := 14,
        m_buf := b0 :: b1 :: b2 :: b3 :: toByte cmd :: toByte (cmd / 256) :: b6 :: b7 :: b8 :: b9
          :: b10 :: b11 :: b12 :: b13 :: rest,
        oob_writes := [] } := by
  rw [ctor_cons, keep_whole_message, write_header_of_le _ _ _ _ (by simp [seek_to_end])]
  have hh : packet_header_size = 14 := rfl
  have e0 : (14 + (b0.val + 256 * b1.val + 65536 * b2.val + 16777216 * b3.val))
      % 2 ^ 32 = 14 + (b0.val + 256 * b1.val + 65536 * b2.val + 16777216 * b3.val) :=
    Nat.mod_eq_of_lt h32
  have e1 : (14 + (b0.val + 256 * b1.val + 65536 * b2.val + 16777216 * b3.val)
      + 2 ^ 32 - 14) % 2 ^ 32
      = b0.val + 256 * b1.val + 65536 * b2.val + 16777216 * b3.val := by
    omega
  have e2 : (b6.val + 256 * b7.val + 65536 * b8.val + 16777216 * b9.val) % 2 ^ 32
      = b6.val + 256 * b7.val + 65536 * b8.val + 16777216 * b9.val := by omega
  have e3 : (b10.val + 256 * b11.val + 65536 * b12.val + 16777216 * b13.val) % 2 ^ 32
      = b10.val + 256 * b11.val + 65536 * b12.val + 16777216 * b13.val := by omega
  have c0 : toByte (cmd % 2 ^ 16) = toByte cmd := by
    apply Fin.ext; simp only [toByte_val]; omega
  have c1 : toByte (cmd % 2 ^ 16 / 256) = toByte (cmd / 256) := by
    apply Fin.ext; simp only [toByte_val]; omega
  simp only [seek_to_end, hh, e0, e1, e2, e3, encHeader, le32_mod, le32_decode,
    List.drop_succ_cons, List.drop_zero, List.cons_append, List.nil_append, le16, c0, c1]

end Packet

/-- C3: for a received packet whose announced `size` lies inside the buffer,
after `keep_whole_message( cmd )` the send size is `14 + size`, every byte of
the first `14 + size` except offsets 4 and 5 is the received byte, offsets 4
and 5 hold `cmd` little-endian, and with the received command code the slice
to send is the received packet byte for byte. -/
theorem C3_keep_whole_message (buf : Buffer) (source_id cmd : Nat)
    (hfit : 14 + (Packet.ctor buf source_id).m_size ≤ buf.length)
    (hbuf : buf.length < 2 ^ 32) :
    ((Packet.ctor buf source_id).keep_whole_message cmd).m_send_size
      = 14 + (Packet.ctor buf source_id).m_size ∧
    (∀ i, i < 14 + (Packet.ctor buf source_id).m_size → i ≠ 4 → i ≠ 5 →
      ((Packet.ctor buf source_id).keep_whole_message cmd).m_buf.getD i 0 = buf.getD i 0) ∧
    ((Packet.ctor buf source_id).keep_whole_message cmd).m_buf.getD 4 0 = toByte cmd ∧
    ((Packet.ctor buf source_id).keep_whole_message cmd).m_buf.getD 5 0 = toByte (cmd / 256) ∧
    (cmd = (Packet.ctor buf source_id).m_cmd →
      ((Packet.ctor buf source_id).keep_whole_message cmd).m_buf.take
          ((Packet.ctor buf source_id).keep_whole_message cmd).m_send_size
        = buf.take (14 + (Packet.ctor buf source_id).m_size)) := by
  obtain ⟨b0, b1, b2, b3, b4, b5, b6, b7, b8, b9, b10, b11, b12, b13, rest, rfl⟩ :=
    exists_header buf (by omega)
  rw [Packet.ctor_cons] at hfit
  simp only [] at hfit
  rw [Packet.keep_whole_message_cons _ _ _ _ _ _ _ _ _ _ _ _ _ _ _ _ _ (by omega),
    Packet.ctor_cons]
  refine ⟨rfl, ?_, rfl, rfl, ?_⟩
  · intro i _ h4 h5
    rcases i with _ | _ | _ | _ | _ | _ | i
    · rfl
    · rfl
    · rfl
    · rfl
    · exact absurd rfl h4
    · exact absurd rfl h5
    · rfl
  · intro hc
    simp only [] at hc
    have c0 : toByte cmd = b4 := by
      apply Fin.ext; simp only [toByte_val, hc]; omega
    have c1 : toByte (cmd / 256) = b5 := by
      apply Fin.ext; simp only [toByte_val, hc]; omega
    simp only [c0, c1]

theorem C3_keep_whole_message_witness :
    ((Packet.ctor (encHeader 2 0x4b0 1 0 ++ [7, 8, 9]) 1).keep_whole_message 0x4b0).m_buf.take
        ((Packet.ctor (encHeader 2 0x4b0 1 0 ++ [7, 8, 9]) 1).keep_whole_message 0x4b0).m_send_size
      = (encHeader 2 0x4b0 1 0 ++ [7, 8, 9]).take
          (14 + (Packet.ctor (encHeader 2 0x4b0 1 0 ++ [7, 8, 9]) 1).m_size) :=
  (C3_keep_whole_message (encHeader 2 0x4b0 1 0 ++ [7, 8, 9]) 1 0x4b0 (by decide)
    (by decide)).2.2.2.2 (by decide)

/-! ## Session framing -/

theorem announced_size_encHeader (size cmd id1 id2 : Nat) (rest : Buffer) :
    Session.announced_size (encHeader size cmd id1 id2 ++ rest) = size % 2 ^ 32 := by
  simp only [Session.announced_size, encHeader, le32, List.cons_append, List.getD_cons_zero,
    List.getD_cons_succ, toByte_val]
  omega

theorem C5_aux (L : Lobby) (id : Nat) (buf : Buffer) (bytes_read : Nat) (hread : 14 ≤ bytes_read)
    (hpos : 0 < Session.announced_size buf) (hle : Session.announced_size buf ≤ 1048576 - 14) :
    Session.do_read_header L id buf .success bytes_read =
      { lobby := L, m_buf := buf, state := .ReadBody (Session.announced_size buf),
        oob_writes := [], escaped := false } := by
  have h14 : ¬ packet_header_size > bytes_read := by
    simp only [packet_header_size]; omega
  have hmax : max_packet_size - packet_header_size = 1048576 - 14 := rfl
  have h0 : ¬ 0 = Session.announced_size buf := by omega
  have h1 : ¬ max_packet_size - packet_header_size < Session.announced_size buf := by
    rw [hmax]; omega
  simp only [Session.do_read_header, h14, if_false, h0, h1]

/-- C5: once the 14 header bytes are read, the handler of `do_read_header`
classifies by the announced size `n`: `n = 0` dispatches to the Lobby at once
and goes back to `ReadHeader`; `0 < n ≤ 0x100000 - 14` goes to `ReadBody n`
leaving the Lobby untouched; `n > 0x100000 - 14` (so `n = 0x100000` too)
disconnects the Session. -/
theorem C5_read_header_classifies (L : Lobby) (id : Nat) (buf : Buffer) (bytes_read : Nat)
    (hread : 14 ≤ bytes_read) :
    (Session.announced_size buf = 0 →
      Session.do_read_header L id buf .success bytes_read = Session.dispatch L id buf ∧
      (Session.do_read_header L id buf .success bytes_read).state = .ReadHeader ∧
      (Session.do_read_header L id buf .success bytes_read).lobby = (L.process_buf id buf).lobby) ∧
    (0 < Session.announced_size buf → Session.announced_size buf ≤ 1048576 - 14 →
      Session.do_read_header L id buf .success bytes_read =
        { lobby := L, m_buf := buf, state := .ReadBody (Session.announced_size buf),
          oob_writes := [], escaped := false }) ∧
    (1048576 - 14 < Session.announced_size buf →
      Session.do_read_header L id buf .success bytes_read = Session.close L id buf ∧
      (Session.do_read_header L id buf .success bytes_read).state = .Closed ∧
      (Session.do_read_header L id buf .success bytes_read).lobby = (L.disconnect id buf).lobby) ∧
    (Session.announced_size buf = 0x100000 →
      (Session.do_read_header L id buf .success bytes_read).state = .Closed) := by
  have h14 : ¬ packet_header_size > bytes_read := by
    simp only [packet_header_size]; omega
  have hmax : max_packet_size - packet_header_size = 1048576 - 14 := rfl
  refine ⟨?_, ?_, ?_, ?_⟩
  · intro h0
    have e : Session.do_read_header L id buf .success bytes_read = Session.dispatch L id buf := by
      simp only [Session.do_read_header, h14, if_false, h0, if_true]
    rw [e]
    exact ⟨rfl, rfl, rfl⟩
  · intro hpos hle
    have h0 : ¬ 0 = Session.announced_size buf := by omega
    have h1 : ¬ max_packet_size - packet_header_size < Session.announced_size buf := by
      rw [hmax]; omega
    simp only [Session.do_read_header, h14, if_false, h0, h1]
  · intro hgt
    have h0 : ¬ 0 = Session.announced_size buf := by omega
    have h1 : max_packet_size - packet_header_size < Session.announced_size buf := by
      rw [hmax]; omega
    have e : Session.do_read_header L id buf .success bytes_read = Session.close L id buf := by
      simp only [Session.do_read_header, h14, if_false, h0, h1, if_true]
    rw [e]
    exact ⟨rfl, rfl, rfl⟩
  · intro heq
    have h0 : ¬ 0 = Session.announced_size buf := by omega
    have h1 : max_packet_size - packet_header_size < Session.announced_size buf := by
      rw [hmax]; omega
    have e : Session.do_read_header L id buf .success bytes_read = Session.close L id buf := by
      simp only [Session.do_read_header, h14, if_false, h0, h1, if_true]
    rw [e]
    rfl

theorem C5_read_header_classifies_witness :
    (Session.do_read_header Lobby.ctor 1 (encHeader 0x100000 0x1a8 0 0) .success 14).state
      = .Closed :=
  (C5_read_header_classifies Lobby.ctor 1 (encHeader 0x100000 0x1a8 0 0) 14 (by decide)).2.2.2
    (by decide)

/-! ## Login: the name -/

set_option maxRecDepth 100000 in
theorem mem_allowed_chars_iff : ∀ c : Byte, c ∈ Lobby.allowed_chars ↔ isNameChar c := by
  decide

theorem substitute_isNameChar (c : Byte) : isNameChar (Lobby.substitute c) := by
  unfold Lobby.substitute
  split
  · rename_i h
    exact (mem_allowed_chars_iff c).mp h
  · decide

theorem substitute_eq (c : Byte) :
    Lobby.substitute c = if isNameChar c then c else Lobby.underscore := by
  unfold Lobby.substitute
  by_cases h : c ∈ Lobby.allowed_chars
  · rw [if_pos h, if_pos ((mem_allowed_chars_iff c).mp h)]
  · rw [if_neg h, if_neg (fun h2 => h ((mem_allowed_chars_iff c).mpr h2))]

theorem fit_length_length (name : Str) :
    4 ≤ (Lobby.fit_length name).length ∧ (Lobby.fit_length name).length ≤ 16 := by
  unfold Lobby.fit_length
  simp only []
  split
  · simp only [List.length_append, List.length_replicate]; omega
  · split
    · simp only [List.length_take]; omega
    · omega

theorem fit_length_eq (name : Str) :
    Lobby.fit_length name
      = name.take 16 ++ List.replicate (4 - name.length) Lobby.underscore := by
  unfold Lobby.fit_length
  simp only []
  split
  · rw [List.take_of_length_le (by omega)]
  · split
    · rw [show 4 - name.length = 0 by omega]; simp
    · rw [List.take_of_length_le (by omega), show 4 - name.length = 0 by omega]; simp

theorem normalise_name_length (name : Str) :
    4 ≤ (Lobby.normalise_name name).length ∧ (Lobby.normalise_name name).length ≤ 16 := by
  unfold Lobby.normalise_name
  rw [List.length_map]
  exact fit_length_length name

theorem normalise_name_chars (name : Str) (c : Byte) (h : c ∈ Lobby.normalise_name name) :
    isNameChar c := by
  unfold Lobby.normalise_name at h
  obtain ⟨a, _, rfl⟩ := List.mem_map.mp h
  exact substitute_isNameChar a

/-! ## std::map lemmas -/

namespace IdMap

theorem find_insertSorted_self {α : Type} (m : IdMap α) (k : Nat) (v : α)
    (h : m.find k = none) : (m.insertSorted k v).find k = some v := by
  induction m with
  | nil => simp [insertSorted, find]
  | cons e m ih =>
    obtain ⟨k0, v0⟩ := e
    simp only [find] at h
    split at h
    · exact absurd h (by simp)
    · rename_i hne
      simp only [insertSorted]
      split
      · simp [find]
      · simp only [find, if_neg hne]; exact ih h

theorem find_insertSorted_ne {α : Type} (m : IdMap α) (k j : Nat) (v : α) (h : j ≠ k) :
    (m.insertSorted k v).find j = m.find j := by
  induction m with
  | nil => simp [insertSorted, find, Ne.symm h]
  | cons e m ih =>
    obtain ⟨k0, v0⟩ := e
    simp only [insertSorted]
    split
    · simp [find, Ne.symm h]
    · simp only [find, ih]

theorem find_emplace_self {α : Type} (m : IdMap α) (k : Nat) (v : α) (h : m.find k = none) :
    (m.emplace k v).find k = some v := by
  simp only [emplace, h, Option.isSome_none, Bool.false_eq_true, if_false]
  exact find_insertSorted_self m k v h

theorem find_emplace_ne {α : Type} (m : IdMap α) (k j : Nat) (v : α) (h : j ≠ k) :
    (m.emplace k v).find j = m.find j := by
  unfold emplace
  split
  · rfl
  · exact find_insertSorted_ne m k j v h

theorem find_emplace {α : Type} (m : IdMap α) (k : Nat) (v : α) :
    (m.emplace k v).find k = some (m.emplaced k v) := by
  cases h : m.find k with
  | none => rw [find_emplace_self m k v h]; simp [emplaced, h]
  | some x => simp [emplace, emplaced, h]

theorem emplaced_of_none {α : Type} (m : IdMap α) (k : Nat) (v : α) (h : m.find k = none) :
    m.emplaced k v = v := by
  simp [emplaced, h]

end IdMap

/-! ## Dispatch lemmas -/

namespace Lobby

theorem send_m_players (L : Lobby) (p : Packet) (t : SendTo) :
    (L.send p t).m_players = L.m_players := rfl

theorem send_m_rooms (L : Lobby) (p : Packet) (t : SendTo) :
    (L.send p t).m_rooms = L.m_rooms := rfl

theorem send_m_last_issued_id (L : Lobby) (p : Packet) (t : SendTo) :
    (L.send p t).m_last_issued_id = L.m_last_issued_id := rfl

theorem process_buf_19a (L : Lobby) (c_id : Nat) (buf : Buffer)
    (h : (Packet.ctor buf c_id).m_cmd = 0x19a) :
    L.process_buf c_id buf = on_19a L (Packet.ctor buf c_id) c_id := by
  unfold process_buf
  simp [h]

theorem process_buf_19c (L : Lobby) (c_id : Nat) (buf : Buffer)
    (h : (Packet.ctor buf c_id).m_cmd = 0x19c) :
    L.process_buf c_id buf = on_19c L (Packet.ctor buf c_id) c_id := by
  unfold process_buf
  simp [h]

theorem process_buf_1a8 (L : Lobby) (c_id : Nat) (buf : Buffer)
    (h : (Packet.ctor buf c_id).m_cmd = 0x1a8) :
    L.process_buf c_id buf = on_1a8 L (Packet.ctor buf c_id) := by
  unfold process_buf
  simp [h]

theorem on_19a_m_players (L : Lobby) (p : Packet) (c_id : Nat) :
    (on_19a L p c_id).lobby.m_players =
      L.m_players.emplace c_id (Player.ctor c_id (normalise_name (read_login p).2.2.1)
        (read_login p).1 (read_login p).2.1) := by
  simp only [on_19a, done, send]

theorem on_19a_m_rooms (L : Lobby) (p : Packet) (c_id : Nat) :
    (on_19a L p c_id).lobby.m_rooms = L.m_rooms := by
  simp only [on_19a, done, send]

theorem on_19a_thrown (L : Lobby) (p : Packet) (c_id : Nat) :
    (on_19a L p c_id).thrown = false := by
  simp only [on_19a, done]

end Lobby

/-! ## Reading the fields of a received packet -/

theorem getD_mid (pre mid post : List Byte) (i : Nat) (hi : i < mid.length) :
    (pre ++ (mid ++ post)).getD (pre.length + i) 0 = mid.getD i 0 := by
  rw [List.getD_append_right _ _ _ _ (by omega), Nat.add_sub_cancel_left,
    List.getD_append _ _ _ _ hi]

namespace Packet

theorem read_string_at (q : Packet) (pre s post : List Byte)
    (hb : q.m_buf = pre ++ (encString .Byte s ++ post)) (hp : q.m_seek_pos = pre.length)
    (hs : s.length < 256) (h32 : pre.length + 1 + s.length < 2 ^ 32) :
    q.read_string = (s, { q with m_seek_pos := pre.length + 1 + s.length }) := by
  have h := read_string_of_load q .Byte s (by simpa [LengthType.width] using hs)
    (by rw [hp]; simpa [LengthType.width] using h32)
    (by
      intro i hi
      simp only [LengthType.width] at hi
      have hi0 : i = 0 := by omega
      subst hi0
      rw [load, hb, hp]
      exact getD_mid pre _ post 0 (by simp [encString, lenPrefix]))
    (by
      have e : ∀ i, i < s.length →
          q.load (q.m_seek_pos + LengthType.Byte.width + i) = s.getD i 0 := by
        intro i hi
        rw [load, hb, hp, Nat.add_assoc]
        rw [getD_mid pre _ post (LengthType.Byte.width + i)
          (by simp [encString, lenPrefix, LengthType.width]; omega)]
        simp only [encString, lenPrefix, LengthType.width, List.singleton_append]
        rw [Nat.add_comm, List.getD_cons_succ]
      conv_rhs => rw [← map_range_getD s]
      exact List.map_congr_left (fun i hi => e i (List.mem_range.mp hi)))
  rw [h, hp]
  rfl

theorem skip_string_at (q : Packet) (pre s post : List Byte)
    (hb : q.m_buf = pre ++ (encString .Byte s ++ post)) (hp : q.m_seek_pos = pre.length)
    (hs : s.length < 256) (h32 : pre.length + 1 + s.length < 2 ^ 32) :
    (q.read_byte.2).seek q.read_byte.1 = { q with m_seek_pos := pre.length + 1 + s.length } := by
  have h0 : q.load q.m_seek_pos = toByte s.length := by
    rw [load, hb, hp]
    exact getD_mid pre _ post 0 (by simp [encString, lenPrefix])
  have v0 : (toByte s.length).val = s.length := Nat.mod_eq_of_lt hs
  have e1 : (q.m_seek_pos + 1) % 2 ^ 32 = pre.length + 1 := by rw [hp]; exact Nat.mod_eq_of_lt (by omega)
  have e2 : (pre.length + 1 + s.length) % 2 ^ 32 = pre.length + 1 + s.length :=
    Nat.mod_eq_of_lt h32
  simp only [read_byte, seek, advance, h0, v0, e1, e2]

end Packet

namespace Lobby

theorem read_login_at (q : Packet) (pre ver1 ver2 email password key post : List Byte)
    (hb : q.m_buf = pre ++ (encString .Byte ver1 ++ (encString .Byte ver2 ++
      (encString .Byte email ++ (encString .Byte password ++ (encString .Byte key ++ post))))))
    (hp : q.m_seek_pos = pre.length)
    (h1 : ver1.length < 256) (h2 : ver2.length < 256) (h3 : email.length < 256)
    (h4 : password.length < 256) (h5 : key.length < 256) (h32 : pre.length + 1280 < 2 ^ 32) :
    (read_login q).1 = ver1 ∧ (read_login q).2.1 = ver2 ∧ (read_login q).2.2.1 = key := by
  have r1 := Packet.read_string_at q pre ver1 _ hb hp h1 (by omega)
  have r2 := Packet.read_string_at { q with m_seek_pos := pre.length + 1 + ver1.length }
    (pre ++ encString .Byte ver1) ver2
    (encString .Byte email ++ (encString .Byte password ++ (encString .Byte key ++ post)))
    (by simp only [hb, List.append_assoc])
    (by simp [encString_length, LengthType.width]; omega) h2
    (by simp [encString_length, LengthType.width]; omega)
  have r3 := Packet.skip_string_at
    { q with m_seek_pos := (pre ++ encString .Byte ver1).length + 1 + ver2.length }
    (pre ++ encString .Byte ver1 ++ encString .Byte ver2) email
    (encString .Byte password ++ (encString .Byte key ++ post))
    (by simp only [hb, List.append_assoc])
    (by simp [encString_length, LengthType.width]; omega) h3
    (by simp [encString_length, LengthType.width]; omega)
  have r4 := Packet.skip_string_at
    { q with m_seek_pos :=
        (pre ++ encString .Byte ver1 ++ encString .Byte ver2).length + 1 + email.length }
    (pre ++ encString .Byte ver1 ++ encString .Byte ver2 ++ encString .Byte email) password
    (encString .Byte key ++ post)
    (by simp only [hb, List.append_assoc])
    (by simp [encString_length, LengthType.width]; omega) h4
    (by simp [encString_length, LengthType.width]; omega)
  have r5 := Packet.read_string_at
    { q with m_seek_pos :=
        (pre ++ encString .Byte ver1 ++ encString .Byte ver2 ++ encString .Byte email).length
          + 1 + password.length }
    (pre ++ encString .Byte ver1 ++ encString .Byte ver2 ++ encString .Byte email
      ++ encString .Byte password) key post
    (by simp only [hb, List.append_assoc])
    (by simp [encString_length, LengthType.width]; omega) h5
    (by simp [encString_length, LengthType.width]; omega)
  simp only [read_login, r1, r2, r3, r4, r5, and_self]

end Lobby

/-- C6: whatever bytes a `0x19a` login carries, the name of the Player it
creates has between 4 and 16 characters, each one of `a-z`, `A-Z`, `0-9`,
`( ) + - _ . [ ]`. -/
theorem C6_login_name_wellformed (L : Lobby) (c_id : Nat) (buf : Buffer)
    (hcmd : (Packet.ctor buf c_id).m_cmd = 0x19a) (hnew : L.m_players.find c_id = none) :
    ∃ pl, (L.process_buf c_id buf).lobby.m_players.find c_id = some pl ∧
      4 ≤ pl.m_name.length ∧ pl.m_name.length ≤ 16 ∧ ∀ c ∈ pl.m_name, isNameChar c := by
  rw [Lobby.process_buf_19a L c_id buf hcmd, Lobby.on_19a_m_players,
    IdMap.find_emplace_self _ _ _ hnew]
  exact ⟨_, rfl, (normalise_name_length _).1, (normalise_name_length _).2,
    fun c hc => normalise_name_chars _ c hc⟩

theorem C6_login_name_wellformed_witness :
    ∃ pl, (Lobby.ctor.process_buf 1 (encHeader 0 0x19a 0 0)).lobby.m_players.find 1 = some pl ∧
      4 ≤ pl.m_name.length ∧ pl.m_name.length ≤ 16 ∧ ∀ c ∈ pl.m_name, isNameChar c :=
  C6_login_name_wellformed Lobby.ctor 1 (encHeader 0 0x19a 0 0) (by decide) (by decide)

/-- C7: the name is the first 16 characters of the key, each character outside
the allowed set replaced by `'_'` at its position, followed by `4 - n`
underscores when the key has `n < 4` characters; so `"ab"` gives `"ab__"`, a
20-character key gives its first 16 characters, and `' '` and `'!'` become `'_'`. -/
theorem C7_normalise_name (key : Str) :
    Lobby.normalise_name key =
      (key.take 16).map (fun c => if isNameChar c then c else Lobby.underscore)
        ++ List.replicate (4 - key.length) Lobby.underscore ∧
    Lobby.normalise_name (lit "ab") = lit "ab__" ∧
    Lobby.normalise_name (lit "abcdefghijklmnopqrst") = lit "abcdefghijklmnop" ∧
    Lobby.normalise_name (lit "a b!c") = lit "a_b_c" := by
  refine ⟨?_, by decide, by decide, by decide⟩
  unfold Lobby.normalise_name
  rw [fit_length_eq, List.map_append, List.map_replicate]
  congr 1
  exact List.map_congr_left (fun c _ => substitute_eq c)

/-! ## Composition of outgoing packets -/

namespace Emits

theorem write_byte (n : Nat) : Emits (fun p => p.write_byte n) [toByte n] :=
  fun p h => Packet.write_byte_emit p n h

theorem write_short (n : Nat) : Emits (fun p => p.write_short n) (le16 n) :=
  fun p h => Packet.write_short_emit p n h

theorem write_int (n : Nat) : Emits (fun p => p.write_int n) (le32 n) :=
  fun p h => Packet.write_int_emit p n h

theorem write_string (s : Str) (lt : LengthType) :
    Emits (fun p => p.write_string s lt) (encString lt s) :=
  fun p h => Packet.write_string_emit p s lt (by rw [← encString_length]; exact h)

theorem nop : Emits (fun p => p) [] := fun p _ => (Packet.emit_nil p).symm

theorem andThen {W1 W2 : Packet → Packet} {e1 e2 : List Byte} (h1 : Emits W1 e1)
    (h2 : Emits W2 e2) : Emits (fun p => W2 (W1 p)) (e1 ++ e2) := by
  intro p hp
  have hp1 : p.fits e1.length := Packet.fits_mono p _ _ hp (by simp)
  have hp2 : (p.emit e1).fits e2.length :=
    Packet.fits_emit p e1 e2.length (by simpa using hp)
  show W2 (W1 p) = _
  rw [h1 p hp1, h2 _ hp2, Packet.emit_emit _ _ _ hp1.1]

theorem foldl {α : Type} (f : Packet → α → Packet) (enc : α → List Byte)
    (hf : ∀ x, Emits (fun p => f p x) (enc x)) (xs : List α) :
    Emits (fun p => xs.foldl f p) (xs.flatMap enc) := by
  induction xs with
  | nil => exact nop
  | cons x xs ih =>
    have h := andThen (hf x) ih
    simpa [List.flatMap_cons] using h

end Emits

namespace Packet

/-- A packet composed from the start of the data section and closed by
`write_header`: send size, header fields and buffer afterwards. -/
theorem compose_of_emits (W : Packet → Packet) (e : List Byte) (hW : Emits W e) (p : Packet)
    (cmd id1 id2 : Nat) (hfit : 14 + e.length ≤ p.m_buf.length) (h32 : 14 + e.length < 2 ^ 32) :
    ((W p.seek_to_start).write_header cmd id1 id2).m_send_size = 14 + e.length ∧
    ((W p.seek_to_start).write_header cmd id1 id2).m_buf.take (14 + e.length)
      = packetBytes cmd id1 id2 e ∧
    ((W p.seek_to_start).write_header cmd id1 id2).m_buf.length = p.m_buf.length ∧
    ((W p.seek_to_start).write_header cmd id1 id2).m_source_id = p.m_source_id ∧
    ((W p.seek_to_start).write_header cmd id1 id2).m_id2 = id2 % 2 ^ 32 ∧
    ((W p.seek_to_start).write_header cmd id1 id2).oob_writes = p.oob_writes := by
  have hs : p.seek_to_start.fits e.length := ⟨hfit, h32⟩
  have hlen : (p.seek_to_start.emit e).m_buf.length = p.m_buf.length :=
    emit_buf_length p.seek_to_start e hfit
  rw [hW _ hs, write_header_of_le _ _ _ _ (by rw [hlen]; omega)]
  have hsz : ((14 + e.length) % 2 ^ 32 + 2 ^ 32 - 14) % 2 ^ 32 = e.length := by omega
  have hh : packet_header_size = 14 := rfl
  have hd : List.drop 14 (List.take 14 p.m_buf ++ e ++ List.drop (14 + e.length) p.m_buf)
      = e ++ List.drop (14 + e.length) p.m_buf := by
    rw [List.append_assoc, List.drop_left' (by simp; omega)]
  simp only [emit, seek_to_start, hh, hsz, hd]
  refine ⟨trivial, ?_, ?_, trivial, trivial, trivial⟩
  · rw [← List.append_assoc, List.take_left' (by simp [encHeader_length])]
    simp only [packetBytes, encHeader, le32_mod, le16_mod]
  · simp [encHeader_length]; omega

end Packet

namespace IdMap

theorem mem_of_find {α : Type} (m : IdMap α) (k : Nat) (v : α) (h : m.find k = some v) :
    (k, v) ∈ m := by
  induction m with
  | nil => simp [find] at h
  | cons e m ih =>
    obtain ⟨k0, v0⟩ := e
    simp only [find] at h
    split at h
    · rename_i heq
      simp only [Option.some.injEq] at h
      simp [heq, h]
    · exact List.mem_cons_of_mem _ (ih h)

theorem modify_cons {α : Type} (k0 : Nat) (v0 : α) (m : IdMap α) (k : Nat) (f : α → α) :
    modify ((k0, v0) :: m) k f = (if k0 = k then (k0, f v0) else (k0, v0)) :: modify m k f := rfl

theorem find_modify_self {α : Type} (m : IdMap α) (k : Nat) (f : α → α) :
    (m.modify k f).find k = (m.find k).map f := by
  induction m with
  | nil => rfl
  | cons e m ih =>
    obtain ⟨k0, v0⟩ := e
    rw [modify_cons]
    by_cases h : k0 = k
    · rw [if_pos h]; simp only [find, if_pos h, Option.map]
    · rw [if_neg h]; simp only [find, if_neg h]; exact ih

theorem find_modify_ne {α : Type} (m : IdMap α) (k j : Nat) (f : α → α) (h : j ≠ k) :
    (m.modify k f).find j = m.find j := by
  induction m with
  | nil => rfl
  | cons e m ih =>
    obtain ⟨k0, v0⟩ := e
    rw [modify_cons]
    by_cases h0 : k0 = k
    · have hj : ¬ k0 = j := fun e => h (e.symm.trans h0)
      rw [if_pos h0]; simp only [find, if_neg hj]; exact ih
    · rw [if_neg h0]; simp only [find, ih]

theorem find_map_values {α : Type} (m : IdMap α) (g : α → α) (k : Nat) :
    find (m.map (fun c => (c.1, g c.2))) k = (m.find k).map g := by
  induction m with
  | nil => rfl
  | cons e m ih =>
    obtain ⟨k0, v0⟩ := e
    by_cases h : k0 = k
    · simp [find, h]
    · simp only [List.map_cons, find, if_neg h]
      exact ih

end IdMap

namespace Lobby

theorem send_source_find (L : Lobby) (p : Packet) (q0 : List Buffer) (hs : p.m_send_size ≠ 0)
    (hq : L.m_clients.find p.m_source_id = some q0) :
    (L.send p .Source).m_clients.find p.m_source_id
      = some (q0 ++ [p.m_buf.take p.m_send_size]) := by
  simp only [send, send_clients, if_neg hs, deliver, IdMap.contains, hq, Option.isSome_some,
    if_true, queue_buf, IdMap.find_modify_self, Option.map]

theorem send_source_find_ne (L : Lobby) (p : Packet) (k : Nat) (hk : k ≠ p.m_source_id) :
    (L.send p .Source).m_clients.find k = L.m_clients.find k := by
  simp only [send, send_clients]
  split
  · rfl
  · simp only [deliver]
    split
    · exact IdMap.find_modify_ne _ _ _ _ hk
    · rfl

theorem send_everyone_find (L : Lobby) (p : Packet) (k : Nat) (hs : p.m_send_size ≠ 0) :
    (L.send p .Everyone).m_clients.find k
      = (L.m_clients.find k).map (fun q => q ++ [p.m_buf.take p.m_send_size]) := by
  simp only [send, send_clients, if_neg hs]
  exact IdMap.find_map_values L.m_clients (fun q => q ++ [p.m_buf.take p.m_send_size]) k

theorem emits_player_entry (e : Nat × Player) :
    Emits (fun p => write_player_entry p e) (encPlayerEntry e) :=
  ((((Emits.write_int e.1).andThen (Emits.write_byte e.2.m_status)).andThen
    (Emits.write_string e.2.m_name .Byte)).andThen (Emits.write_byte 0)).andThen
    (Emits.write_string e.2.m_props .Byte)

theorem emits_room_entry (e : Nat × Room) :
    Emits (fun p => write_room_entry p e) (encRoomEntry e) := by
  unfold write_room_entry encRoomEntry
  by_cases h : e.2.m_hidden = true
  · simp only [h, if_true]
    exact Emits.nop
  · simp only [h, if_false]
    have s := (((((((Emits.write_int e.1).andThen (Emits.write_int 8)).andThen
      (Emits.write_string e.2.m_description .Byte)).andThen
      (Emits.write_string e.2.m_info .Byte)).andThen (Emits.write_int 0)).andThen
      (Emits.write_short 0)).andThen (Emits.write_int e.2.m_players.length)).andThen
      (Emits.foldl (fun p id => p.write_int id) le32 (fun id => Emits.write_int id)
        e.2.m_players.reverse)
    exact s

theorem emits_19b (players : IdMap Player) (rooms : IdMap Room) (name props : Str) :
    Emits (fun p =>
        ((((rooms.reverse.foldl write_room_entry
          (((players.foldl write_player_entry
            (((((((((p.write_byte 0).write_string name).write_byte 0).write_int 0).write_int
              0).write_int 0).write_int 0).write_int 0).write_string props))).write_int
                0))).write_int 0)))
      (payload_19b name props players rooms) :=
  ((((((((((((Emits.write_byte 0).andThen (Emits.write_string name .Byte)).andThen
    (Emits.write_byte 0)).andThen (Emits.write_int 0)).andThen (Emits.write_int 0)).andThen
    (Emits.write_int 0)).andThen (Emits.write_int 0)).andThen (Emits.write_int 0)).andThen
    (Emits.write_string props .Byte)).andThen
    (Emits.foldl write_player_entry encPlayerEntry emits_player_entry players)).andThen
    (Emits.write_int 0)).andThen
    (Emits.foldl write_room_entry encRoomEntry emits_room_entry rooms.reverse)).andThen
    (Emits.write_int 0)

theorem emits_1a6 (player : Player) :
    Emits (fun p =>
        (((p.write_string player.m_name).write_byte 0).write_string player.m_props).write_byte
          player.m_status)
      (payload_1a6 player) :=
  (((Emits.write_string player.m_name .Byte).andThen (Emits.write_byte 0)).andThen
    (Emits.write_string player.m_props .Byte)).andThen (Emits.write_byte player.m_status)

theorem emits_19d (desc info : Str) (magic : Nat) :
    Emits (fun p =>
        (((((p.write_byte 7).write_int 8).write_string desc).write_string info).write_int
          magic).write_short 0)
      (payload_19d desc info magic) := by
  have s := (((((Emits.write_byte 7).andThen (Emits.write_int 8)).andThen
    (Emits.write_string desc .Byte)).andThen (Emits.write_string info .Byte)).andThen
    (Emits.write_int magic)).andThen (Emits.write_short 0)
  exact s

end Lobby

theorem length_le_length_flatMap {α : Type} (f : α → List Byte) (xs : List α) (x : α)
    (h : x ∈ xs) : (f x).length ≤ (xs.flatMap f).length := by
  induction xs with
  | nil => simp at h
  | cons y ys ih =>
    rw [List.flatMap_cons, List.length_append]
    rcases List.mem_cons.mp h with rfl | h2
    · omega
    · have := ih h2; omega

namespace Lobby

theorem send_source_find_map (L : Lobby) (p : Packet) (hs : p.m_send_size ≠ 0) :
    (L.send p .Source).m_clients.find p.m_source_id
      = (L.m_clients.find p.m_source_id).map (fun q => q ++ [p.m_buf.take p.m_send_size]) := by
  cases hq : L.m_clients.find p.m_source_id with
  | some q0 => rw [send_source_find L p q0 hs hq]; rfl
  | none =>
    simp only [send, send_clients, if_neg hs, deliver, IdMap.contains, hq, Option.isSome_none,
      Bool.false_eq_true, if_false, Option.map]

theorem read_login_frame (p : Packet) :
    (read_login p).2.2.2.m_buf = p.m_buf ∧ (read_login p).2.2.2.m_source_id = p.m_source_id ∧
    (read_login p).2.2.2.oob_writes = p.oob_writes := by
  simp only [read_login, Packet.read_string, Packet.read_byte, Packet.seek, Packet.advance,
    and_self]

theorem payload_1a6_le_19b (name props : Str) (players : IdMap Player) (rooms : IdMap Room)
    (c : Nat) (player : Player) (h : players.find c = some player) :
    (payload_1a6 player).length ≤ (payload_19b name props players rooms).length := by
  have h1 := length_le_length_flatMap encPlayerEntry players (c, player)
    (IdMap.mem_of_find players c player h)
  simp only [encPlayerEntry, List.length_append, le32_length, List.length_singleton,
    encString_length, LengthType.width] at h1
  simp only [payload_1a6, payload_19b, List.length_append, le32_length, List.length_singleton,
    encString_length, LengthType.width]
  omega

theorem on_19a_lobby (L : Lobby) (p : Packet) (c : Nat) :
    (on_19a L p c).lobby =
      (({ L with m_players := L.m_players.emplace c (Player.ctor c
            (normalise_name (read_login p).2.2.1) (read_login p).1 (read_login p).2.1) } :
          Lobby).send
        (compose_19b { L with m_players := L.m_players.emplace c (Player.ctor c
            (normalise_name (read_login p).2.2.1) (read_login p).1 (read_login p).2.1) }
          (read_login p).2.2.2 c (normalise_name (read_login p).2.2.1)
          (L.m_players.emplaced c (Player.ctor c (normalise_name (read_login p).2.2.1)
            (read_login p).1 (read_login p).2.1)).m_props) .Source).send
        (compose_1a6
          (compose_19b { L with m_players := L.m_players.emplace c (Player.ctor c
              (normalise_name (read_login p).2.2.1) (read_login p).1 (read_login p).2.1) }
            (read_login p).2.2.2 c (normalise_name (read_login p).2.2.1)
            (L.m_players.emplaced c (Player.ctor c (normalise_name (read_login p).2.2.1)
              (read_login p).1 (read_login p).2.1)).m_props) c
          (L.m_players.emplaced c (Player.ctor c (normalise_name (read_login p).2.2.1)
            (read_login p).1 (read_login p).2.1))) .Everyone := by
  simp only [on_19a, done]

/-- What a login leaves in the send queues, in terms of what `read_login`
returned. -/
theorem login_queues (L : Lobby) (p : Packet) (c : Nat) (hsrc : p.m_source_id = c)
    (hfit : 14 + (payload_19b (normalise_name (read_login p).2.2.1)
        (L.m_players.emplaced c (Player.ctor c (normalise_name (read_login p).2.2.1)
          (read_login p).1 (read_login p).2.1)).m_props
        (L.m_players.emplace c (Player.ctor c (normalise_name (read_login p).2.2.1)
          (read_login p).1 (read_login p).2.1)) L.m_rooms).length ≤ p.m_buf.length)
    (h32 : p.m_buf.length < 2 ^ 32) (k : Nat) :
    (on_19a L p c).lobby.m_clients.find k =
      if k = c then
        (L.m_clients.find k).map (fun q => q ++
          [packetBytes 0x19b c c (payload_19b (normalise_name (read_login p).2.2.1)
            (L.m_players.emplaced c (Player.ctor c (normalise_name (read_login p).2.2.1)
              (read_login p).1 (read_login p).2.1)).m_props
            (L.m_players.emplace c (Player.ctor c (normalise_name (read_login p).2.2.1)
              (read_login p).1 (read_login p).2.1)) L.m_rooms),
           packetBytes 0x1a6 c 0 (payload_1a6
            (L.m_players.emplaced c (Player.ctor c (normalise_name (read_login p).2.2.1)
              (read_login p).1 (read_login p).2.1)))])
      else
        (L.m_clients.find k).map (fun q => q ++
          [packetBytes 0x1a6 c 0 (payload_1a6
            (L.m_players.emplaced c (Player.ctor c (normalise_name (read_login p).2.2.1)
              (read_login p).1 (read_login p).2.1)))]) := by
  obtain ⟨fb, fs, _⟩ := read_login_frame p
  rw [on_19a_lobby]
  generalize normalise_name (read_login p).2.2.1 = name at hfit ⊢
  generalize Player.ctor c name (read_login p).1 (read_login p).2.1 = newp at hfit ⊢
  generalize hpl : L.m_players.emplaced c newp = player at hfit ⊢
  have hfind : (L.m_players.emplace c newp).find c = some player := by
    rw [IdMap.find_emplace, hpl]
  have hfit2 : 14 + (payload_1a6 player).length ≤ p.m_buf.length := by
    have := payload_1a6_le_19b name player.m_props _ L.m_rooms c player hfind
    omega
  have A := Packet.compose_of_emits _ _
    (emits_19b (L.m_players.emplace c newp) L.m_rooms name player.m_props)
    (read_login p).2.2.2 0x19b c c (by rw [fb]; exact hfit) (by omega)
  simp only [] at A
  have e19b : compose_19b { L with m_players := L.m_players.emplace c newp }
      (read_login p).2.2.2 c name player.m_props =
      ((List.foldl write_room_entry
        ((List.foldl write_player_entry
          ((((((((((read_login p).2.2.2.seek_to_start.write_byte 0).write_string name).write_byte
            0).write_int 0).write_int 0).write_int 0).write_int 0).write_int 0).write_string
              player.m_props)
          (L.m_players.emplace c newp)).write_int 0)
        (List.reverse L.m_rooms)).write_int 0).write_header 0x19b c c := by
    simp only [compose_19b]
  rw [← e19b] at A
  generalize compose_19b { L with m_players := L.m_players.emplace c newp }
      (read_login p).2.2.2 c name player.m_props = p19b at A ⊢
  obtain ⟨A1, A2, A3, A4, _, _⟩ := A
  have B := Packet.compose_of_emits _ _ (emits_1a6 player) p19b 0x1a6 c 0
    (by rw [A3, fb]; exact hfit2) (by omega)
  simp only [] at B
  have e1a6 : compose_1a6 p19b c player =
      ((((p19b.seek_to_start.write_string player.m_name).write_byte 0).write_string
        player.m_props).write_byte player.m_status).write_header 0x1a6 c 0 := by
    simp only [compose_1a6]
  rw [← e1a6] at B
  generalize compose_1a6 p19b c player = p1a6 at B ⊢
  obtain ⟨B1, B2, _, _, _, _⟩ := B
  have hs1 : p19b.m_send_size ≠ 0 := by rw [A1]; omega
  have hs2 : p1a6.m_send_size ≠ 0 := by rw [B1]; omega
  have hsrc19 : p19b.m_source_id = c := by rw [A4, fs, hsrc]
  rw [send_everyone_find _ _ _ hs2, B1, B2]
  by_cases hk : k = c
  · subst hk
    rw [if_pos rfl]
    have := send_source_find_map { L with m_players := L.m_players.emplace k newp } p19b hs1
    rw [hsrc19] at this
    rw [this, A1, A2]
    cases L.m_clients.find k <;> simp
  · rw [if_neg hk, send_source_find_ne _ _ _ (by rw [hsrc19]; exact hk)]

end Lobby

namespace IdMap

theorem mem_keys_insertSorted {α : Type} (m : IdMap α) (k j : Nat) (v : α) :
    j ∈ (m.insertSorted k v).keys ↔ j = k ∨ j ∈ m.keys := by
  induction m with
  | nil => simp [insertSorted, keys]
  | cons e m ih =>
    obtain ⟨k0, v0⟩ := e
    simp only [insertSorted]
    split
    · simp [keys]
    · simp only [keys, List.map_cons, List.mem_cons] at ih ⊢
      rw [ih]
      constructor
      · rintro (h | h | h)
        · exact Or.inr (Or.inl h)
        · exact Or.inl h
        · exact Or.inr (Or.inr h)
      · rintro (h | h | h)
        · exact Or.inr (Or.inl h)
        · exact Or.inl h
        · exact Or.inr (Or.inr h)

theorem mem_keys_of_find {α : Type} (m : IdMap α) (k : Nat) (h : (m.find k).isSome) :
    k ∈ m.keys := by
  induction m with
  | nil => simp [find] at h
  | cons e m ih =>
    obtain ⟨k0, v0⟩ := e
    simp only [find] at h
    simp only [keys, List.map_cons, List.mem_cons]
    split at h
    · rename_i heq; exact Or.inl heq.symm
    · exact Or.inr (ih h)

theorem not_mem_keys_of_find {α : Type} (m : IdMap α) (k : Nat) (h : m.find k = none) :
    k ∉ m.keys := by
  induction m with
  | nil => simp [keys]
  | cons e m ih =>
    obtain ⟨k0, v0⟩ := e
    simp only [find] at h
    simp only [keys, List.map_cons, List.mem_cons, not_or]
    split at h
    · exact absurd h (by simp)
    · rename_i hne; exact ⟨fun e => hne e.symm, ih h⟩

theorem sorted_insertSorted {α : Type} (m : IdMap α) (k : Nat) (v : α)
    (hs : m.keys.Pairwise (fun a b => a < b)) (hk : k ∉ m.keys) :
    (m.insertSorted k v).keys.Pairwise (fun a b => a < b) := by
  induction m with
  | nil => simp [insertSorted, keys]
  | cons e m ih =>
    obtain ⟨k0, v0⟩ := e
    simp only [keys, List.map_cons, List.pairwise_cons, List.mem_cons, not_or] at hs hk
    simp only [insertSorted]
    split
    · rename_i hlt
      simp only [keys, List.map_cons, List.pairwise_cons, List.mem_cons]
      refine ⟨?_, hs.1, hs.2⟩
      rintro a (rfl | ha)
      · exact hlt
      · exact Nat.lt_trans hlt (hs.1 a ha)
    · rename_i hge
      have hne : ¬ k = k0 := hk.1
      show List.Pairwise _ (k0 :: keys (insertSorted m k v))
      rw [List.pairwise_cons]
      refine ⟨?_, ih hs.2 hk.2⟩
      intro a ha
      rcases (mem_keys_insertSorted m k a v).mp ha with rfl | h2
      · omega
      · exact hs.1 a h2

theorem sorted_emplace {α : Type} (m : IdMap α) (k : Nat) (v : α)
    (hs : m.keys.Pairwise (fun a b => a < b)) :
    (m.emplace k v).keys.Pairwise (fun a b => a < b) := by
  unfold emplace
  split
  · exact hs
  · rename_i h
    exact sorted_insertSorted m k v hs
      (not_mem_keys_of_find m k (by simpa using h))

theorem mem_keys_emplace {α : Type} (m : IdMap α) (k j : Nat) (v : α) :
    j ∈ (m.emplace k v).keys ↔ j = k ∨ j ∈ m.keys := by
  unfold emplace
  split
  · rename_i h
    have := mem_keys_of_find m k h
    constructor
    · exact Or.inr
    · rintro (rfl | h2)
      · exact this
      · exact h2
  · exact mem_keys_insertSorted m k j v

end IdMap

namespace Packet

theorem read_int_at (q : Packet) (pre post : List Byte) (n : Nat)
    (hb : q.m_buf = pre ++ (le32 n ++ post)) (hp : q.m_seek_pos = pre.length)
    (h32 : pre.length + 4 < 2 ^ 32) :
    q.read_int = (n % 2 ^ 32, { q with m_seek_pos := pre.length + 4 }) := by
  have l0 : q.load q.m_seek_pos = toByte n := by
    rw [load, hb, hp]; exact getD_mid pre (le32 n) post 0 (by simp [le32])
  have l1 : q.load (q.m_seek_pos + 1) = toByte (n / 256) := by
    rw [load, hb, hp]; exact getD_mid pre (le32 n) post 1 (by simp [le32])
  have l2 : q.load (q.m_seek_pos + 2) = toByte (n / 65536) := by
    rw [load, hb, hp]; exact getD_mid pre (le32 n) post 2 (by simp [le32])
  have l3 : q.load (q.m_seek_pos + 3) = toByte (n / 16777216) := by
    rw [load, hb, hp]; exact getD_mid pre (le32 n) post 3 (by simp [le32])
  have e1 : (q.m_seek_pos + 1) % 2 ^ 32 = q.m_seek_pos + 1 := Nat.mod_eq_of_lt (by omega)
  have e2 : (q.m_seek_pos + 1 + 1) % 2 ^ 32 = q.m_seek_pos + 2 := Nat.mod_eq_of_lt (by omega)
  have e3 : (q.m_seek_pos + 2 + 1) % 2 ^ 32 = q.m_seek_pos + 3 := Nat.mod_eq_of_lt (by omega)
  have e4 : (q.m_seek_pos + 3 + 1) % 2 ^ 32 = pre.length + 4 := by
    rw [hp]; exact Nat.mod_eq_of_lt (by omega)
  have v : (toByte n).val + 256 * (toByte (n / 256)).val + 65536 * (toByte (n / 65536)).val
      + 16777216 * (toByte (n / 16777216)).val = n % 2 ^ 32 := by
    simp only [toByte_val]; omega
  simp only [load] at l0 l1 l2 l3
  simp only [read_int, read_byte, advance, load, l0, l1, l2, l3, e1, e2, e3, e4, v]

end Packet

namespace Lobby

theorem read_create_room_frame (p : Packet) :
    (read_create_room p).2.2.2.m_buf = p.m_buf ∧
    (read_create_room p).2.2.2.m_source_id = p.m_source_id ∧
    (read_create_room p).2.2.2.oob_writes = p.oob_writes := by
  simp only [read_create_room, Packet.read_string, Packet.read_int, Packet.read_byte,
    Packet.seek, Packet.advance, and_self]

theorem read_create_room_at (q : Packet) (pre skipped desc info post : List Byte) (magic : Nat)
    (hb : q.m_buf = pre ++ (skipped ++ (encString .Byte desc ++ (encString .Byte info ++
      (le32 magic ++ post)))))
    (hp : q.m_seek_pos = pre.length) (hk : skipped.length = 5)
    (h1 : desc.length < 256) (h2 : info.length < 256) (h32 : pre.length + 1024 < 2 ^ 32) :
    (read_create_room q).1 = desc ∧ (read_create_room q).2.1 = info ∧
    (read_create_room q).2.2.1 = magic % 2 ^ 32 := by
  have e0 : q.seek 5 = { q with m_seek_pos := pre.length + 5 } := by
    simp only [Packet.seek, Packet.advance, hp]
    rw [Nat.mod_eq_of_lt (by omega)]
  have r1 := Packet.read_string_at { q with m_seek_pos := pre.length + 5 }
    (pre ++ skipped) desc (encString .Byte info ++ (le32 magic ++ post))
    (by simp only [hb, List.append_assoc])
    (by simp [hk]) h1 (by simp [hk]; omega)
  have r2 := Packet.read_string_at
    { q with m_seek_pos := (pre ++ skipped).length + 1 + desc.length }
    (pre ++ skipped ++ encString .Byte desc) info (le32 magic ++ post)
    (by simp only [hb, List.append_assoc])
    (by simp [encString_length, LengthType.width, hk]; omega) h2
    (by simp [encString_length, LengthType.width, hk]; omega)
  have r3 := Packet.read_int_at
    { q with m_seek_pos := (pre ++ skipped ++ encString .Byte desc).length + 1 + info.length }
    (pre ++ skipped ++ encString .Byte desc ++ encString .Byte info) post magic
    (by simp only [hb, List.append_assoc])
    (by simp [encString_length, LengthType.width, hk]; omega)
    (by simp [encString_length, LengthType.width, hk]; omega)
  simp only [read_create_room, e0, r1, r2, r3, and_self]

theorem on_19c_of_player (L : Lobby) (p : Packet) (c : Nat) (pl : Player)
    (hpl : L.m_players.find c = some pl) :
    on_19c L p c =
      done
        (({ L with
            m_players := L.m_players.set c
              (pl.join_room c (L.m_rooms.emplaced c (Room.ctor c (read_create_room p).1))).1
            m_rooms := (L.m_rooms.emplace c (Room.ctor c (read_create_room p).1)).set c
              (pl.join_room c (L.m_rooms.emplaced c (Room.ctor c (read_create_room p).1))).2 } :
          Lobby).send
          ((((((((read_create_room p).2.2.2.seek_to_start.write_byte 7).write_int 8).write_string
            (read_create_room p).1).write_string (read_create_room p).2.1).write_int
            (read_create_room p).2.2.1).write_short 0).write_header 0x19d p.m_id1 0) .Everyone)
        ((((((((read_create_room p).2.2.2.seek_to_start.write_byte 7).write_int 8).write_string
            (read_create_room p).1).write_string (read_create_room p).2.1).write_int
            (read_create_room p).2.2.1).write_short 0).write_header 0x19d p.m_id1 0) := by
  simp only [on_19c, hpl]

end Lobby

theorem packetBytes_mod (cmd id1 id2 : Nat) (e : List Byte) :
    packetBytes cmd (id1 % 2 ^ 32) id2 e = packetBytes cmd id1 id2 e := by
  simp only [packetBytes, encHeader, le32_mod]

theorem payload_19d_mod (desc info : Str) (magic : Nat) :
    payload_19d desc info (magic % 2 ^ 32) = payload_19d desc info magic := by
  simp only [payload_19d, le32_mod]

/-- C8: a `0x19a` login with byte-prefixed fields `ver1, ver2, email,
password, game_key` from a client `c` without Player leaves `players[c]` with
id `c`, the normalised `game_key` as name, `ver1`, `ver2`, status `0x01` and
no room link; every other Player and all Rooms are as before. -/
theorem C8_login_creates_player (L : Lobby) (c size id1 id2 : Nat)
    (ver1 ver2 email password game_key : Str) (rest : Buffer)
    (hc : c < 2 ^ 32) (h1 : ver1.length < 256) (h2 : ver2.length < 256)
    (h3 : email.length < 256) (h4 : password.length < 256) (h5 : game_key.length < 256)
    (hnew : L.m_players.find c = none) :
    (∃ pl, (L.process_buf c (encHeader size 0x19a id1 id2 ++ (encString .Byte ver1 ++
          (encString .Byte ver2 ++ (encString .Byte email ++ (encString .Byte password ++
          (encString .Byte game_key ++ rest))))))).lobby.m_players.find c = some pl ∧
        pl.m_id = c ∧ pl.m_name = Lobby.normalise_name game_key ∧ pl.m_ver1 = ver1 ∧
        pl.m_ver2 = ver2 ∧ pl.m_status = 0x01 ∧ pl.m_room = none) ∧
    (∀ k, k ≠ c →
      (L.process_buf c (encHeader size 0x19a id1 id2 ++ (encString .Byte ver1 ++
          (encString .Byte ver2 ++ (encString .Byte email ++ (encString .Byte password ++
          (encString .Byte game_key ++ rest))))))).lobby.m_players.find k = L.m_players.find k) ∧
    (L.process_buf c (encHeader size 0x19a id1 id2 ++ (encString .Byte ver1 ++
          (encString .Byte ver2 ++ (encString .Byte email ++ (encString .Byte password ++
          (encString .Byte game_key ++ rest))))))).lobby.m_rooms = L.m_rooms ∧
    (L.process_buf c (encHeader size 0x19a id1 id2 ++ (encString .Byte ver1 ++
          (encString .Byte ver2 ++ (encString .Byte email ++ (encString .Byte password ++
          (encString .Byte game_key ++ rest))))))).thrown = false := by
  have hcmd : (Packet.ctor (encHeader size 0x19a id1 id2 ++ (encString .Byte ver1 ++
          (encString .Byte ver2 ++ (encString .Byte email ++ (encString .Byte password ++
          (encString .Byte game_key ++ rest)))))) c).m_cmd = 0x19a := by
    rw [Packet.ctor_encHeader]
    show 0x19a % 2 ^ 16 = 0x19a
    decide
  have hr := Lobby.read_login_at (Packet.ctor (encHeader size 0x19a id1 id2 ++
      (encString .Byte ver1 ++ (encString .Byte ver2 ++ (encString .Byte email ++
      (encString .Byte password ++ (encString .Byte game_key ++ rest)))))) c)
    (encHeader size 0x19a id1 id2) ver1 ver2 email password game_key rest
    (by rw [Packet.ctor_encHeader]) (by rw [Packet.ctor_encHeader]; rfl) h1 h2 h3 h4 h5
    (by rw [encHeader_length]; decide)
  rw [Lobby.process_buf_19a L c _ hcmd]
  refine ⟨?_, ?_, Lobby.on_19a_m_rooms _ _ _, Lobby.on_19a_thrown _ _ _⟩
  · rw [Lobby.on_19a_m_players, IdMap.find_emplace_self _ _ _ hnew, hr.1, hr.2.1, hr.2.2]
    exact ⟨_, rfl, Nat.mod_eq_of_lt hc, rfl, rfl, rfl, rfl, rfl⟩
  · intro k hk
    rw [Lobby.on_19a_m_players, IdMap.find_emplace_ne _ _ _ _ hk]

theorem C8_login_creates_player_witness :
    (Lobby.ctor.connect.1.process_buf 1 (encHeader 21 0x19a 1 0 ++ (encString .Byte (lit "1.0.0.7") ++
          (encString .Byte (lit "2.0.7") ++ (encString .Byte (lit "a") ++ (encString .Byte (lit "b") ++
          (encString .Byte (lit "al") ++ []))))))).lobby.m_rooms = Lobby.ctor.connect.1.m_rooms :=
  (C8_login_creates_player Lobby.ctor.connect.1 1 21 1 0 (lit "1.0.0.7") (lit "2.0.7") (lit "a")
    (lit "b") (lit "al") [] (by decide) (by decide) (by decide) (by decide) (by decide)
    (by decide) (by decide)).2.2.1

/-- C9 (amended): for a `0x19a` login whose response fits the Session buffer,
the sender is sent the `0x19b` response and then the `0x1a6` notification, and
the player list of the `0x19b` response is the list of the entries of
`players` after the sender has been inserted: the players logged in before
and the sender itself, in ascending id order. -/
theorem C9_login_response_lists_players (L : Lobby) (c size id1 id2 : Nat)
    (ver1 ver2 email password game_key : Str) (rest : Buffer) (q0 : List Buffer)
    (h1 : ver1.length < 256) (h2 : ver2.length < 256) (h3 : email.length < 256)
    (h4 : password.length < 256) (h5 : game_key.length < 256)
    (hq : L.m_clients.find c = some q0)
    (hsorted : L.m_players.keys.Pairwise (fun a b => a < b))
    (hfit : 14 + (payload_19b (Lobby.normalise_name game_key)
        (L.m_players.emplaced c (Player.ctor c (Lobby.normalise_name game_key) ver1 ver2)).m_props
        (L.m_players.emplace c (Player.ctor c (Lobby.normalise_name game_key) ver1 ver2))
        L.m_rooms).length
      ≤ (login_packet size id1 id2 ver1 ver2 email password game_key rest).length)
    (h32 : (login_packet size id1 id2 ver1 ver2 email password game_key rest).length < 2 ^ 32) :
    (L.process_buf c
        (login_packet size id1 id2 ver1 ver2 email password game_key rest)).lobby.m_clients.find c
      = some (q0 ++
          [packetBytes 0x19b c c (payload_19b (Lobby.normalise_name game_key)
            (L.m_players.emplaced c
              (Player.ctor c (Lobby.normalise_name game_key) ver1 ver2)).m_props
            (L.m_players.emplace c (Player.ctor c (Lobby.normalise_name game_key) ver1 ver2))
            L.m_rooms),
           packetBytes 0x1a6 c 0 (payload_1a6 (L.m_players.emplaced c
              (Player.ctor c (Lobby.normalise_name game_key) ver1 ver2)))]) ∧
    (L.m_players.emplace c (Player.ctor c (Lobby.normalise_name game_key) ver1 ver2)).keys.Pairwise
      (fun a b => a < b) ∧
    (∀ k, k ∈ (L.m_players.emplace c
        (Player.ctor c (Lobby.normalise_name game_key) ver1 ver2)).keys ↔
      k = c ∨ k ∈ L.m_players.keys) := by
  refine ⟨?_, IdMap.sorted_emplace _ _ _ hsorted, fun k => IdMap.mem_keys_emplace _ _ _ _⟩
  have hcmd : (Packet.ctor (login_packet size id1 id2 ver1 ver2 email password game_key rest)
      c).m_cmd = 0x19a := by
    rw [login_packet, Packet.ctor_encHeader]
    show 0x19a % 2 ^ 16 = 0x19a
    decide
  have hbuf : (Packet.ctor (login_packet size id1 id2 ver1 ver2 email password game_key rest)
      c).m_buf = login_packet size id1 id2 ver1 ver2 email password game_key rest := by
    rw [login_packet, Packet.ctor_encHeader]
  have hsrc : (Packet.ctor (login_packet size id1 id2 ver1 ver2 email password game_key rest)
      c).m_source_id = c := by
    rw [login_packet, Packet.ctor_encHeader]
  have hr := Lobby.read_login_at
    (Packet.ctor (login_packet size id1 id2 ver1 ver2 email password game_key rest) c)
    (encHeader size 0x19a id1 id2) ver1 ver2 email password game_key rest
    (by rw [hbuf, login_packet]) (by rw [login_packet, Packet.ctor_encHeader]; rfl)
    h1 h2 h3 h4 h5 (by rw [encHeader_length]; decide)
  have hmain := Lobby.login_queues L
    (Packet.ctor (login_packet size id1 id2 ver1 ver2 email password game_key rest) c) c hsrc
    (by rw [hr.1, hr.2.1, hr.2.2, hbuf]; exact hfit) (by rw [hbuf]; exact h32) c
  rw [Lobby.process_buf_19a L c _ hcmd, hmain, if_pos rfl, hr.1, hr.2.1, hr.2.2, hq]
  simp

set_option maxRecDepth 100000 in
theorem C9_login_response_lists_players_witness :
    (Lobby.ctor.connect.1.process_buf 1
        (login_packet 21 1 0 (lit "1.0.0.7") (lit "2.0.7") (lit "a") (lit "b") (lit "alice")
          (List.replicate 100 0))).lobby.m_clients.find 1
      = some ([] ++
          [packetBytes 0x19b 1 1 (payload_19b (Lobby.normalise_name (lit "alice"))
            (Lobby.ctor.connect.1.m_players.emplaced 1
              (Player.ctor 1 (Lobby.normalise_name (lit "alice")) (lit "1.0.0.7")
                (lit "2.0.7"))).m_props
            (Lobby.ctor.connect.1.m_players.emplace 1
              (Player.ctor 1 (Lobby.normalise_name (lit "alice")) (lit "1.0.0.7") (lit "2.0.7")))
            Lobby.ctor.connect.1.m_rooms),
           packetBytes 0x1a6 1 0 (payload_1a6 (Lobby.ctor.connect.1.m_players.emplaced 1
              (Player.ctor 1 (Lobby.normalise_name (lit "alice")) (lit "1.0.0.7")
                (lit "2.0.7"))))]) :=
  (C9_login_response_lists_players Lobby.ctor.connect.1 1 21 1 0 (lit "1.0.0.7") (lit "2.0.7")
    (lit "a") (lit "b") (lit "alice") (List.replicate 100 0) [] (by decide) (by decide)
    (by decide) (by decide) (by decide) (by decide) (by decide) (by decide) (by decide)).1

set_option maxRecDepth 100000 in
/-- C9 as stated fails: on a fresh lobby the first login is answered by a
`0x19b` response whose player list holds the sender itself, not an empty list. -/
theorem C9_first_login_lists_sender :
    ((Lobby.ctor.connect.1.process_buf 1
        (login_packet 21 1 0 (lit "1.0.0.7") (lit "2.0.7") (lit "a") (lit "b") (lit "alice")
          (List.replicate 100 0))).lobby.m_clients.find 1).map List.head?
      = some (some (packetBytes 0x19b 1 1 (payload_19b (lit "alice") default_props
          [(1, Player.ctor 1 (lit "alice") (lit "1.0.0.7") (lit "2.0.7"))] []))) ∧
    ((Lobby.ctor.connect.1.process_buf 1
        (login_packet 21 1 0 (lit "1.0.0.7") (lit "2.0.7") (lit "a") (lit "b") (lit "alice")
          (List.replicate 100 0))).lobby.m_clients.find 1).map List.head?
      ≠ some (some (packetBytes 0x19b 1 1 (payload_19b (lit "alice") default_props [] []))) := by
  decide

/-- C10 (amended): a `0x19c` create-room packet with description `desc` from
a logged-in client `c` without room leaves `rooms[c]` with host id `c`,
description `desc`, hidden flag false and member list `[c]`, and player `c`
linked to it with status `0x05`; every registered client is sent a `0x19d`
packet with payload (byte 7, u32 8, `desc`, `info`, the received magic, u16 0),
`id2 = 0` and as `id1` the `id1` of the received header. -/
theorem C10_create_room (L : Lobby) (c size id1 id2 : Nat) (skipped : List Byte)
    (desc info : Str) (magic : Nat) (rest : Buffer) (pl : Player)
    (hc : c < 2 ^ 32) (hk : skipped.length = 5) (h1 : desc.length < 256)
    (h2 : info.length < 256) (hpl : L.m_players.find c = some pl) (hid : pl.m_id = c)
    (hroom : L.m_rooms.find c = none) (hrest : 2 ≤ rest.length)
    (h32 : (create_room_packet size id1 id2 skipped desc info magic rest).length < 2 ^ 32) :
    (L.process_buf c
        (create_room_packet size id1 id2 skipped desc info magic rest)).thrown = false ∧
    (L.process_buf c
        (create_room_packet size id1 id2 skipped desc info magic rest)).lobby.m_rooms.find c
      = some { m_description := desc, m_host_id := c, m_info := lit "0", m_players := [c],
               m_hidden := false } ∧
    (L.process_buf c
        (create_room_packet size id1 id2 skipped desc info magic rest)).lobby.m_players.find c
      = some { pl with m_status := 0x05, m_room := some c } ∧
    (∀ k, (L.process_buf c
        (create_room_packet size id1 id2 skipped desc info magic rest)).lobby.m_clients.find k
      = (L.m_clients.find k).map
          (fun q => q ++ [packetBytes 0x19d id1 0 (payload_19d desc info magic)])) := by
  have hctor : Packet.ctor (create_room_packet size id1 id2 skipped desc info magic rest) c =
      { m_source_id := c, m_send_size := 0, m_size := size % 2 ^ 32, m_cmd := 0x19c % 2 ^ 16,
        m_id1 := id1 % 2 ^ 32, m_id2 := id2 % 2 ^ 32, m_seek_pos := 14,
        m_buf := create_room_packet size id1 id2 skipped desc info magic rest,
        oob_writes := [] } := by
    rw [create_room_packet, Packet.ctor_encHeader]
  have hcmd : (Packet.ctor (create_room_packet size id1 id2 skipped desc info magic rest)
      c).m_cmd = 0x19c := by
    rw [hctor]
    show 0x19c % 2 ^ 16 = 0x19c
    decide
  rw [Lobby.process_buf_19c L c _ hcmd, Lobby.on_19c_of_player L _ c pl hpl]
  obtain ⟨fb, _, _⟩ := Lobby.read_create_room_frame
    (Packet.ctor (create_room_packet size id1 id2 skipped desc info magic rest) c)
  obtain ⟨rd, ri, rm⟩ := Lobby.read_create_room_at
    (Packet.ctor (create_room_packet size id1 id2 skipped desc info magic rest) c)
    (encHeader size 0x19c id1 id2) skipped desc info rest magic
    (by rw [hctor]; rfl) (by rw [hctor]; rfl) hk h1 h2 (by rw [encHeader_length]; decide)
  rw [rd, ri, rm]
  have hlen : (create_room_packet size id1 id2 skipped desc info magic rest).length
      = 14 + (5 + (1 + desc.length + (1 + info.length + (4 + rest.length)))) := by
    simp only [create_room_packet, List.length_append, encHeader_length, hk, encString_length,
      LengthType.width, le32_length]
  have hpay : (payload_19d desc info (magic % 2 ^ 32)).length = 13 + desc.length + info.length := by
    simp only [payload_19d, List.length_append, List.length_singleton, le32_length, le16_length,
      encString_length, LengthType.width]
    omega
  have hbuf : (Packet.ctor (create_room_packet size id1 id2 skipped desc info magic rest)
      c).m_buf = create_room_packet size id1 id2 skipped desc info magic rest := by
    rw [hctor]
  have hid1 : (Packet.ctor (create_room_packet size id1 id2 skipped desc info magic rest)
      c).m_id1 = id1 % 2 ^ 32 := by
    rw [hctor]
  have A := Packet.compose_of_emits _ _ (Lobby.emits_19d desc info (magic % 2 ^ 32))
    (Lobby.read_create_room
      (Packet.ctor (create_room_packet size id1 id2 skipped desc info magic rest) c)).2.2.2
    0x19d (id1 % 2 ^ 32) 0 (by rw [fb, hbuf, hlen, hpay]; omega) (by omega)
  simp only [] at A
  rw [hid1]
  generalize ((((((((Lobby.read_create_room
      (Packet.ctor (create_room_packet size id1 id2 skipped desc info magic rest)
        c)).2.2.2.seek_to_start.write_byte 7).write_int 8).write_string desc).write_string
      info).write_int (magic % 2 ^ 32)).write_short 0).write_header 0x19d (id1 % 2 ^ 32) 0)
    = p19d at A ⊢
  obtain ⟨A1, A2, _, _, _, _⟩ := A
  have hs : p19d.m_send_size ≠ 0 := by rw [A1]; omega
  have hroom2 : L.m_rooms.emplaced c (Room.ctor c desc) = Room.ctor c desc :=
    IdMap.emplaced_of_none _ _ _ hroom
  have hcm : c % 2 ^ 32 = c := Nat.mod_eq_of_lt hc
  simp only [hroom2]
  refine ⟨rfl, ?_, ?_, ?_⟩
  · simp only [Lobby.done, Lobby.send_m_rooms, IdMap.set, IdMap.find_modify_self,
      IdMap.find_emplace_self _ _ _ hroom, Option.map, hroom2, Player.join_room, Room.add_player,
      Room.ctor, hid, hcm, if_true, List.nil_append]
  · simp only [Lobby.done, Lobby.send_m_players, IdMap.set, IdMap.find_modify_self, hpl,
      Option.map, hroom2, Player.join_room, Room.ctor, hid, hcm, if_true]
  · intro k
    simp only [Lobby.done]
    rw [Lobby.send_everyone_find _ _ _ hs, A1, A2, packetBytes_mod, payload_19d_mod]

set_option maxRecDepth 100000 in
theorem C10_create_room_witness :
    ((Lobby.ctor.connect.1.process_buf 1
        (login_packet 21 1 0 (lit "1.0.0.7") (lit "2.0.7") (lit "a") (lit "b") (lit "alice")
          (List.replicate 100 0))).lobby.process_buf 1
        (create_room_packet 15 1 0 [8, 0, 0, 0, 0] (lit "r1") (lit "0") 200002
          (List.replicate 100 0))).lobby.m_rooms.find 1
      = some { m_description := lit "r1", m_host_id := 1, m_info := lit "0", m_players := [1],
               m_hidden := false } :=
  (C10_create_room
    (Lobby.ctor.connect.1.process_buf 1
      (login_packet 21 1 0 (lit "1.0.0.7") (lit "2.0.7") (lit "a") (lit "b") (lit "alice")
        (List.replicate 100 0))).lobby
    1 15 1 0 [8, 0, 0, 0, 0] (lit "r1") (lit "0") 200002 (List.replicate 100 0)
    (Player.ctor 1 (lit "alice") (lit "1.0.0.7") (lit "2.0.7"))
    (by decide) (by decide) (by decide) (by decide) (by decide) (by decide) (by decide)
    (by decide) (by decide)).2.1

set_option maxRecDepth 100000 in
/-- C10 as stated fails: client 1, logged in and without room, sends a
`0x19c` packet whose header carries `id1 = 2`; the `0x19d` packet queued for
the registered client carries `id1 = 2`, not the sender id 1. -/
theorem C10_id1_taken_from_header :
    (((Lobby.ctor.connect.1.process_buf 1
        (login_packet 21 1 0 (lit "1.0.0.7") (lit "2.0.7") (lit "a") (lit "b") (lit "alice")
          (List.replicate 100 0))).lobby.process_buf 1
        (create_room_packet 15 2 0 [8, 0, 0, 0, 0] (lit "r1") (lit "0") 200002
          (List.replicate 100 0))).lobby.m_clients.find 1).map List.getLast?
      = some (some (packetBytes 0x19d 2 0 (payload_19d (lit "r1") (lit "0") 200002))) ∧
    packetBytes 0x19d 2 0 (payload_19d (lit "r1") (lit "0") 200002)
      ≠ packetBytes 0x19d 1 0 (payload_19d (lit "r1") (lit "0") 200002) := by
  decide

/-! ## The email probe at the end of the buffer -/

namespace Lobby

theorem on_1a8_oob (L : Lobby) (id size cmd id1 id2 : Nat) (rest : Buffer)
    (hsize : size < 2 ^ 32) (hlen : rest.length = size) (h32 : 14 + size < 2 ^ 32) :
    (on_1a8 L (Packet.ctor (encHeader size cmd id1 id2 ++ rest) id)).p.oob_writes
      = [14 + size] := by
  have hbl : (encHeader size cmd id1 id2 ++ rest).length = 14 + size := by
    rw [List.length_append, encHeader_length, hlen]
  have hpos : (packet_header_size + size % 2 ^ 32) % 2 ^ 32 = 14 + size := by
    rw [Nat.mod_eq_of_lt hsize]
    exact Nat.mod_eq_of_lt h32
  have hst : ¬ 14 + size < (encHeader size cmd id1 id2 ++ rest).length := by
    rw [hbl]; omega
  have hwb : ((Packet.ctor (encHeader size cmd id1 id2 ++ rest) id).seek_to_end.write_byte 1)
      = { (Packet.ctor (encHeader size cmd id1 id2 ++ rest) id) with
          m_seek_pos := (14 + size + 1) % 2 ^ 32, oob_writes := [14 + size] } := by
    rw [Packet.ctor_encHeader]
    simp only [Packet.seek_to_end, Packet.write_byte, Packet.store, hpos, hst, if_false,
      Packet.advance, List.nil_append]
  simp only [on_1a8, done]
  rw [hwb, Packet.write_header_of_le _ _ _ _ (by rw [Packet.ctor_encHeader, hbl]; omega)]

end Lobby

/-- C4 fails on the code: the Session accepts a `0x1a8` packet announcing
`0x100000 - 14` bytes (the `0x100000`-byte buffer is then full), and its
dispatch stores the response code at offset `0x100000`, one past the end of
the buffer, without any error. -/
theorem C4_email_probe_writes_past_buffer :
    (encHeader 1048562 0x1a8 0 0 ++ List.replicate 1048562 (0 : Byte)).length = max_packet_size ∧
    (Session.do_read_header Lobby.ctor.connect.1 1
      (encHeader 1048562 0x1a8 0 0 ++ List.replicate 1048562 (0 : Byte)) .success 14).state
      = .ReadBody 1048562 ∧
    (Session.do_read_body Lobby.ctor.connect.1 1
      (encHeader 1048562 0x1a8 0 0 ++ List.replicate 1048562 (0 : Byte)) 1048562 .success
      1048562).oob_writes = [1048576] ∧
    (Session.do_read_body Lobby.ctor.connect.1 1
      (encHeader 1048562 0x1a8 0 0 ++ List.replicate 1048562 (0 : Byte)) 1048562 .success
      1048562).escaped = false := by
  have hcmd : (Packet.ctor (encHeader 1048562 0x1a8 0 0 ++ List.replicate 1048562 (0 : Byte))
      1).m_cmd = 0x1a8 := by
    rw [Packet.ctor_encHeader]
    show 0x1a8 % 2 ^ 16 = 0x1a8
    decide
  have hsz : Session.announced_size
      (encHeader 1048562 0x1a8 0 0 ++ List.replicate 1048562 (0 : Byte)) = 1048562 := by
    rw [announced_size_encHeader]
    decide
  refine ⟨?_, ?_, ?_, rfl⟩
  · rw [List.length_append, encHeader_length, List.length_replicate]
    rfl
  · have h := (C5_aux Lobby.ctor.connect.1 1
      (encHeader 1048562 0x1a8 0 0 ++ List.replicate 1048562 (0 : Byte)) 14 (by decide)
      (by omega) (by omega))
    simp only [h, hsz]
  · have h := Lobby.on_1a8_oob Lobby.ctor.connect.1 1 1048562 0x1a8 0 0
      (List.replicate 1048562 (0 : Byte)) (by decide) (List.length_replicate _ _) (by decide)
    simp only [Session.do_read_body, if_neg (not_not.mpr rfl), Session.dispatch,
      Lobby.process_buf_1a8 _ _ _ hcmd, h]

/-! ## Joining a room -/

set_option maxRecDepth 1000000 in
/-- C11 fails on the code: with clients 1, 2, 3 logged in and room 1 created,
client 2 sends a `0x19e` packet for room 1 whose header carries `id1 = 3`; it
is player 3 that ends up linked to room 1 with status `0x03` and as last
member, while the sender 2 is left without room. -/
theorem C11_join_links_header_id1 :
    ((lobby_r1.process_buf 2 (join_of 3 1)).lobby.m_players.find 3).map
        (fun pl => (pl.m_room, pl.m_status)) = some (some 1, 0x03) ∧
    ((lobby_r1.process_buf 2 (join_of 3 1)).lobby.m_rooms.find 1).map
        (fun r => r.m_players) = some [1, 3] ∧
    ((lobby_r1.process_buf 2 (join_of 3 1)).lobby.m_players.find 2).map
        (fun pl => (pl.m_room, pl.m_status)) = some (none, 0x01) ∧
    (lobby_r1.m_players.find 2).map (fun pl => (pl.m_room, pl.m_status)) = some (none, 0x01) ∧
    (lobby_r1.m_players.find 3).map (fun pl => (pl.m_room, pl.m_status)) = some (none, 0x01) ∧
    (lobby_r1.m_rooms.find 1).map (fun r => r.m_players) = some [1] := by
  decide

/-! ## Routing -/

namespace IdMap

theorem find_set_self {α : Type} (m : IdMap α) (k : Nat) (v : α) :
    (m.set k v).find k = (m.find k).map (fun _ => v) :=
  find_modify_self m k _

theorem find_set_ne {α : Type} (m : IdMap α) (k j : Nat) (v : α) (h : j ≠ k) :
    (m.set k v).find j = m.find j :=
  find_modify_ne m k j _ h

theorem find_set_of_find {α : Type} (m : IdMap α) (k j : Nat) (v w : α)
    (h : m.find k = some w) :
    (m.set k v).find j = if j = k then some v else m.find j := by
  by_cases hj : j = k
  · rw [if_pos hj, hj, find_set_self, h]; rfl
  · rw [if_neg hj, find_set_ne _ _ _ _ hj]

theorem isSome_find_modify {α : Type} (m : IdMap α) (k j : Nat) (f : α → α) :
    ((m.modify k f).find j).isSome = (m.find j).isSome := by
  by_cases hj : j = k
  · rw [hj, find_modify_self]; cases m.find k <;> rfl
  · rw [find_modify_ne _ _ _ _ hj]

theorem find_erase_self {α : Type} (m : IdMap α) (k : Nat) : (m.erase k).find k = none := by
  induction m with
  | nil => rfl
  | cons e m ih =>
    obtain ⟨k0, v0⟩ := e
    by_cases h : k0 = k
    · simp only [erase, List.filter_cons, h, bne_self_eq_false, Bool.false_eq_true, if_false]
      exact ih
    · have hb : (k0 != k) = true := by simpa using h
      simp only [erase, List.filter_cons, hb, if_true, find, if_neg h]
      exact ih

theorem find_erase_ne {α : Type} (m : IdMap α) (k j : Nat) (h : j ≠ k) :
    (m.erase k).find j = m.find j := by
  induction m with
  | nil => rfl
  | cons e m ih =>
    obtain ⟨k0, v0⟩ := e
    by_cases h0 : k0 = k
    · have hj : ¬ k0 = j := fun e => h (e.symm.trans h0)
      simp only [erase, List.filter_cons, h0, bne_self_eq_false, Bool.false_eq_true, if_false,
        find, if_neg (h0 ▸ hj)]
      exact ih
    · have hb : (k0 != k) = true := by simpa using h0
      simp only [erase, List.filter_cons, hb, if_true, find]
      rw [show List.filter (fun e => e.1 != k) m = erase m k from rfl, ih]

end IdMap

namespace Lobby

/-- The queues after a delivery to the single id `id`, registered or not. -/
theorem deliver_single_find (clients : IdMap (List Buffer)) (s : Buffer) (id k : Nat) :
    (deliver clients s [id]).find k
      = (clients.find k).map (fun q => q ++ if k = id then [s] else []) := by
  by_cases hc : clients.contains id = true
  · simp only [deliver, hc, if_true, queue_buf]
    by_cases hk : k = id
    · subst hk
      rw [IdMap.find_modify_self]
      simp only [if_true]
    · rw [IdMap.find_modify_ne _ _ _ _ hk]
      simp only [if_neg hk, List.append_nil]
      cases clients.find k <;> rfl
  · simp only [deliver, hc, Bool.false_eq_true, if_false]
    by_cases hk : k = id
    · subst hk
      have hn : clients.find k = none := by
        simpa [IdMap.contains] using hc
      rw [hn]; rfl
    · simp only [if_neg hk, List.append_nil]
      cases clients.find k <;> rfl

theorem send_id2_find (L : Lobby) (p : Packet) (k : Nat) (hs : p.m_send_size ≠ 0) :
    (L.send p .Id2).m_clients.find k
      = (L.m_clients.find k).map
          (fun q => q ++ if k = p.m_id2 then [p.m_buf.take p.m_send_size] else []) := by
  simp only [send, send_clients, if_neg hs]
  exact deliver_single_find _ _ _ _

theorem send_source_find_ite (L : Lobby) (p : Packet) (k : Nat) (hs : p.m_send_size ≠ 0) :
    (L.send p .Source).m_clients.find k
      = (L.m_clients.find k).map
          (fun q => q ++ if k = p.m_source_id then [p.m_buf.take p.m_send_size] else []) := by
  simp only [send, send_clients, if_neg hs]
  exact deliver_single_find _ _ _ _

end Lobby

/-! ## Fan-out inside a room -/

namespace Packet

theorem seek_to_start_of_pos (p : Packet) (h : p.m_seek_pos = 14) : p.seek_to_start = p := by
  cases p
  simp only [] at h
  simp only [seek_to_start, h]
  rfl

theorem write_header_seek_pos (p : Packet) (cmd id1 id2 : Nat) (h : 14 ≤ p.m_buf.length) :
    (p.write_header cmd id1 id2).m_seek_pos = 14 := by
  rw [write_header_of_le _ _ _ _ h]

/-- A packet composed at the start of the data section by a Packet positioned
there, with the seek position left behind the header. -/
theorem compose_at_start (W : Packet → Packet) (e : List Byte) (hW : Emits W e) (p : Packet)
    (cmd id1 id2 : Nat) (hpos : p.m_seek_pos = 14) (hfit : 14 + e.length ≤ p.m_buf.length)
    (h32 : 14 + e.length < 2 ^ 32) :
    ((W p).write_header cmd id1 id2).m_send_size = 14 + e.length ∧
    ((W p).write_header cmd id1 id2).m_buf.take (14 + e.length) = packetBytes cmd id1 id2 e ∧
    ((W p).write_header cmd id1 id2).m_buf.length = p.m_buf.length ∧
    ((W p).write_header cmd id1 id2).m_source_id = p.m_source_id ∧
    ((W p).write_header cmd id1 id2).m_id2 = id2 % 2 ^ 32 ∧
    ((W p).write_header cmd id1 id2).m_seek_pos = 14 := by
  have A := compose_of_emits W e hW p cmd id1 id2 hfit h32
  rw [seek_to_start_of_pos p hpos] at A
  obtain ⟨A1, A2, A3, A4, A5, _⟩ := A
  refine ⟨A1, A2, A3, A4, A5, ?_⟩
  have hlen : (W p).m_buf.length = p.m_buf.length := by
    rw [hW p ⟨by omega, by omega⟩]
    exact emit_buf_length p e (by omega)
  exact write_header_seek_pos _ _ _ _ (by omega)

end Packet

theorem le32_congr (a b : Nat) (h : a % 2 ^ 32 = b % 2 ^ 32) : le32 a = le32 b := by
  rw [← le32_mod a, ← le32_mod b, h]

namespace Packet

/-- A packet whose data section starts with a length that is written last:
four bytes are skipped, `e` is written, the header is written, and the
skipped bytes are then filled with the length of `e`. -/
theorem compose_backpatched (W : Packet → Packet) (e : List Byte) (hW : Emits W e) (p : Packet)
    (cmd id1 id2 : Nat) (hfit : 18 + e.length ≤ p.m_buf.length) (h32 : 18 + e.length < 2 ^ 32) :
    (((W (p.seek_to_start.seek 4)).write_header cmd id1 id2).write_int
        (((W (p.seek_to_start.seek 4)).write_header cmd id1 id2).m_size + 2 ^ 32 - 4)).m_send_size
      = 18 + e.length ∧
    (((W (p.seek_to_start.seek 4)).write_header cmd id1 id2).write_int
        (((W (p.seek_to_start.seek 4)).write_header cmd id1 id2).m_size + 2 ^ 32 - 4)).m_buf.take
          (18 + e.length)
      = packetBytes cmd id1 id2 (le32 e.length ++ e) ∧
    (((W (p.seek_to_start.seek 4)).write_header cmd id1 id2).write_int
        (((W (p.seek_to_start.seek 4)).write_header cmd id1 id2).m_size + 2 ^ 32 - 4)).m_buf.length
      = p.m_buf.length ∧
    (((W (p.seek_to_start.seek 4)).write_header cmd id1 id2).write_int
        (((W (p.seek_to_start.seek 4)).write_header cmd id1 id2).m_size + 2 ^ 32 - 4)).m_id2
      = id2 % 2 ^ 32 := by
  have hh : packet_header_size = 14 := rfl
  have e18 : (14 + 4) % 2 ^ 32 = 18 := by norm_num
  have h0 : p.seek_to_start.seek 4 = { p with m_seek_pos := 18 } := by
    simp only [seek_to_start, seek, advance, hh, e18]
  have hs : ({ p with m_seek_pos := 18 } : Packet).fits e.length := ⟨hfit, h32⟩
  have hlen : (({ p with m_seek_pos := 18 } : Packet).emit e).m_buf.length = p.m_buf.length :=
    emit_buf_length { p with m_seek_pos := 18 } e hfit
  rw [h0, hW _ hs, write_header_of_le _ _ _ _ (by rw [hlen]; omega)]
  have hsz : ((18 + e.length) % 2 ^ 32 + 2 ^ 32 - 14) % 2 ^ 32 = 4 + e.length := by omega
  have hd : List.drop 14 (List.take 18 p.m_buf ++ e ++ List.drop (18 + e.length) p.m_buf)
      = List.drop 14 (List.take 18 p.m_buf) ++ (e ++ List.drop (18 + e.length) p.m_buf) := by
    rw [List.append_assoc, List.drop_append_of_le_length (by simp; omega)]
  simp only [emit, hh, hsz, hd]
  have hd4 : (List.drop 14 (List.take 18 p.m_buf)).length = 4 := by
    simp; omega
  have hf4 : Packet.fits
      { m_source_id := p.m_source_id, m_send_size := 18 + e.length,
        m_size := 4 + e.length, m_cmd := cmd % 2 ^ 16, m_id1 := id1 % 2 ^ 32,
        m_id2 := id2 % 2 ^ 32, m_seek_pos := 14,
        m_buf := encHeader (4 + e.length) (cmd % 2 ^ 16) (id1 % 2 ^ 32) (id2 % 2 ^ 32) ++
          (List.drop 14 (List.take 18 p.m_buf) ++ (e ++ List.drop (18 + e.length) p.m_buf)),
        oob_writes := p.oob_writes } 4 := by
    refine ⟨?_, by show 14 + 4 < 2 ^ 32; omega⟩
    show 14 + 4 ≤ _
    simp only [List.length_append, encHeader_length, hd4]
    omega
  rw [write_int_emit _ _ hf4]
  simp only [emit, le32_length]
  have ht : List.take 14 (encHeader (4 + e.length) (cmd % 2 ^ 16) (id1 % 2 ^ 32) (id2 % 2 ^ 32) ++
      (List.drop 14 (List.take 18 p.m_buf) ++ (e ++ List.drop (18 + e.length) p.m_buf)))
      = encHeader (4 + e.length) (cmd % 2 ^ 16) (id1 % 2 ^ 32) (id2 % 2 ^ 32) :=
    List.take_left' (encHeader_length _ _ _ _)
  have hdr : List.drop (14 + 4) (encHeader (4 + e.length) (cmd % 2 ^ 16) (id1 % 2 ^ 32)
      (id2 % 2 ^ 32) ++
      (List.drop 14 (List.take 18 p.m_buf) ++ (e ++ List.drop (18 + e.length) p.m_buf)))
      = e ++ List.drop (18 + e.length) p.m_buf := by
    rw [← List.append_assoc, List.drop_left' (by
      simp only [List.length_append, encHeader_length, hd4])]
  rw [ht, hdr]
  have hv : le32 (4 + e.length + 2 ^ 32 - 4) = le32 e.length :=
    le32_congr _ _ (by omega)
  rw [hv]
  refine ⟨trivial, ?_, ?_, trivial⟩
  · have hl : (encHeader (4 + e.length) (cmd % 2 ^ 16) (id1 % 2 ^ 32) (id2 % 2 ^ 32)
        ++ le32 e.length ++ e).length = 18 + e.length := by
      simp only [List.length_append, encHeader_length, le32_length]
    rw [← List.append_assoc, List.take_left' hl]
    simp only [packetBytes, encHeader, le32_mod, le16_mod, List.length_append, le32_length,
      List.append_assoc]
  · simp only [List.length_append, encHeader_length, le32_length, List.length_drop]
    omega

end Packet

namespace Player

theorem leave_room_fst (pl : Player) (rooms : IdMap Room) :
    (pl.leave_room rooms).1 = { pl with m_status := 0x01, m_room := none } := by
  cases pl with
  | mk id name v1 v2 props st room => cases room <;> rfl

end Player

namespace Lobby

theorem leave_all_cons (L : Lobby) (p : Packet) (id : Nat) (ids : List Nat) (pl : Player)
    (hpl : L.m_players.find id = some pl) :
    leave_all L p (id :: ids)
      = leave_all
          { L with
            m_players := L.m_players.set id { pl with m_status := 0x01, m_room := none }
            m_rooms := (pl.leave_room L.m_rooms).2 }
          ((p.write_int id).write_byte 0x01) ids := by
  have h := Player.leave_room_fst pl L.m_rooms
  simp only [leave_all, hpl, h]

theorem payload_1a1_length (flag : Nat) (ids : List Nat) :
    (payload_1a1 flag ids).length = 5 + 5 * ids.length := by
  have h : ∀ l : List Nat, (l.flatMap (fun id => le32 id ++ [toByte 0x01])).length
      = 5 * l.length := by
    intro l
    induction l with
    | nil => rfl
    | cons a l ih =>
      simp only [List.flatMap_cons, List.length_append, le32_length, List.length_singleton,
        List.length_cons, List.length_nil, ih]
      omega
  simp only [payload_1a1, List.length_append, List.length_singleton, le32_length, h]

end Lobby

namespace Lobby

theorem emits_clientslist (ids : List Nat) :
    Emits (fun p => write_clientslist p ids) (ids.flatMap encClient) :=
  Emits.foldl _ _
    (fun id => (Emits.write_string (lit "*") .Int).andThen
      (Emits.write_string (to_string id) .Int)) ids

theorem emits_dict (desc info : Str) (n : Nat) (cs : Str) (ci : Nat) (ids : List Nat) :
    Emits (fun p =>
        (write_clientslist
          (((((((((((((((((((((((p.write_int 0).write_int 1).write_byte 0).write_int 6).write_string
            (lit "gamename") .Int).write_string desc .Int).write_int 0).write_string
            (lit "mapname") .Int).write_string info .Int).write_int 0).write_string
            (lit "master") .Int).write_string (to_string n) .Int).write_int 0).write_string
            (lit "session") .Int).write_string (lit "1337") .Int).write_int 0).write_string
            (lit "clients") .Int).write_string cs .Int).write_int 0).write_string
            (lit "clientslist") .Int).write_int 1).write_byte 0).write_int ci) ids).write_int 0)
      (le32 0 ++ le32 1 ++ [toByte 0] ++ le32 6 ++ encString .Int (lit "gamename")
        ++ encString .Int desc ++ le32 0 ++ encString .Int (lit "mapname")
        ++ encString .Int info ++ le32 0 ++ encString .Int (lit "master")
        ++ encString .Int (to_string n) ++ le32 0 ++ encString .Int (lit "session")
        ++ encString .Int (lit "1337") ++ le32 0 ++ encString .Int (lit "clients")
        ++ encString .Int cs ++ le32 0 ++ encString .Int (lit "clientslist")
        ++ le32 1 ++ [toByte 0] ++ le32 ci ++ ids.flatMap encClient ++ le32 0) := by
  have s := ((((((((((((((((((((((((Emits.write_int 0).andThen (Emits.write_int 1)).andThen
    (Emits.write_byte 0)).andThen (Emits.write_int 6)).andThen
    (Emits.write_string (lit "gamename") .Int)).andThen (Emits.write_string desc .Int)).andThen
    (Emits.write_int 0)).andThen (Emits.write_string (lit "mapname") .Int)).andThen
    (Emits.write_string info .Int)).andThen (Emits.write_int 0)).andThen
    (Emits.write_string (lit "master") .Int)).andThen
    (Emits.write_string (to_string n) .Int)).andThen (Emits.write_int 0)).andThen
    (Emits.write_string (lit "session") .Int)).andThen
    (Emits.write_string (lit "1337") .Int)).andThen (Emits.write_int 0)).andThen
    (Emits.write_string (lit "clients") .Int)).andThen (Emits.write_string cs .Int)).andThen
    (Emits.write_int 0)).andThen (Emits.write_string (lit "clientslist") .Int)).andThen
    (Emits.write_int 1)).andThen (Emits.write_byte 0)).andThen (Emits.write_int ci)).andThen
    (emits_clientslist ids)).andThen (Emits.write_int 0)
  exact s

theorem dict_1bd_eq (desc info : Str) (n : Nat) (M : List Nat) (hM : M ≠ []) :
    le32 0 ++ le32 1 ++ [toByte 0] ++ le32 6 ++ encString .Int (lit "gamename")
        ++ encString .Int desc ++ le32 0 ++ encString .Int (lit "mapname")
        ++ encString .Int info ++ le32 0 ++ encString .Int (lit "master")
        ++ encString .Int (to_string n) ++ le32 0 ++ encString .Int (lit "session")
        ++ encString .Int (lit "1337") ++ le32 0 ++ encString .Int (lit "clients")
        ++ encString .Int (to_string (M.length - 1)) ++ le32 0
        ++ encString .Int (lit "clientslist")
        ++ le32 1 ++ [toByte 0] ++ le32 (M.length % 2 ^ 32 + 2 ^ 32 - 1)
        ++ (M.drop 1).flatMap encClient ++ le32 0
      = dict_1bd desc info n (M.drop 1) := by
  have hpos : 0 < M.length := List.length_pos.2 hM
  have h1 : le32 (M.length % 2 ^ 32 + 2 ^ 32 - 1) = le32 (M.length - 1) :=
    le32_congr _ _ (by omega)
  rw [h1]
  simp only [dict_1bd, encEntry, List.length_drop, List.append_assoc]

/-- The `0x1bd` packet composed in branch `0x1a0`. -/
theorem compose_1bd_spec (p : Packet) (desc info : Str) (M : List Nat) (n : Nat) (hM : M ≠ [])
    (hfit : 18 + (dict_1bd desc info n (M.drop 1)).length ≤ p.m_buf.length)
    (h32 : 18 + (dict_1bd desc info n (M.drop 1)).length < 2 ^ 32) :
    (compose_1bd p desc info M n).m_send_size = 18 + (dict_1bd desc info n (M.drop 1)).length ∧
    (compose_1bd p desc info M n).m_buf.take (18 + (dict_1bd desc info n (M.drop 1)).length)
      = packetBytes 0x1bd n n (payload_1bd desc info n (M.drop 1)) ∧
    (compose_1bd p desc info M n).m_buf.length = p.m_buf.length ∧
    (compose_1bd p desc info M n).m_id2 = n % 2 ^ 32 := by
  have hW := emits_dict desc info n (to_string (M.length - 1))
    (M.length % 2 ^ 32 + 2 ^ 32 - 1) (M.drop 1)
  rw [dict_1bd_eq desc info n M hM] at hW
  have A := Packet.compose_backpatched _ _ hW p 0x1bd n n hfit h32
  simp only [compose_1bd]
  exact A

end Lobby

/-! ## The branch `0x1a0` -/

namespace Packet

theorem ctor_facts (size cmd id1 id2 src : Nat) (rest : Buffer) :
    (ctor (encHeader size cmd id1 id2 ++ rest) src).m_cmd = cmd % 2 ^ 16 ∧
    (ctor (encHeader size cmd id1 id2 ++ rest) src).m_seek_pos = 14 ∧
    (ctor (encHeader size cmd id1 id2 ++ rest) src).m_id1 = id1 % 2 ^ 32 ∧
    (ctor (encHeader size cmd id1 id2 ++ rest) src).m_id2 = id2 % 2 ^ 32 ∧
    (ctor (encHeader size cmd id1 id2 ++ rest) src).m_buf.length = 14 + rest.length ∧
    (ctor (encHeader size cmd id1 id2 ++ rest) src).m_source_id = src ∧
    (ctor (encHeader size cmd id1 id2 ++ rest) src).m_size = size % 2 ^ 32 := by
  rw [ctor_encHeader]
  simp only [List.length_append, encHeader_length, and_self]

end Packet

namespace Lobby

theorem process_buf_1a0 (L : Lobby) (c_id : Nat) (buf : Buffer)
    (h : (Packet.ctor buf c_id).m_cmd = 0x1a0) :
    L.process_buf c_id buf = on_1a0 L (Packet.ctor buf c_id) c_id := by
  unfold process_buf
  simp [h]

theorem payload_1a1_single (id : Nat) :
    [toByte 0] ++ le32 1 ++ le32 id ++ [toByte 0x01] = payload_1a1 0 [id] := by
  simp only [payload_1a1, List.length_singleton, List.flatMap_cons, List.flatMap_nil,
    List.append_nil, List.append_assoc]

/-- Branch `0x1a0` for a sender whose status is neither `0x05` nor `0x0f`. -/
theorem on_1a0_member (L : Lobby) (p : Packet) (c r n : Nat) (S : Player) (R : Room)
    (hS : L.m_players.find c = some S) (hr : S.m_room = some r)
    (hR : L.m_rooms.find r = some R) (hn : R.m_players.getLast? = some n)
    (hst1 : S.m_status ≠ 0x05) (hst2 : S.m_status ≠ 0x0f)
    (hpos : p.m_seek_pos = 14) (hfit : 24 ≤ p.m_buf.length) :
    (on_1a0 L p c).thrown = false ∧
    (∀ k, (on_1a0 L p c).lobby.m_players.find k
      = if k = c then some { S with m_status := 0x01, m_room := none }
        else L.m_players.find k) ∧
    (∀ j, (on_1a0 L p c).lobby.m_rooms.find j
      = if j = r then some { R with m_players := R.m_players.filter (fun x => x != S.m_id) }
        else L.m_rooms.find j) ∧
    (∀ k, (on_1a0 L p c).lobby.m_clients.find k
      = (L.m_clients.find k).map (fun q =>
          q ++ [packetBytes 0x1a1 p.m_id1 0 (payload_1a1 0 [S.m_id])])) := by
  have hb : (decide (S.m_status = 0x05) || decide (S.m_status = 0x0f)) = false := by
    simpa using And.intro hst1 hst2
  have hd : (decide (S.m_status = 0x0f) && decide (1 < R.m_players.length)) = false := by
    simp [hst2]
  have hW : Emits (fun p => (((p.write_byte 0).write_int 1).write_int S.m_id).write_byte 0x01)
      (payload_1a1 0 [S.m_id]) := by
    have s := (((Emits.write_byte 0).andThen (Emits.write_int 1)).andThen
      (Emits.write_int S.m_id)).andThen (Emits.write_byte 0x01)
    rw [payload_1a1_single] at s
    exact s
  have A := Packet.compose_at_start _ _ hW p 0x1a1
    p.m_id1 0 hpos (by rw [payload_1a1_length]; simpa using hfit)
    (by rw [payload_1a1_length]; simp)
  simp only [] at A
  rw [payload_1a1_length] at A
  simp only [on_1a0, hS, hr, hR, hn, hb, hd, Bool.false_eq_true, if_false, Player.leave_room, done]
  generalize (((((p.write_byte 0).write_int 1).write_int S.m_id).write_byte 0x01).write_header
    0x1a1 p.m_id1 0) = q1 at A ⊢
  obtain ⟨A1, A2, A3, A4, A5, A6⟩ := A
  have hs1 : q1.m_send_size ≠ 0 := by rw [A1]; omega
  refine ⟨trivial, ?_, ?_, ?_⟩
  · intro k
    rw [send_m_players]
    exact IdMap.find_set_of_find _ _ _ _ _ hS
  · intro j
    rw [send_m_rooms]
    show (L.m_rooms.modify r (fun r => r.remove_player S.m_id)).find j = _
    by_cases hj : j = r
    · subst hj
      rw [if_pos rfl, IdMap.find_modify_self, hR]
      rfl
    · rw [if_neg hj]
      exact IdMap.find_modify_ne _ _ _ _ hj
  · intro k
    rw [send_everyone_find _ _ _ hs1, A1, A2]

end Lobby

/-! ## Leave room: the claims -/

/-- C13: a `0x1a0` packet from a sender `S` in room `R` whose status is neither
`0x05` nor `0x0f`: only `S` leaves. Its Player loses the room link (and gets
status `0x01`), every other Player is unchanged, the member list of `R` is the
old list without the id of `S` in the old order, `R` stays in `rooms` and every
other Room is unchanged, and the queue of every registered client gets the
`0x1a1` packet with payload byte `0x00`, u32 1, u32 `S.id` and the status byte
`0x01`. -/
theorem C13_member_leaves_room (L : Lobby) (c size id1 id2 : Nat) (rest : Buffer)
    (S : Player) (r : Nat) (R : Room)
    (hS : L.m_players.find c = some S) (hst1 : S.m_status ≠ 0x05) (hst2 : S.m_status ≠ 0x0f)
    (hr : S.m_room = some r) (hR : L.m_rooms.find r = some R) (hM : R.m_players ≠ [])
    (hfit : 10 ≤ rest.length) :
    (L.process_buf c (encHeader size 0x1a0 id1 id2 ++ rest)).thrown = false ∧
    (∀ k, (L.process_buf c (encHeader size 0x1a0 id1 id2 ++ rest)).lobby.m_players.find k
      = if k = c then some { S with m_status := 0x01, m_room := none }
        else L.m_players.find k) ∧
    (∀ j, (L.process_buf c (encHeader size 0x1a0 id1 id2 ++ rest)).lobby.m_rooms.find j
      = if j = r then some { R with m_players := R.m_players.filter (fun x => x != S.m_id) }
        else L.m_rooms.find j) ∧
    (∀ k, (L.process_buf c (encHeader size 0x1a0 id1 id2 ++ rest)).lobby.m_clients.find k
      = (L.m_clients.find k).map (fun q =>
          q ++ [packetBytes 0x1a1 id1 0
                  ([toByte 0x00] ++ le32 1 ++ le32 S.m_id ++ [toByte 0x01])])) := by
  obtain ⟨f1, f2, f3, _, f5, _, _⟩ := Packet.ctor_facts size 0x1a0 id1 id2 c rest
  rw [Lobby.process_buf_1a0 L c _ (by rw [f1]; decide)]
  obtain ⟨n, hn⟩ : ∃ n, R.m_players.getLast? = some n := by
    cases h : R.m_players.getLast? with
    | none => exact absurd (List.getLast?_eq_none_iff.1 h) hM
    | some n => exact ⟨n, rfl⟩
  obtain ⟨m1, m2, m3, m4⟩ := Lobby.on_1a0_member L
    (Packet.ctor (encHeader size 0x1a0 id1 id2 ++ rest) c) c r n S R hS hr hR hn hst1 hst2 f2
    (by rw [f5]; omega)
  refine ⟨m1, m2, m3, ?_⟩
  intro k
  rw [m4 k, f3, packetBytes_mod, Lobby.payload_1a1_single]

set_option maxRecDepth 1000000 in
theorem C13_member_leaves_room_witness :
    (lobby_r123.process_buf 2 (bare_packet 0x1a0 2 0)).lobby.m_rooms.find 1
      = if 1 = 1 then
          some { m_description := lit "r1", m_host_id := 1, m_info := lit "0",
                 m_players := [1, 2, 3].filter (fun x => x != 2), m_hidden := false }
        else lobby_r123.m_rooms.find 1 :=
  (C13_member_leaves_room lobby_r123 2 0 2 0 (List.replicate 200 0)
    { m_id := 2, m_name := lit "bob_", m_ver1 := lit "1.0.0.7", m_ver2 := lit "2.0.7",
      m_props := default_props, m_status := 0x03, m_room := some 1 }
    1
    { m_description := lit "r1", m_host_id := 1, m_info := lit "0", m_players := [1, 2, 3],
      m_hidden := false }
    (by decide) (by decide) (by decide) (by decide) (by decide) (by decide)
    (by decide)).2.2.1 1

namespace Lobby

theorem process_buf_1a2 (L : Lobby) (c_id : Nat) (buf : Buffer)
    (h : (Packet.ctor buf c_id).m_cmd = 0x1a2) :
    L.process_buf c_id buf = on_1a2 L (Packet.ctor buf c_id) c_id := by
  unfold process_buf
  simp [h]

theorem start_all_cons (L : Lobby) (p : Packet) (c id : Nat) (ids : List Nat) (pl : Player)
    (hpl : L.m_players.find id = some pl) :
    start_all L p c (id :: ids)
      = start_all
          { L with
            m_players := L.m_players.set id
              { pl with m_status := if id = c then 0x0f else 0x0b } }
          ((p.write_int id).write_byte (if id = c then 0x0f else 0x0b)) c ids := by
  by_cases h : id = c
  · simp only [start_all, hpl, if_pos h, Player.set_status]
  · simp only [start_all, hpl, if_neg h, Player.set_status]

end Lobby

/-! ## Start game: the claims -/

namespace Packet

/-- The packet to send after `keep_whole_message( cmd )` on a received packet
whose announced data lie inside the buffer. -/
theorem keep_whole_message_encHeader (size cmd0 cmd id1 id2 src : Nat) (rest : Buffer)
    (hfit : size ≤ rest.length) (h32 : 14 + rest.length < 2 ^ 32) :
    ((ctor (encHeader size cmd0 id1 id2 ++ rest) src).keep_whole_message cmd).m_send_size
      = 14 + size ∧
    ((ctor (encHeader size cmd0 id1 id2 ++ rest) src).keep_whole_message cmd).m_buf.take
        (14 + size) = encHeader size cmd id1 id2 ++ rest.take size ∧
    ((ctor (encHeader size cmd0 id1 id2 ++ rest) src).keep_whole_message cmd).m_source_id
      = src ∧
    ((ctor (encHeader size cmd0 id1 id2 ++ rest) src).keep_whole_message cmd).m_id2
      = id2 % 2 ^ 32 := by
  have hh : packet_header_size = 14 := rfl
  have hs : size % 2 ^ 32 = size := Nat.mod_eq_of_lt (by omega)
  have hlen : 14 ≤ (encHeader size cmd0 id1 id2 ++ rest).length := by
    simp only [List.length_append, encHeader_length]; omega
  rw [ctor_encHeader, keep_whole_message, write_header_of_le _ _ _ _ hlen]
  have e1 : (14 + size) % 2 ^ 32 = 14 + size := Nat.mod_eq_of_lt (by omega)
  have e2 : (14 + size + 2 ^ 32 - 14) % 2 ^ 32 = size := by omega
  have e3 : id1 % 2 ^ 32 % 2 ^ 32 = id1 % 2 ^ 32 := Nat.mod_mod _ _
  have e4 : id2 % 2 ^ 32 % 2 ^ 32 = id2 % 2 ^ 32 := Nat.mod_mod _ _
  have hd : List.drop 14 (encHeader size cmd0 id1 id2 ++ rest) = rest :=
    List.drop_left' (encHeader_length _ _ _ _)
  simp only [seek_to_end, hh, hs, e1, e2, e3, e4, hd]
  refine ⟨trivial, ?_, trivial, trivial⟩
  have hhd : encHeader size (cmd % 2 ^ 16) (id1 % 2 ^ 32) (id2 % 2 ^ 32)
      = encHeader size cmd id1 id2 := by
    simp only [encHeader, le32_mod, le16_mod]
  rw [hhd, List.take_append_eq_append_take, encHeader_length,
    List.take_of_length_le (by rw [encHeader_length]; omega), Nat.add_sub_cancel_left]

end Packet

namespace Lobby

theorem process_buf_196 (L : Lobby) (c_id : Nat) (buf : Buffer)
    (h : (Packet.ctor buf c_id).m_cmd = 0x196) :
    L.process_buf c_id buf = on_196 L (Packet.ctor buf c_id) := by
  unfold process_buf
  simp [h]

end Lobby

set_option maxRecDepth 1000000 in
/-- C20 as stated fails: the registered client 1 sends a `0x196` packet whose
header carries `id1 = 5` and `id2 = 1`; the ids differ and `id2` is not 0, and
the queue of the sender 1 gets two copies of the `0x197` packet. -/
theorem C20_sender_named_by_id2_gets_two :
    (lobby_r1.process_buf 1 (bare_packet 0x196 5 1)).lobby.m_clients.find 1
      = (lobby_r1.m_clients.find 1).map
          (fun q => q ++ [encHeader 0 0x197 5 1, encHeader 0 0x197 5 1]) ∧
    (lobby_r1.m_clients.find 1).isSome = true := by
  decide

/-- C20, amended: a `0x196` packet with header ids `id1`, `id2` whose data lie
inside the buffer, from the client `c`: with `id2 = 0` the queue of every
registered client gets one `0x197` copy; with `id2 ≠ 0` and `id1 = id2` only
the queue of the sender gets a copy; with `id2 ≠ 0` and `id1 ≠ id2` the queue
of the sender gets one copy and then the queue of the client `id2` gets one
copy, which makes one copy each when `id2` is not the sender and two copies
for the sender when it is, and no other queue gets any. The copy is the
received packet with the command code `0x197`. -/
theorem C20_lobby_message (L : Lobby) (c size id1 id2 : Nat) (rest : Buffer)
    (h1 : id1 < 2 ^ 32) (h2 : id2 < 2 ^ 32)
    (hfit : size ≤ rest.length) (h32 : 14 + rest.length < 2 ^ 32) :
    (id2 = 0 →
      ∀ k, (L.process_buf c (encHeader size 0x196 id1 id2 ++ rest)).lobby.m_clients.find k
        = (L.m_clients.find k).map
            (fun q => q ++ [encHeader size 0x197 id1 id2 ++ rest.take size])) ∧
    (id2 ≠ 0 → id1 = id2 →
      ∀ k, (L.process_buf c (encHeader size 0x196 id1 id2 ++ rest)).lobby.m_clients.find k
        = (L.m_clients.find k).map
            (fun q => q ++ if k = c then [encHeader size 0x197 id1 id2 ++ rest.take size]
              else [])) ∧
    (id2 ≠ 0 → id1 ≠ id2 →
      ∀ k, (L.process_buf c (encHeader size 0x196 id1 id2 ++ rest)).lobby.m_clients.find k
        = (L.m_clients.find k).map
            (fun q => q
              ++ (if k = c then [encHeader size 0x197 id1 id2 ++ rest.take size] else [])
              ++ (if k = id2 then [encHeader size 0x197 id1 id2 ++ rest.take size]
                  else []))) := by
  obtain ⟨f1, _, f3, f4, _, _, _⟩ := Packet.ctor_facts size 0x196 id1 id2 c rest
  obtain ⟨k1, k2, k3, k4⟩ :=
    Packet.keep_whole_message_encHeader size 0x196 0x197 id1 id2 c rest hfit h32
  have e1 : id1 % 2 ^ 32 = id1 := Nat.mod_eq_of_lt h1
  have e2 : id2 % 2 ^ 32 = id2 := Nat.mod_eq_of_lt h2
  rw [e1] at f3
  rw [e2] at f4 k4
  rw [Lobby.process_buf_196 L c _ (by rw [f1]; decide)]
  simp only [Lobby.on_196, f3, f4]
  generalize (Packet.ctor (encHeader size 0x196 id1 id2 ++ rest) c).keep_whole_message 0x197
    = q at k1 k2 k3 k4 ⊢
  have hs : q.m_send_size ≠ 0 := by rw [k1]; omega
  refine ⟨fun h0 k => ?_, fun h0 he k => ?_, fun h0 hne k => ?_⟩
  · rw [if_pos h0.symm]
    simp only [Lobby.done]
    rw [Lobby.send_everyone_find _ _ _ hs, k1, k2]
  · rw [if_neg (fun e => h0 e.symm), if_pos he]
    simp only [Lobby.done]
    rw [Lobby.send_source_find_ite _ _ _ hs, k1, k2, k3]
  · rw [if_neg (fun e => h0 e.symm), if_neg hne]
    simp only [Lobby.done]
    rw [Lobby.send_id2_find _ _ _ hs, Lobby.send_source_find_ite _ _ _ hs, k1, k2, k3, k4]
    cases L.m_clients.find k with
    | none => rfl
    | some q0 => simp only [Option.map, List.append_assoc]

set_option maxRecDepth 1000000 in
theorem C20_lobby_message_witness :
    (lobby_r1.process_buf 1 (bare_packet 0x196 1 2)).lobby.m_clients.find 2
      = (lobby_r1.m_clients.find 2).map
          (fun q => q
            ++ (if 2 = 1 then [encHeader 0 0x197 1 2 ++ (List.replicate 200 0).take 0] else [])
            ++ (if 2 = 2 then [encHeader 0 0x197 1 2 ++ (List.replicate 200 0).take 0]
                else [])) :=
  (C20_lobby_message lobby_r1 1 0 1 2 (List.replicate 200 0) (by decide) (by decide)
    (by decide) (by decide)).2.2 (by decide) (by decide) 2

/-! ## Misbehaving clients -/

namespace Lobby

/-- The queues after `deliver`: the loop serves the ids before the first one
that is not a registered client, and none after it. -/
theorem deliver_find_takeWhile (s : Buffer) (ids : List Nat) :
    ∀ (clients : IdMap (List Buffer)) (k : Nat),
      (deliver clients s ids).find k
        = (clients.find k).map (fun q => q ++
            List.replicate ((ids.takeWhile (fun id => clients.contains id)).count k) s) := by
  induction ids with
  | nil =>
    intro clients k
    simp only [deliver, List.takeWhile_nil, List.count_nil, List.replicate_zero, List.append_nil]
    cases clients.find k <;> rfl
  | cons id ids ih =>
    intro clients k
    by_cases hid : clients.contains id = true
    · have hc : (fun j => (queue_buf clients id s).contains j) = fun j => clients.contains j := by
        funext j
        simp only [IdMap.contains, queue_buf, IdMap.isSome_find_modify]
      simp only [deliver, hid, if_true, List.takeWhile_cons]
      rw [ih, hc, queue_buf]
      by_cases hk : k = id
      · subst hk
        rw [IdMap.find_modify_self, List.count_cons_self]
        cases clients.find k with
        | none => rfl
        | some q =>
          simp only [Option.map, List.replicate_succ, List.append_assoc, List.singleton_append]
      · have hne : (id == k) = false := by simpa using fun e => hk e.symm
        rw [IdMap.find_modify_ne _ _ _ _ hk, List.count_cons, hne]
        simp only [Bool.false_eq_true, if_false, Nat.add_zero]
    · simp only [deliver, hid, Bool.false_eq_true, if_false, List.takeWhile_cons,
        List.count_nil, List.replicate_zero, List.append_nil]
      cases clients.find k <;> rfl

end Lobby

set_option maxRecDepth 1000000 in
/-- C21 fails on the code: the room of host 1 has the members `[1, 3, 2]` and
client 3 is no longer registered (it joined a second room and disconnected).
Client 1 sends a `0x1bb` packet, which is routed to `EveryoneInRoom`: the
queue of 1 gets the `0x1bc` copy, the lookup of 3 fails, and the queue of the
registered member 2 gets nothing. -/
theorem C21_fan_out_stops_at_failed_lookup :
    (lobby_stale_second.m_rooms.find 1).map (fun R => R.m_players) = some [1, 3, 2] ∧
    (lobby_stale_second.m_players.find 1).map (fun pl => pl.m_room) = some (some 1) ∧
    lobby_stale_second.m_clients.find 3 = none ∧
    (lobby_stale_second.m_clients.find 2).isSome = true ∧
    (lobby_stale_second.process_buf 1 (bare_packet 0x1bb 1 0)).lobby.m_clients.find 1
      = (lobby_stale_second.m_clients.find 1).map (fun q => q ++ [encHeader 0 0x1bc 1 0]) ∧
    (lobby_stale_second.process_buf 1 (bare_packet 0x1bb 1 0)).lobby.m_clients.find 2
      = lobby_stale_second.m_clients.find 2 := by
  decide

set_option maxRecDepth 1000000 in
/-- C23 fails on the code: client 3 joins the room of 1 and then the room of 2
and disconnects, which leaves its id in the member list of room 1 without a
Player. When the host 1 disconnects afterwards, the member loop of branch
`0x1a0` looks up player 3 and the `std::out_of_range` leaves
`Lobby::disconnect`: player 1 is not erased and no `0x1a7` packet is queued
for client 2. -/
theorem C23_disconnect_throws_after_stale_member :
    (lobby_two_rooms.disconnect 3 (padded [])).thrown = false ∧
    (lobby_stale_member.m_rooms.find 1).map (fun R => R.m_players) = some [1, 3] ∧
    lobby_stale_member.m_players.find 3 = none ∧
    (lobby_stale_member.disconnect 1 (padded [])).thrown = true ∧
    ((lobby_stale_member.disconnect 1 (padded [])).lobby.m_players.find 1).isSome = true ∧
    ((lobby_stale_member.disconnect 1 (padded [])).lobby.m_clients.find 2)
      = lobby_stale_member.m_clients.find 2 := by
  decide

set_option maxRecDepth 1000000 in
/-- C28 fails on the code: after client 3 has joined the room of 1, then the
room of 2, and has disconnected, the member list of room 1 is `[1, 3]` and 3
is not a key of `players`. -/
theorem C28_member_without_player :
    (lobby_two_rooms.disconnect 3 (padded [])).thrown = false ∧
    (lobby_stale_member.m_rooms.find 1).map (fun R => R.m_players) = some [1, 3] ∧
    lobby_stale_member.m_players.find 3 = none := by
  decide

set_option maxRecDepth 1000000 in
/-- C29 fails on the code: after client 3 has joined the room of 1 and then
the room of 2, its id is in the member lists of both rooms while its room
link points to room 2. -/
theorem C29_member_of_two_rooms :
    (lobby_two_rooms.m_rooms.find 1).map (fun R => R.m_players) = some [1, 3] ∧
    (lobby_two_rooms.m_rooms.find 2).map (fun R => R.m_players) = some [2, 3] ∧
    (lobby_two_rooms.m_players.find 3).map (fun pl => pl.m_room) = some (some 2) := by
  decide

set_option maxRecDepth 1000000 in
/-- C30 fails on the code: client 3 joins the room of 1, then the room of 2,
and leaves (`0x1a0`), which clears its room link but leaves its id in the
member list of room 1; when host 1 starts the game (`0x1a2`), player 3 gets
status `0x0b` and still has no room link. -/
theorem C30_status_without_room :
    (((lobby_two_rooms.process_buf 3 (bare_packet 0x1a0 3 0)).lobby.process_buf 1
        (bare_packet 0x1a2 1 0)).lobby.m_players.find 3).map
      (fun pl => (pl.m_status, pl.m_room)) = some (0x0b, none) ∧
    ((lobby_two_rooms.process_buf 3 (bare_packet 0x1a0 3 0)).lobby.m_players.find 3).map
      (fun pl => (pl.m_status, pl.m_room)) = some (0x01, none) ∧
    ((lobby_two_rooms.process_buf 3 (bare_packet 0x1a0 3 0)).lobby.m_rooms.find 1).map
      (fun R => R.m_players) = some [1, 3] := by
  decide

/-! ## Packets from a client without Player -/

namespace Lobby

theorem process_buf_1aa (L : Lobby) (c_id : Nat) (buf : Buffer)
    (h : (Packet.ctor buf c_id).m_cmd = 0x1aa) :
    L.process_buf c_id buf = on_1aa L (Packet.ctor buf c_id) c_id := by
  unfold process_buf
  simp [h]

theorem process_buf_1ad (L : Lobby) (c_id : Nat) (buf : Buffer)
    (h : (Packet.ctor buf c_id).m_cmd = 0x1ad) :
    L.process_buf c_id buf = on_1ad L (Packet.ctor buf c_id) c_id := by
  unfold process_buf
  simp [h]

theorem process_buf_1b3 (L : Lobby) (c_id : Nat) (buf : Buffer)
    (h : (Packet.ctor buf c_id).m_cmd = 0x1b3) :
    L.process_buf c_id buf = on_1b3 L (Packet.ctor buf c_id) c_id := by
  unfold process_buf
  simp [h]

/-- The branches that look the sender's Player up before they change
anything: without Player the call throws and the Lobby is as before. -/
theorem process_buf_no_player (L : Lobby) (c : Nat) (buf : Buffer)
    (hnone : L.m_players.find c = none)
    (hcmd : (Packet.ctor buf c).m_cmd = 0x1a0 ∨ (Packet.ctor buf c).m_cmd = 0x1a2 ∨
      (Packet.ctor buf c).m_cmd = 0x1aa ∨ (Packet.ctor buf c).m_cmd = 0x1ad ∨
      (Packet.ctor buf c).m_cmd = 0x1b3) :
    (L.process_buf c buf).thrown = true ∧ (L.process_buf c buf).lobby = L := by
  rcases hcmd with h | h | h | h | h
  · rw [process_buf_1a0 L c buf h]
    simp only [on_1a0, hnone, raise, and_self]
  · rw [process_buf_1a2 L c buf h]
    simp only [on_1a2, hnone, raise, and_self]
  · rw [process_buf_1aa L c buf h]
    simp only [on_1aa, hnone, raise, and_self]
  · rw [process_buf_1ad L c buf h]
    simp only [on_1ad, hnone, raise, and_self]
  · rw [process_buf_1b3 L c buf h]
    simp only [on_1b3, hnone, raise, and_self]

end Lobby

set_option maxRecDepth 1000000 in
/-- C27 fails on the code for `0x19c` and `0x19e`. Client 1, connected but
not logged in, sends a `0x19c` packet: the lookup of its Player throws, but
the Room has been emplaced before and stays in `rooms` with an empty member
list. Client 4, connected but not logged in, sends a `0x19e` packet with
header `id1 = 2` for room 1: nothing is thrown, player 2 is put into room 1
and the `0x19f` packet is queued for the registered clients. -/
theorem C27_sender_without_player_changes_rooms :
    Lobby.ctor.connect.1.m_players.find 1 = none ∧
    Lobby.ctor.connect.1.m_rooms = [] ∧
    (Lobby.ctor.connect.1.process_buf 1 (create_of 1 "r1")).thrown = true ∧
    (Lobby.ctor.connect.1.process_buf 1 (create_of 1 "r1")).lobby.m_rooms
      = [(1, { m_description := lit "r1", m_host_id := 1, m_info := lit "0", m_players := [],
               m_hidden := false })] ∧
    lobby_r1.connect.2 = 4 ∧
    lobby_r1.connect.1.m_players.find 4 = none ∧
    (lobby_r1.connect.1.process_buf 4 (join_of 2 1)).thrown = false ∧
    ((lobby_r1.connect.1.process_buf 4 (join_of 2 1)).lobby.m_rooms.find 1).map
      (fun R => R.m_players) = some [1, 2] ∧
    ((lobby_r1.connect.1.process_buf 4 (join_of 2 1)).lobby.m_players.find 2).map
      (fun pl => (pl.m_status, pl.m_room)) = some (0x03, some 1) ∧
    (lobby_r1.connect.1.process_buf 4 (join_of 2 1)).lobby.m_clients.find 1
      = (lobby_r1.connect.1.m_clients.find 1).map
          (fun q => q ++ [packetBytes 0x19f 2 0 (le32 1 ++ [toByte 0x03])]) := by
  decide

/-! ## What every branch leaves alone -/

namespace IdMap

theorem isSome_find_map {α : Type} (m : IdMap α) (f : Nat × α → Nat × α)
    (hf : ∀ e, (f e).1 = e.1) (k : Nat) :
    (find (m.map f) k).isSome = (m.find k).isSome := by
  induction m with
  | nil => rfl
  | cons e m ih =>
    obtain ⟨k0, v0⟩ := e
    have h1 : (f (k0, v0)).1 = k0 := hf (k0, v0)
    rw [List.map_cons]
    generalize hfe : f (k0, v0) = fe at h1
    obtain ⟨k1, v1⟩ := fe
    simp only [] at h1
    subst h1
    by_cases h : k1 = k
    · simp only [find, if_pos h, Option.isSome_some]
    · simp only [find, if_neg h]
      exact ih

end IdMap

namespace Lobby

theorem Keeps.refl (L : Lobby) : Keeps L L := ⟨rfl, fun _ => rfl⟩

theorem Keeps.trans {L1 L2 L3 : Lobby} (h1 : Keeps L1 L2) (h2 : Keeps L2 L3) : Keeps L1 L3 :=
  ⟨h2.1.trans h1.1, fun k => (h2.2 k).trans (h1.2 k)⟩

theorem Keeps.of_eq {L L1 L2 : Lobby} (h : Keeps L L1) (hc : L2.m_clients = L1.m_clients)
    (hi : L2.m_last_issued_id = L1.m_last_issued_id) : Keeps L L2 :=
  ⟨hi.trans h.1, fun k => by rw [hc]; exact h.2 k⟩

theorem deliver_isSome (s : Buffer) (ids : List Nat) :
    ∀ (clients : IdMap (List Buffer)) (k : Nat),
      ((deliver clients s ids).find k).isSome = (clients.find k).isSome := by
  intro clients k
  rw [deliver_find_takeWhile]
  cases clients.find k <;> rfl

theorem send_clients_isSome (L : Lobby) (p : Packet) (target : SendTo) (k : Nat) :
    ((send_clients L p target).find k).isSome = (L.m_clients.find k).isSome := by
  unfold send_clients
  simp only []
  split
  · rfl
  · cases target <;> simp only []
    case Source => exact deliver_isSome _ _ _ _
    case Id2 => exact deliver_isSome _ _ _ _
    case Everyone =>
      exact IdMap.isSome_find_map L.m_clients
        (fun c => (c.1, c.2 ++ [List.take p.m_send_size p.m_buf])) (fun _ => rfl) k
    case EveryoneButSource =>
      refine IdMap.isSome_find_map L.m_clients
        (fun c => if p.m_source_id = c.1 then c
          else (c.1, c.2 ++ [List.take p.m_send_size p.m_buf])) (fun e => ?_) k
      by_cases h : p.m_source_id = e.1
      · simp only [if_pos h]
      · simp only [if_neg h]
    all_goals
      split
      · rfl
      · split
        · rfl
        · split
          · rfl
          · first
            | exact deliver_isSome _ _ _ _
            | (split <;> exact deliver_isSome _ _ _ _)

theorem Keeps.send {L L1 : Lobby} (h : Keeps L L1) (p : Packet) (target : SendTo) :
    Keeps L (L1.send p target) :=
  ⟨h.1, fun k => (send_clients_isSome L1 p target k).trans (h.2 k)⟩

end Lobby

namespace Lobby

theorem forward_keeps (L : Lobby) (p : Packet) (cmd : Nat) (target : SendTo) :
    Keeps L (forward L p cmd target).lobby :=
  (Keeps.refl L).send _ _

theorem leave_all_frame (ids : List Nat) : ∀ (L : Lobby) (p : Packet),
    (leave_all L p ids).lobby.m_clients = L.m_clients ∧
    (leave_all L p ids).lobby.m_last_issued_id = L.m_last_issued_id := by
  induction ids with
  | nil => intro L p; exact ⟨rfl, rfl⟩
  | cons id ids ih =>
    intro L p
    simp only [leave_all]
    split
    · exact ⟨rfl, rfl⟩
    · exact ih _ _

theorem start_all_frame (c : Nat) (ids : List Nat) : ∀ (L : Lobby) (p : Packet),
    (start_all L p c ids).lobby.m_clients = L.m_clients ∧
    (start_all L p c ids).lobby.m_last_issued_id = L.m_last_issued_id := by
  induction ids with
  | nil => intro L p; exact ⟨rfl, rfl⟩
  | cons id ids ih =>
    intro L p
    simp only [start_all]
    split
    · exact ⟨rfl, rfl⟩
    · exact ih _ _

theorem status_all_lobby (ids : List Nat) : ∀ (L : Lobby) (p : Packet),
    (status_all L p ids).lobby = L := by
  induction ids with
  | nil => intro L p; rfl
  | cons id ids ih =>
    intro L p
    simp only [status_all]
    split
    · rfl
    · exact ih _ _

theorem send_1be_keeps (n : Nat) (ids : List Nat) : ∀ (L0 L : Lobby) (p : Packet),
    Keeps L0 L → Keeps L0 (send_1be L p n ids).1 := by
  induction ids with
  | nil => intro L0 L p h; exact h
  | cons id ids ih =>
    intro L0 L p h
    simp only [send_1be]
    split
    · exact ih _ _ _ h
    · exact ih _ _ _ (h.send _ _)

theorem on_192_keeps (L : Lobby) (p : Packet) : Keeps L (on_192 L p).lobby := by
  simp only [on_192]
  split
  · exact Keeps.refl L
  · exact (Keeps.refl L).send _ _

theorem on_1ad_keeps (L : Lobby) (p : Packet) (c : Nat) : Keeps L (on_1ad L p c).lobby := by
  simp only [on_1ad]
  split
  · exact Keeps.refl L
  · exact (Keeps.refl L).send _ _

theorem on_1b3_keeps (L : Lobby) (p : Packet) (c : Nat) : Keeps L (on_1b3 L p c).lobby := by
  simp only [on_1b3]
  split
  · exact Keeps.refl L
  · exact (Keeps.refl L).of_eq rfl rfl

theorem on_19c_keeps (L : Lobby) (p : Packet) (c : Nat) : Keeps L (on_19c L p c).lobby := by
  simp only [on_19c, done, raise]
  split
  · exact Keeps.of_eq (Keeps.refl L) rfl rfl
  · refine Keeps.send ?_ _ _
    exact Keeps.of_eq (Keeps.refl L) rfl rfl

theorem on_19e_keeps (L : Lobby) (p : Packet) : Keeps L (on_19e L p).lobby := by
  simp only [on_19e, done, raise]
  split
  · exact Keeps.refl L
  · split
    · exact Keeps.refl L
    · refine Keeps.send ?_ _ _
      exact Keeps.of_eq (Keeps.refl L) rfl rfl

theorem on_1b5_keeps (L : Lobby) (p : Packet) : Keeps L (on_1b5 L p).lobby :=
  ((Keeps.refl L).send _ _).send _ _

theorem on_196_keeps (L : Lobby) (p : Packet) : Keeps L (on_196 L p).lobby := by
  simp only [on_196]
  split
  · exact (Keeps.refl L).send _ _
  · split
    · exact (Keeps.refl L).send _ _
    · exact ((Keeps.refl L).send _ _).send _ _

theorem on_1a8_keeps (L : Lobby) (p : Packet) : Keeps L (on_1a8 L p).lobby :=
  (Keeps.refl L).send _ _

theorem on_19a_keeps (L : Lobby) (p : Packet) (c : Nat) : Keeps L (on_19a L p c).lobby := by
  rw [on_19a_lobby]
  refine Keeps.send (Keeps.send ?_ _ _) _ _
  exact Keeps.of_eq (Keeps.refl L) rfl rfl

end Lobby

namespace Lobby

theorem Keeps.of_frame {L L1 : Lobby} (hc : L1.m_clients = L.m_clients)
    (hi : L1.m_last_issued_id = L.m_last_issued_id) : Keeps L L1 :=
  ⟨hi, fun k => by rw [hc]⟩

theorem keeps_erase_rooms (L : Lobby) (X : Lobby × Packet) (k : Nat) (h : Keeps L X.1) :
    Keeps L { m_clients := X.1.m_clients, m_players := X.1.m_players,
              m_rooms := X.1.m_rooms.erase k, m_last_issued_id := X.1.m_last_issued_id } :=
  Keeps.of_eq h rfl rfl

theorem on_1a0_keeps (L : Lobby) (p : Packet) (c : Nat) : Keeps L (on_1a0 L p c).lobby := by
  cases hS : L.m_players.find c with
  | none => simp only [on_1a0, hS, raise]; exact Keeps.refl L
  | some S =>
    cases hr : S.m_room with
    | none => simp only [on_1a0, hS, hr, done]; exact Keeps.refl L
    | some r =>
      cases hR : L.m_rooms.find r with
      | none => simp only [on_1a0, hS, hr, hR, done]; exact Keeps.refl L
      | some R =>
        cases hn : R.m_players.getLast? with
        | none => simp only [on_1a0, hS, hr, hR, hn, raise]; exact Keeps.refl L
        | some n =>
          by_cases hb : (decide (S.m_status = 5) || decide (S.m_status = 15)) = true
          · obtain ⟨l1, l2⟩ := leave_all_frame R.m_players L
              ((p.write_byte 1).write_int R.m_players.length)
            simp only [on_1a0, hS, hr, hR, hn, hb, if_true]
            generalize leave_all L ((p.write_byte 1).write_int R.m_players.length) R.m_players
              = res at l1 l2 ⊢
            have hk : Keeps L res.lobby := Keeps.of_frame l1 l2
            cases ht : res.thrown
            · simp only [Bool.false_eq_true, if_false, done]
              by_cases hd : (decide (S.m_status = 15) && decide (1 < R.m_players.length)) = true
              · simp only [hd, if_true]
                refine keeps_erase_rooms L _ _ ?_
                exact send_1be_keeps _ _ _ _ _ ((hk.send _ _).send _ _)
              · simp only [hd, if_false]
                refine keeps_erase_rooms L _ _ ?_
                exact hk.send _ _
            · simp only [if_true]
              exact hk
          · simp only [on_1a0, hS, hr, hR, hn, hb, Bool.false_eq_true, if_false, done]
            by_cases hd : (decide (S.m_status = 15) && decide (1 < R.m_players.length)) = true
            · simp only [hd, if_true]
              refine send_1be_keeps n (R.m_players.drop 1) L _ _ ?_
              refine Keeps.send (Keeps.send ?_ _ _) _ _
              exact Keeps.of_frame rfl rfl
            · simp only [hd, if_false]
              refine Keeps.send ?_ _ _
              exact Keeps.of_frame rfl rfl

theorem on_1a2_keeps (L : Lobby) (p : Packet) (c : Nat) : Keeps L (on_1a2 L p c).lobby := by
  cases hS : L.m_players.find c with
  | none => simp only [on_1a2, hS, raise]; exact Keeps.refl L
  | some S =>
    cases hr : S.m_room with
    | none => simp only [on_1a2, hS, hr, done]; exact Keeps.refl L
    | some r =>
      cases hR : L.m_rooms.find r with
      | none => simp only [on_1a2, hS, hr, hR, done]; exact Keeps.refl L
      | some R =>
        obtain ⟨l1, l2⟩ := start_all_frame c R.m_players.reverse
          { L with m_rooms := L.m_rooms.set r R.hide_from_lobby }
          (p.write_int R.m_players.length)
        simp only [on_1a2, hS, hr, hR]
        generalize start_all { L with m_rooms := L.m_rooms.set r R.hide_from_lobby }
          (p.write_int R.m_players.length) c R.m_players.reverse = res at l1 l2 ⊢
        have hk : Keeps L res.lobby := Keeps.of_frame l1 l2
        cases ht : res.thrown
        · simp only [Bool.false_eq_true, if_false, done]
          exact hk.send _ _
        · simp only [if_true]
          exact hk

theorem on_1aa_keeps (L : Lobby) (p : Packet) (c : Nat) : Keeps L (on_1aa L p c).lobby := by
  cases hS : L.m_players.find c with
  | none => simp only [on_1aa, hS, raise]; exact Keeps.refl L
  | some S =>
    cases hr : S.m_room with
    | none => simp only [on_1aa, hS, hr, done]; exact Keeps.refl L
    | some r =>
      cases hR : L.m_rooms.find r with
      | none => simp only [on_1aa, hS, hr, hR, done]; exact Keeps.refl L
      | some R =>
        simp only [on_1aa, hS, hr, hR, status_all_lobby]
        split
        · rw [status_all_lobby]
          exact Keeps.of_frame rfl rfl
        · simp only [done, status_all_lobby]
          refine Keeps.send ?_ _ _
          exact Keeps.of_frame rfl rfl

theorem ite_ind {α : Type} (P : α → Prop) (c : Prop) [Decidable c] (a b : α) (ha : P a)
    (hb : P b) : P (if c then a else b) := by
  split <;> assumption

theorem done_keeps (L : Lobby) (p : Packet) : Keeps L (done L p).lobby := Keeps.refl L

theorem process_buf_keeps (L : Lobby) (c : Nat) (buf : Buffer) :
    Keeps L (L.process_buf c buf).lobby := by
  unfold process_buf
  lift_lets
  intro p cmd
  clear_value cmd p
  repeat' with_reducible refine ite_ind (fun o : Outcome => Keeps L o.lobby) _ _ _ ?_ ?_
  all_goals first
    | with_reducible exact forward_keeps _ _ _ _
    | with_reducible exact on_192_keeps _ _
    | with_reducible exact on_1ad_keeps _ _ _
    | with_reducible exact on_1b3_keeps _ _ _
    | with_reducible exact on_19c_keeps _ _ _
    | with_reducible exact on_19e_keeps _ _
    | with_reducible exact on_1a0_keeps _ _ _
    | with_reducible exact on_1a2_keeps _ _ _
    | with_reducible exact on_1aa_keeps _ _ _
    | with_reducible exact on_1b5_keeps _ _
    | with_reducible exact on_196_keeps _ _
    | with_reducible exact on_1a8_keeps _ _
    | with_reducible exact on_19a_keeps _ _ _
    | with_reducible exact done_keeps _ _

theorem disconnect_m_last_issued_id (L : Lobby) (c : Nat) (buf : Buffer) :
    (L.disconnect c buf).lobby.m_last_issued_id = L.m_last_issued_id := by
  cases hS : L.m_players.find c with
  | none =>
    unfold disconnect
    simp only [hS, done]
  | some S =>
    by_cases hr : S.m_room.isSome = true
    · have h := (process_buf_keeps { L with m_clients := L.m_clients.erase c } c
        ((Packet.ctor buf c).write_header 0x1a0 c 0).m_buf).1
      unfold disconnect
      simp -proj only [hS, hr, if_true, done]
      generalize process_buf { L with m_clients := L.m_clients.erase c } c
        ((Packet.ctor buf c).write_header 0x1a0 c 0).m_buf = res at h ⊢
      cases ht : res.thrown
      · simp -proj only [Bool.false_eq_true, if_false]
        simp only [send_m_last_issued_id]
        exact h
      · simp -proj only [if_true]
        simp only []
        exact h
    · unfold disconnect
      simp -proj only [hS, hr, Bool.false_eq_true, if_false, done]
      simp only [Bool.false_eq_true, if_false, send_m_last_issued_id]

end Lobby

/-! ## Client ids -/

namespace Lobby

theorem run_cons (L : Lobby) (e : Event) (es : List Event) :
    L.run (e :: es) = (L.step e).run es := rfl

theorem step_m_last_issued_id (L : Lobby) (e : Event) (h : e ≠ .connect) :
    (L.step e).m_last_issued_id = L.m_last_issued_id := by
  cases e with
  | connect => exact absurd rfl h
  | packet c buf => exact (process_buf_keeps L c buf).1
  | disconnect c buf => exact disconnect_m_last_issued_id L c buf

theorem connect_id (L : Lobby) :
    L.connect.2 = (L.m_last_issued_id + 1) % 2 ^ 32 ∧
    L.connect.1.m_last_issued_id = (L.m_last_issued_id + 1) % 2 ^ 32 :=
  ⟨rfl, rfl⟩

/-- The ids handed out along a sequence of calls, as long as the counter
does not reach `2 ^ 32`. -/
theorem issued_of_bound (es : List Event) : ∀ (L : Lobby),
    L.m_last_issued_id + connects es < 2 ^ 32 →
    L.issued es = List.range' (L.m_last_issued_id + 1) (connects es) ∧
    (L.run es).m_last_issued_id = L.m_last_issued_id + connects es := by
  induction es with
  | nil => intro L _; exact ⟨rfl, rfl⟩
  | cons e es ih =>
    intro L hb
    cases e with
    | connect =>
      have hc : connects (Event.connect :: es) = connects es + 1 := rfl
      rw [hc] at hb ⊢
      have h1 : L.connect.1.m_last_issued_id = L.m_last_issued_id + 1 := by
        rw [(connect_id L).2]
        exact Nat.mod_eq_of_lt (by omega)
      have h2 : L.connect.2 = L.m_last_issued_id + 1 := by
        rw [(connect_id L).1]
        exact Nat.mod_eq_of_lt (by omega)
      obtain ⟨i1, i2⟩ := ih L.connect.1 (by rw [h1]; omega)
      refine ⟨?_, ?_⟩
      · show L.connect.2 :: issued L.connect.1 es = _
        rw [i1, h1, h2, List.range'_succ]
      · rw [run_cons]
        show (L.connect.1.run es).m_last_issued_id = _
        rw [i2, h1]
        omega
    | packet c buf =>
      have hc : connects (Event.packet c buf :: es) = connects es := rfl
      rw [hc] at hb ⊢
      have h1 : (L.process_buf c buf).lobby.m_last_issued_id = L.m_last_issued_id :=
        (process_buf_keeps L c buf).1
      obtain ⟨i1, i2⟩ := ih (L.process_buf c buf).lobby (by rw [h1]; exact hb)
      refine ⟨?_, ?_⟩
      · show issued (L.process_buf c buf).lobby es = _
        rw [i1, h1]
      · rw [run_cons]
        show ((L.process_buf c buf).lobby.run es).m_last_issued_id = _
        rw [i2, h1]
    | disconnect c buf =>
      have hc : connects (Event.disconnect c buf :: es) = connects es := rfl
      rw [hc] at hb ⊢
      have h1 : (L.disconnect c buf).lobby.m_last_issued_id = L.m_last_issued_id :=
        disconnect_m_last_issued_id L c buf
      obtain ⟨i1, i2⟩ := ih (L.disconnect c buf).lobby (by rw [h1]; exact hb)
      refine ⟨?_, ?_⟩
      · show issued (L.disconnect c buf).lobby es = _
        rw [i1, h1]
      · rw [run_cons]
        show ((L.disconnect c buf).lobby.run es).m_last_issued_id = _
        rw [i2, h1]

theorem connects_replicate (n : Nat) : connects (List.replicate n Event.connect) = n := by
  induction n with
  | zero => rfl
  | succ n ih => rw [List.replicate_succ]; show connects _ + 1 = _; rw [ih]

end Lobby

/-! ## Client ids: the claim -/

/-- C24 as stated fails: after `2 ^ 32 - 1` connects on a fresh Lobby the
counter is `2 ^ 32 - 1`, the next `connect` hands out the id 0, and the one
after it the id 1, which the first `connect` of the fresh Lobby had handed
out already. -/
theorem C24_id_wraps_to_zero :
    (Lobby.ctor.run (List.replicate (2 ^ 32 - 1) Event.connect)).m_last_issued_id
      = 2 ^ 32 - 1 ∧
    (Lobby.ctor.run (List.replicate (2 ^ 32 - 1) Event.connect)).connect.2 = 0 ∧
    (Lobby.ctor.run (List.replicate (2 ^ 32 - 1) Event.connect)).connect.1.connect.2 = 1 ∧
    Lobby.ctor.connect.2 = 1 := by
  have h0 : Lobby.ctor.m_last_issued_id = 0 := rfl
  have h := (Lobby.issued_of_bound (List.replicate (2 ^ 32 - 1) Event.connect) Lobby.ctor
    (by rw [Lobby.connects_replicate, h0]; norm_num)).2
  rw [Lobby.connects_replicate, h0] at h
  have h1 : (Lobby.ctor.run (List.replicate (2 ^ 32 - 1) Event.connect)).m_last_issued_id
      = 2 ^ 32 - 1 := by
    rw [h]; norm_num
  refine ⟨h1, ?_, ?_, ?_⟩
  · rw [(Lobby.connect_id _).1, h1]
    norm_num
  · rw [(Lobby.connect_id _).1, (Lobby.connect_id _).2, h1]
    norm_num
  · rw [(Lobby.connect_id _).1, h0]
    norm_num

/-- C24, amended: along every sequence of connects, packets and disconnects
that starts in a Lobby whose counter is `n` and holds `k` connects with
`n + k < 2 ^ 32`, the ids handed out are `n + 1, ..., n + k` in this order:
each is strictly greater than every earlier one, none is 0 and none is handed
out twice; packets and disconnects leave the counter alone. -/
theorem C24_ids_increase_below_wrap (L : Lobby) (es : List Event)
    (hb : L.m_last_issued_id + connects es < 2 ^ 32) :
    L.issued es = List.range' (L.m_last_issued_id + 1) (connects es) ∧
    (L.issued es).Pairwise (fun a b => a < b) ∧
    (∀ id ∈ L.issued es, L.m_last_issued_id < id ∧ id < 2 ^ 32) ∧
    (L.run es).m_last_issued_id = L.m_last_issued_id + connects es := by
  obtain ⟨i1, i2⟩ := Lobby.issued_of_bound es L hb
  refine ⟨i1, ?_, ?_, i2⟩
  · rw [i1]
    exact List.pairwise_lt_range' _ _
  · intro id hid
    rw [i1, List.mem_range'_1] at hid
    omega

set_option maxRecDepth 1000000 in
theorem C24_ids_increase_below_wrap_witness :
    Lobby.ctor.issued [Event.connect, Event.packet 1 (login_of "alice"), Event.connect,
        Event.disconnect 1 (padded []), Event.connect]
      = List.range' (Lobby.ctor.m_last_issued_id + 1)
          (connects [Event.connect, Event.packet 1 (login_of "alice"), Event.connect,
            Event.disconnect 1 (padded []), Event.connect]) :=
  (C24_ids_increase_below_wrap Lobby.ctor
    [Event.connect, Event.packet 1 (login_of "alice"), Event.connect,
      Event.disconnect 1 (padded []), Event.connect] (by decide)).1

/-! ## The login response: rooms and properties -/

namespace Lobby

/-- What a login packet leaves in the send queues. -/
theorem login_packet_queues (L : Lobby) (c size id1 id2 : Nat)
    (ver1 ver2 email password game_key : Str) (rest : Buffer)
    (h1 : ver1.length < 256) (h2 : ver2.length < 256) (h3 : email.length < 256)
    (h4 : password.length < 256) (h5 : game_key.length < 256)
    (hfit : 14 + (payload_19b (normalise_name game_key)
        (L.m_players.emplaced c (Player.ctor c (normalise_name game_key) ver1 ver2)).m_props
        (L.m_players.emplace c (Player.ctor c (normalise_name game_key) ver1 ver2))
        L.m_rooms).length
      ≤ (login_packet size id1 id2 ver1 ver2 email password game_key rest).length)
    (h32 : (login_packet size id1 id2 ver1 ver2 email password game_key rest).length < 2 ^ 32)
    (k : Nat) :
    (L.process_buf c
        (login_packet size id1 id2 ver1 ver2 email password game_key rest)).lobby.m_clients.find k
      = if k = c then
          (L.m_clients.find k).map (fun q => q ++
            [packetBytes 0x19b c c (payload_19b (normalise_name game_key)
              (L.m_players.emplaced c
                (Player.ctor c (normalise_name game_key) ver1 ver2)).m_props
              (L.m_players.emplace c (Player.ctor c (normalise_name game_key) ver1 ver2))
              L.m_rooms),
             packetBytes 0x1a6 c 0 (payload_1a6 (L.m_players.emplaced c
                (Player.ctor c (normalise_name game_key) ver1 ver2)))])
        else
          (L.m_clients.find k).map (fun q => q ++
            [packetBytes 0x1a6 c 0 (payload_1a6 (L.m_players.emplaced c
                (Player.ctor c (normalise_name game_key) ver1 ver2)))]) := by
  have hcmd : (Packet.ctor (login_packet size id1 id2 ver1 ver2 email password game_key rest)
      c).m_cmd = 0x19a := by
    rw [login_packet, Packet.ctor_encHeader]
    show 0x19a % 2 ^ 16 = 0x19a
    decide
  have hbuf : (Packet.ctor (login_packet size id1 id2 ver1 ver2 email password game_key rest)
      c).m_buf = login_packet size id1 id2 ver1 ver2 email password game_key rest := by
    rw [login_packet, Packet.ctor_encHeader]
  have hsrc : (Packet.ctor (login_packet size id1 id2 ver1 ver2 email password game_key rest)
      c).m_source_id = c := by
    rw [login_packet, Packet.ctor_encHeader]
  have hr := read_login_at
    (Packet.ctor (login_packet size id1 id2 ver1 ver2 email password game_key rest) c)
    (encHeader size 0x19a id1 id2) ver1 ver2 email password game_key rest
    (by rw [hbuf, login_packet]) (by rw [login_packet, Packet.ctor_encHeader]; rfl)
    h1 h2 h3 h4 h5 (by rw [encHeader_length]; decide)
  have hmain := login_queues L
    (Packet.ctor (login_packet size id1 id2 ver1 ver2 email password game_key rest) c) c hsrc
    (by rw [hr.1, hr.2.1, hr.2.2, hbuf]; exact hfit) (by rw [hbuf]; exact h32) k
  rw [process_buf_19a L c _ hcmd, hmain, hr.1, hr.2.1, hr.2.2]

end Lobby

theorem encRoomEntry_eq (e : Nat × Room) :
    encRoomEntry e = if e.2.m_hidden then [] else encVisibleRoom e := by
  have h6 : le32 0 ++ le16 0 = List.replicate 6 (0 : Byte) := by decide
  unfold encRoomEntry encVisibleRoom
  split
  · rfl
  · rw [← h6]
    simp only [List.append_assoc]

theorem flatMap_encRoomEntry (l : IdMap Room) :
    l.flatMap encRoomEntry = (l.filter (fun e => !e.2.m_hidden)).flatMap encVisibleRoom := by
  induction l with
  | nil => rfl
  | cons e l ih =>
    rw [List.flatMap_cons, ih, encRoomEntry_eq, List.filter_cons]
    cases h : e.2.m_hidden
    · simp only [Bool.false_eq_true, if_false, Bool.not_false, if_true, List.flatMap_cons]
    · simp only [if_true, Bool.not_true, Bool.false_eq_true, if_false, List.nil_append]

theorem payload_19b_split (name props : Str) (players : IdMap Player) (rooms : IdMap Room) :
    payload_19b name props players rooms
      = login_head name props players ++ room_section rooms ++ le32 0 := by
  unfold payload_19b login_head room_section
  rw [flatMap_encRoomEntry]

/-! ## Who changes the properties string -/

namespace Lobby

theorem KeepsProps.same (L : Lobby) : KeepsProps L L := fun _ pl h => ⟨pl, h, rfl⟩

theorem KeepsProps.chain {L1 L2 L3 : Lobby} (h1 : KeepsProps L1 L2) (h2 : KeepsProps L2 L3) :
    KeepsProps L1 L3 := by
  intro k pl h
  obtain ⟨pl2, f2, e2⟩ := h1 k pl h
  obtain ⟨pl3, f3, e3⟩ := h2 k pl2 f2
  exact ⟨pl3, f3, e3.trans e2⟩

theorem KeepsProps.of_players {L L1 L2 : Lobby} (h : KeepsProps L L1)
    (hp : L2.m_players = L1.m_players) : KeepsProps L L2 := by
  intro k pl hk
  rw [hp]
  exact h k pl hk

theorem KeepsProps.after_send {L L1 : Lobby} (h : KeepsProps L L1) (p : Packet) (target : SendTo) :
    KeepsProps L (L1.send p target) :=
  h.of_players (send_m_players _ _ _)

/-- Assignment of a Player with the same properties string to a stored Player. -/
theorem KeepsProps.set {L L1 L2 : Lobby} (h : KeepsProps L L1) (k0 : Nat) (pl0 v : Player)
    (hf : L1.m_players.find k0 = some pl0) (hv : v.m_props = pl0.m_props)
    (hp : L2.m_players = L1.m_players.set k0 v) : KeepsProps L L2 := by
  intro k pl hk
  obtain ⟨pl1, f1, e1⟩ := h k pl hk
  rw [hp, IdMap.find_set_of_find _ _ _ _ _ hf]
  by_cases hk0 : k = k0
  · subst hk0
    rw [if_pos rfl]
    rw [hf] at f1
    cases f1
    exact ⟨v, rfl, hv.trans e1⟩
  · rw [if_neg hk0]
    exact ⟨pl1, f1, e1⟩

theorem KeepsProps.emplace {L L1 L2 : Lobby} (h : KeepsProps L L1) (k0 : Nat) (v : Player)
    (hp : L2.m_players = L1.m_players.emplace k0 v) : KeepsProps L L2 := by
  intro k pl hk
  obtain ⟨pl1, f1, e1⟩ := h k pl hk
  rw [hp]
  by_cases hk0 : k = k0
  · subst hk0
    rw [IdMap.find_emplace]
    refine ⟨_, rfl, ?_⟩
    simp only [IdMap.emplaced, f1, Option.getD_some]
    exact e1
  · rw [IdMap.find_emplace_ne _ _ _ _ hk0]
    exact ⟨pl1, f1, e1⟩

theorem forward_keeps_props (L : Lobby) (p : Packet) (cmd : Nat) (target : SendTo) :
    KeepsProps L (forward L p cmd target).lobby :=
  (KeepsProps.same L).after_send _ _

theorem done_keeps_props (L : Lobby) (p : Packet) : KeepsProps L (done L p).lobby :=
  KeepsProps.same L

theorem leave_all_keeps_props (ids : List Nat) : ∀ (L0 L : Lobby) (p : Packet),
    KeepsProps L0 L → KeepsProps L0 (leave_all L p ids).lobby := by
  induction ids with
  | nil => intro L0 L p h; exact h
  | cons id ids ih =>
    intro L0 L p h
    cases hpl : L.m_players.find id with
    | none =>
      simp only [leave_all, hpl, raise]
      exact h
    | some pl =>
      rw [leave_all_cons L p id ids pl hpl]
      refine ih _ _ _ ?_
      exact KeepsProps.set h id pl { pl with m_status := 0x01, m_room := none } hpl rfl rfl

theorem start_all_keeps_props (c : Nat) (ids : List Nat) : ∀ (L0 L : Lobby) (p : Packet),
    KeepsProps L0 L → KeepsProps L0 (start_all L p c ids).lobby := by
  induction ids with
  | nil => intro L0 L p h; exact h
  | cons id ids ih =>
    intro L0 L p h
    cases hpl : L.m_players.find id with
    | none =>
      simp only [start_all, hpl, raise]
      exact h
    | some pl =>
      rw [start_all_cons L p c id ids pl hpl]
      refine ih _ _ _ ?_
      exact KeepsProps.set h id pl { pl with m_status := if id = c then 0x0f else 0x0b } hpl
        rfl rfl

theorem send_1be_m_players (n : Nat) (ids : List Nat) : ∀ (L : Lobby) (p : Packet),
    (send_1be L p n ids).1.m_players = L.m_players := by
  induction ids with
  | nil => intro L p; rfl
  | cons id ids ih =>
    intro L p
    simp only [send_1be]
    split
    · exact ih _ _
    · rw [ih, send_m_players]

theorem on_19c_keeps_props (L : Lobby) (p : Packet) (c : Nat) :
    KeepsProps L (on_19c L p c).lobby := by
  cases hS : L.m_players.find c with
  | none =>
    simp only [on_19c, hS, raise]
    exact (KeepsProps.same L).of_players rfl
  | some S =>
    rw [on_19c_of_player L p c S hS]
    simp only [done]
    refine KeepsProps.after_send ?_ _ _
    refine KeepsProps.set (KeepsProps.same L) c S _ hS ?_ rfl
    simp only [Player.join_room]
    split <;> rfl

theorem on_19e_keeps_props (L : Lobby) (p : Packet) : KeepsProps L (on_19e L p).lobby := by
  cases hR : L.m_rooms.find p.read_int.1 with
  | none =>
    simp only [on_19e, hR, raise]
    exact KeepsProps.same L
  | some R =>
    cases hS : L.m_players.find p.m_id1 with
    | none =>
      simp only [on_19e, hR, hS, raise]
      exact KeepsProps.same L
    | some S =>
      simp only [on_19e, hR, hS, done]
      refine KeepsProps.after_send ?_ _ _
      refine KeepsProps.set (KeepsProps.same L) p.m_id1 S _ hS ?_ rfl
      simp only [Player.join_room]
      split <;> rfl

theorem keeps_props_erase_rooms (L : Lobby) (X : Lobby × Packet) (k : Nat)
    (h : KeepsProps L X.1) :
    KeepsProps L { m_clients := X.1.m_clients, m_players := X.1.m_players,
                   m_rooms := X.1.m_rooms.erase k,
                   m_last_issued_id := X.1.m_last_issued_id } :=
  h.of_players rfl

theorem on_1a0_keeps_props (L : Lobby) (p : Packet) (c : Nat) :
    KeepsProps L (on_1a0 L p c).lobby := by
  cases hS : L.m_players.find c with
  | none => simp only [on_1a0, hS, raise]; exact KeepsProps.same L
  | some S =>
    cases hr : S.m_room with
    | none => simp only [on_1a0, hS, hr, done]; exact KeepsProps.same L
    | some r =>
      cases hR : L.m_rooms.find r with
      | none => simp only [on_1a0, hS, hr, hR, done]; exact KeepsProps.same L
      | some R =>
        cases hn : R.m_players.getLast? with
        | none => simp only [on_1a0, hS, hr, hR, hn, raise]; exact KeepsProps.same L
        | some n =>
          by_cases hb : (decide (S.m_status = 5) || decide (S.m_status = 15)) = true
          · have hk := leave_all_keeps_props R.m_players L L
              ((p.write_byte 1).write_int R.m_players.length) (KeepsProps.same L)
            simp only [on_1a0, hS, hr, hR, hn, hb, if_true]
            generalize leave_all L ((p.write_byte 1).write_int R.m_players.length) R.m_players
              = res at hk ⊢
            cases ht : res.thrown
            · simp only [Bool.false_eq_true, if_false, done]
              by_cases hd : (decide (S.m_status = 15) && decide (1 < R.m_players.length)) = true
              · simp only [hd, if_true]
                refine keeps_props_erase_rooms L _ _ ?_
                refine KeepsProps.of_players ?_ (send_1be_m_players _ _ _ _)
                exact (hk.after_send _ _).after_send _ _
              · simp only [hd, if_false]
                refine keeps_props_erase_rooms L _ _ ?_
                exact hk.after_send _ _
            · simp only [if_true]
              exact hk
          · have hv : (S.leave_room L.m_rooms).1.m_props = S.m_props := by
              rw [Player.leave_room_fst]
            simp only [on_1a0, hS, hr, hR, hn, hb, Bool.false_eq_true, if_false, done]
            by_cases hd : (decide (S.m_status = 15) && decide (1 < R.m_players.length)) = true
            · simp only [hd, if_true]
              refine KeepsProps.of_players ?_ (send_1be_m_players _ _ _ _)
              refine KeepsProps.after_send (KeepsProps.after_send ?_ _ _) _ _
              exact KeepsProps.set (KeepsProps.same L) c S (S.leave_room L.m_rooms).1 hS hv rfl
            · simp only [hd, if_false]
              refine KeepsProps.after_send ?_ _ _
              exact KeepsProps.set (KeepsProps.same L) c S (S.leave_room L.m_rooms).1 hS hv rfl

theorem on_1a2_keeps_props (L : Lobby) (p : Packet) (c : Nat) :
    KeepsProps L (on_1a2 L p c).lobby := by
  cases hS : L.m_players.find c with
  | none => simp only [on_1a2, hS, raise]; exact KeepsProps.same L
  | some S =>
    cases hr : S.m_room with
    | none => simp only [on_1a2, hS, hr, done]; exact KeepsProps.same L
    | some r =>
      cases hR : L.m_rooms.find r with
      | none => simp only [on_1a2, hS, hr, hR, done]; exact KeepsProps.same L
      | some R =>
        have hk := start_all_keeps_props c R.m_players.reverse L
          { L with m_rooms := L.m_rooms.set r R.hide_from_lobby }
          (p.write_int R.m_players.length) ((KeepsProps.same L).of_players rfl)
        simp only [on_1a2, hS, hr, hR]
        generalize start_all { L with m_rooms := L.m_rooms.set r R.hide_from_lobby }
          (p.write_int R.m_players.length) c R.m_players.reverse = res at hk ⊢
        cases ht : res.thrown
        · simp only [Bool.false_eq_true, if_false, done]
          exact hk.after_send _ _
        · simp only [if_true]
          exact hk

theorem on_1aa_keeps_props (L : Lobby) (p : Packet) (c : Nat) :
    KeepsProps L (on_1aa L p c).lobby := by
  cases hS : L.m_players.find c with
  | none => simp only [on_1aa, hS, raise]; exact KeepsProps.same L
  | some S =>
    cases hr : S.m_room with
    | none => simp only [on_1aa, hS, hr, done]; exact KeepsProps.same L
    | some r =>
      cases hR : L.m_rooms.find r with
      | none => simp only [on_1aa, hS, hr, hR, done]; exact KeepsProps.same L
      | some R =>
        simp only [on_1aa, hS, hr, hR, status_all_lobby]
        split
        · rw [status_all_lobby]
          exact (KeepsProps.same L).of_players rfl
        · simp only [done, status_all_lobby]
          refine KeepsProps.after_send ?_ _ _
          exact (KeepsProps.same L).of_players rfl

theorem on_192_keeps_props (L : Lobby) (p : Packet) : KeepsProps L (on_192 L p).lobby := by
  simp only [on_192]
  split
  · exact KeepsProps.same L
  · exact (KeepsProps.same L).after_send _ _

theorem on_1ad_keeps_props (L : Lobby) (p : Packet) (c : Nat) :
    KeepsProps L (on_1ad L p c).lobby := by
  simp only [on_1ad]
  split
  · exact KeepsProps.same L
  · exact (KeepsProps.same L).after_send _ _

theorem on_1b5_keeps_props (L : Lobby) (p : Packet) : KeepsProps L (on_1b5 L p).lobby :=
  ((KeepsProps.same L).after_send _ _).after_send _ _

theorem on_196_keeps_props (L : Lobby) (p : Packet) : KeepsProps L (on_196 L p).lobby := by
  simp only [on_196]
  split
  · exact (KeepsProps.same L).after_send _ _
  · split
    · exact (KeepsProps.same L).after_send _ _
    · exact ((KeepsProps.same L).after_send _ _).after_send _ _

theorem on_1a8_keeps_props (L : Lobby) (p : Packet) : KeepsProps L (on_1a8 L p).lobby :=
  (KeepsProps.same L).after_send _ _

theorem on_19a_keeps_props (L : Lobby) (p : Packet) (c : Nat) :
    KeepsProps L (on_19a L p c).lobby := by
  rw [on_19a_lobby]
  refine KeepsProps.after_send (KeepsProps.after_send ?_ _ _) _ _
  exact KeepsProps.emplace (KeepsProps.same L) c _ rfl

theorem ite_ind_of {α : Type} (P : α → Prop) (c : Prop) [Decidable c] (a b : α) (ha : c → P a)
    (hb : ¬ c → P b) : P (if c then a else b) := by
  split
  · exact ha (by assumption)
  · exact hb (by assumption)

/-- No branch but `0x1b3` changes the properties string of a Player. -/
theorem process_buf_keeps_props (L : Lobby) (c : Nat) (buf : Buffer)
    (h : (Packet.ctor buf c).m_cmd ≠ 0x1b3) :
    KeepsProps L (L.process_buf c buf).lobby := by
  unfold process_buf
  lift_lets
  intro p cmd
  have hc : ¬ 0x1b3 = cmd := fun e => h e.symm
  clear_value cmd p
  repeat' first
    | with_reducible refine ite_ind_of (fun o : Outcome => KeepsProps L o.lobby) _ _ _ ?_ ?_
    | with_reducible intro hcmd
  all_goals first
    | with_reducible exact forward_keeps_props _ _ _ _
    | with_reducible exact on_192_keeps_props _ _
    | with_reducible exact on_1ad_keeps_props _ _ _
    | with_reducible exact on_19c_keeps_props _ _ _
    | with_reducible exact on_19e_keeps_props _ _
    | with_reducible exact on_1a0_keeps_props _ _ _
    | with_reducible exact on_1a2_keeps_props _ _ _
    | with_reducible exact on_1aa_keeps_props _ _ _
    | with_reducible exact on_1b5_keeps_props _ _
    | with_reducible exact on_196_keeps_props _ _
    | with_reducible exact on_1a8_keeps_props _ _
    | with_reducible exact on_19a_keeps_props _ _ _
    | with_reducible exact done_keeps_props _ _
    | exact absurd (by assumption) hc

end Lobby

/-! ## The login response: the claims -/

theorem keys_descending (rooms : IdMap Room) (h : rooms.keys.Pairwise (fun a b => a < b)) :
    ((rooms.reverse.filter (fun e => !e.2.m_hidden)).map (fun e => e.1)).Pairwise
      (fun a b => a > b) := by
  have h1 : (rooms.reverse.map (fun e => e.1)).Pairwise (fun a b => a > b) := by
    rw [List.map_reverse, List.pairwise_reverse]
    exact h
  exact h1.sublist ((List.filter_sublist _).map _)

/-- C25: the room section of the `0x19b` response to a login lists exactly
the rooms whose hidden flag is false, in descending order of the room key,
and writes for each of them the key, u32 8, description, info, six zero
bytes, the member count and the member ids in reverse member order; a hidden
room contributes no bytes. -/
theorem C25_login_room_section (L : Lobby) (c size id1 id2 : Nat)
    (ver1 ver2 email password game_key : Str) (rest : Buffer) (q0 : List Buffer)
    (h1 : ver1.length < 256) (h2 : ver2.length < 256) (h3 : email.length < 256)
    (h4 : password.length < 256) (h5 : game_key.length < 256)
    (hq : L.m_clients.find c = some q0)
    (hsorted : L.m_rooms.keys.Pairwise (fun a b => a < b))
    (hfit : 14 + (payload_19b (Lobby.normalise_name game_key)
        (L.m_players.emplaced c (Player.ctor c (Lobby.normalise_name game_key) ver1 ver2)).m_props
        (L.m_players.emplace c (Player.ctor c (Lobby.normalise_name game_key) ver1 ver2))
        L.m_rooms).length
      ≤ (login_packet size id1 id2 ver1 ver2 email password game_key rest).length)
    (h32 : (login_packet size id1 id2 ver1 ver2 email password game_key rest).length < 2 ^ 32) :
    (L.process_buf c
        (login_packet size id1 id2 ver1 ver2 email password game_key rest)).lobby.m_clients.find c
      = some (q0 ++
          [packetBytes 0x19b c c
            (login_head (Lobby.normalise_name game_key)
                (L.m_players.emplaced c
                  (Player.ctor c (Lobby.normalise_name game_key) ver1 ver2)).m_props
                (L.m_players.emplace c (Player.ctor c (Lobby.normalise_name game_key) ver1 ver2))
              ++ (L.m_rooms.reverse.filter (fun e => !e.2.m_hidden)).flatMap
                  (fun e => le32 e.1 ++ le32 8 ++ encString .Byte e.2.m_description
                    ++ encString .Byte e.2.m_info ++ List.replicate 6 0
                    ++ le32 e.2.m_players.length ++ e.2.m_players.reverse.flatMap le32)
              ++ le32 0),
           packetBytes 0x1a6 c 0 (payload_1a6 (L.m_players.emplaced c
              (Player.ctor c (Lobby.normalise_name game_key) ver1 ver2)))]) ∧
    ((L.m_rooms.reverse.filter (fun e => !e.2.m_hidden)).map (fun e => e.1)).Pairwise
      (fun a b => a > b) ∧
    (∀ e, e ∈ L.m_rooms.reverse.filter (fun e => !e.2.m_hidden)
      ↔ e ∈ L.m_rooms ∧ e.2.m_hidden = false) := by
  refine ⟨?_, keys_descending _ hsorted, fun e => ?_⟩
  · rw [Lobby.login_packet_queues L c size id1 id2 ver1 ver2 email password game_key rest
      h1 h2 h3 h4 h5 hfit h32 c, if_pos rfl, hq, payload_19b_split]
    rfl
  · rw [List.mem_filter, List.mem_reverse]
    simp

set_option maxRecDepth 1000000 in
theorem C25_login_room_section_witness :
    (((lobby_two_rooms.process_buf 1 (bare_packet 0x1a2 1 0)).lobby.connect.1.m_rooms.reverse.filter
        (fun e => !e.2.m_hidden)).map (fun e => e.1)).Pairwise (fun a b => a > b) :=
  (C25_login_room_section (lobby_two_rooms.process_buf 1 (bare_packet 0x1a2 1 0)).lobby.connect.1
    4 21 0 0 (lit "1.0.0.7") (lit "2.0.7") (lit "a") (lit "b") (lit "dave")
    (List.replicate 300 0) [] (by decide) (by decide) (by decide) (by decide) (by decide)
    (by decide) (by decide) (by decide) (by decide)).2.1

/-- C26: a login that creates the Player of client `c` stores it with the
properties string `"pur|0|dlc|0|ram|4"`; the `0x19b` response and the `0x1a6`
notification of that login carry this string as the player's props; and no
packet other than `0x1b3` changes the properties string of any Player. -/
theorem C26_default_props (L : Lobby) (c size id1 id2 : Nat)
    (ver1 ver2 email password game_key : Str) (rest : Buffer) (q0 : List Buffer)
    (h1 : ver1.length < 256) (h2 : ver2.length < 256) (h3 : email.length < 256)
    (h4 : password.length < 256) (h5 : game_key.length < 256)
    (hnew : L.m_players.find c = none) (hq : L.m_clients.find c = some q0)
    (hfit : 14 + (payload_19b (Lobby.normalise_name game_key) (lit "pur|0|dlc|0|ram|4")
        (L.m_players.emplace c (Player.ctor c (Lobby.normalise_name game_key) ver1 ver2))
        L.m_rooms).length
      ≤ (login_packet size id1 id2 ver1 ver2 email password game_key rest).length)
    (h32 : (login_packet size id1 id2 ver1 ver2 email password game_key rest).length < 2 ^ 32) :
    (∃ pl, (L.process_buf c (login_packet size id1 id2 ver1 ver2 email password game_key
        rest)).lobby.m_players.find c = some pl ∧ pl.m_props = lit "pur|0|dlc|0|ram|4") ∧
    (L.process_buf c
        (login_packet size id1 id2 ver1 ver2 email password game_key rest)).lobby.m_clients.find c
      = some (q0 ++
          [packetBytes 0x19b c c
            (payload_19b (Lobby.normalise_name game_key) (lit "pur|0|dlc|0|ram|4")
              (L.m_players.emplace c (Player.ctor c (Lobby.normalise_name game_key) ver1 ver2))
              L.m_rooms),
           packetBytes 0x1a6 c 0
            (encString .Byte (Lobby.normalise_name game_key) ++ [toByte 0]
              ++ encString .Byte (lit "pur|0|dlc|0|ram|4") ++ [toByte 0x01])]) ∧
    (L.m_players.emplace c (Player.ctor c (Lobby.normalise_name game_key) ver1 ver2)).find c
      = some (Player.ctor c (Lobby.normalise_name game_key) ver1 ver2) ∧
    encPlayerEntry (c, Player.ctor c (Lobby.normalise_name game_key) ver1 ver2)
      = le32 c ++ [toByte 0x01] ++ encString .Byte (Lobby.normalise_name game_key) ++ [toByte 0]
          ++ encString .Byte (lit "pur|0|dlc|0|ram|4") ∧
    (∀ (L0 : Lobby) (c0 : Nat) (buf : Buffer), (Packet.ctor buf c0).m_cmd ≠ 0x1b3 →
      L0.KeepsProps (L0.process_buf c0 buf).lobby) := by
  have hpl : L.m_players.emplaced c (Player.ctor c (Lobby.normalise_name game_key) ver1 ver2)
      = Player.ctor c (Lobby.normalise_name game_key) ver1 ver2 :=
    IdMap.emplaced_of_none _ _ _ hnew
  have hprops : (Player.ctor c (Lobby.normalise_name game_key) ver1 ver2).m_props
      = lit "pur|0|dlc|0|ram|4" := rfl
  have hcmd : (Packet.ctor (login_packet size id1 id2 ver1 ver2 email password game_key rest)
      c).m_cmd = 0x19a := by
    rw [login_packet, Packet.ctor_encHeader]
    show 0x19a % 2 ^ 16 = 0x19a
    decide
  have hr := Lobby.read_login_at
    (Packet.ctor (login_packet size id1 id2 ver1 ver2 email password game_key rest) c)
    (encHeader size 0x19a id1 id2) ver1 ver2 email password game_key rest
    (by rw [login_packet, Packet.ctor_encHeader]) (by rw [login_packet, Packet.ctor_encHeader]; rfl)
    h1 h2 h3 h4 h5 (by rw [encHeader_length]; decide)
  refine ⟨?_, ?_, IdMap.find_emplace_self _ _ _ hnew, rfl,
    fun L0 c0 buf h => Lobby.process_buf_keeps_props L0 c0 buf h⟩
  · rw [Lobby.process_buf_19a L c _ hcmd, Lobby.on_19a_m_players,
      IdMap.find_emplace_self _ _ _ hnew]
    exact ⟨_, rfl, rfl⟩
  · rw [Lobby.login_packet_queues L c size id1 id2 ver1 ver2 email password game_key rest
      h1 h2 h3 h4 h5 (by rw [hpl, hprops]; exact hfit) h32 c, if_pos rfl, hq, hpl, hprops]
    rfl

set_option maxRecDepth 1000000 in
theorem C26_default_props_witness :
    ∃ pl, (Lobby.ctor.connect.1.process_buf 1 (login_packet 21 0 0 (lit "1.0.0.7") (lit "2.0.7")
        (lit "a") (lit "b") (lit "alice") (List.replicate 200 0))).lobby.m_players.find 1
          = some pl ∧ pl.m_props = lit "pur|0|dlc|0|ram|4" :=
  (C26_default_props Lobby.ctor.connect.1 1 21 0 0 (lit "1.0.0.7") (lit "2.0.7") (lit "a")
    (lit "b") (lit "alice") (List.replicate 200 0) [] (by decide) (by decide) (by decide)
    (by decide) (by decide) (by decide) (by decide) (by decide) (by decide)).1

/-! ## Disconnect -/

namespace Packet

theorem store_length (p : Packet) (i : Nat) (b : Byte) :
    (p.store i b).m_buf.length = p.m_buf.length := by
  unfold store
  split
  · exact List.length_set _ _ _
  · rfl

theorem write_byte_length (p : Packet) (b : Nat) :
    (p.write_byte b).m_buf.length = p.m_buf.length :=
  store_length p _ _

theorem write_short_length (p : Packet) (s : Nat) :
    (p.write_short s).m_buf.length = p.m_buf.length := by
  rw [write_short, write_byte_length, write_byte_length]

theorem write_int_length (p : Packet) (i : Nat) :
    (p.write_int i).m_buf.length = p.m_buf.length := by
  rw [write_int, write_byte_length, write_byte_length, write_byte_length, write_byte_length]

theorem memcpy_length (s : Str) : ∀ (p : Packet) (i : Nat),
    (p.memcpy i s).m_buf.length = p.m_buf.length := by
  induction s with
  | nil => intro p i; rfl
  | cons b bs ih =>
    intro p i
    rw [memcpy, ih, store_length]

theorem write_string_length (p : Packet) (s : Str) (lt : LengthType) :
    (p.write_string s lt).m_buf.length = p.m_buf.length := by
  cases lt
  · show ((p.write_byte s.length).memcpy _ s).m_buf.length = _
    rw [memcpy_length, write_byte_length]
  · show ((p.write_short s.length).memcpy _ s).m_buf.length = _
    rw [memcpy_length, write_short_length]
  · show ((p.write_int s.length).memcpy _ s).m_buf.length = _
    rw [memcpy_length, write_int_length]

theorem write_header_length (p : Packet) (cmd id1 id2 : Nat) :
    (p.write_header cmd id1 id2).m_buf.length = p.m_buf.length := by
  unfold write_header
  lift_lets
  intro p1 p2 p3 p4 p5 p6
  rw [write_int_length, write_int_length, write_short_length, write_int_length]

theorem seek_to_start_length (p : Packet) :
    p.seek_to_start.m_buf.length = p.m_buf.length := rfl

end Packet

namespace Lobby

theorem leave_all_length (ids : List Nat) : ∀ (L : Lobby) (p : Packet),
    (leave_all L p ids).p.m_buf.length = p.m_buf.length := by
  induction ids with
  | nil => intro L p; rfl
  | cons id ids ih =>
    intro L p
    cases h : L.m_players.find id with
    | none =>
      unfold leave_all
      simp only [h, raise]
    | some pl =>
      rw [leave_all_cons L p id ids pl h, ih, Packet.write_byte_length, Packet.write_int_length]

theorem write_clientslist_length (ids : List Nat) : ∀ (p : Packet),
    (write_clientslist p ids).m_buf.length = p.m_buf.length := by
  induction ids with
  | nil => intro p; rfl
  | cons id ids ih =>
    intro p
    show (write_clientslist _ ids).m_buf.length = _
    rw [ih, Packet.write_string_length, Packet.write_string_length]

theorem compose_1bd_length (p : Packet) (d i : Str) (M : List Nat) (n : Nat) :
    (compose_1bd p d i M n).m_buf.length = p.m_buf.length := by
  unfold compose_1bd
  simp only [Packet.write_int_length, Packet.write_header_length, write_clientslist_length,
    Packet.write_string_length, Packet.write_byte_length]
  rfl

theorem send_1be_length (n : Nat) (ids : List Nat) : ∀ (L : Lobby) (p : Packet),
    (send_1be L p n ids).2.m_buf.length = p.m_buf.length := by
  induction ids with
  | nil => intro L p; rfl
  | cons id ids ih =>
    intro L p
    unfold send_1be
    split
    · exact ih L p
    · rw [ih, Packet.write_header_length]

theorem on_1a0_length (L : Lobby) (p : Packet) (c : Nat) :
    p.m_buf.length ≤ (on_1a0 L p c).p.m_buf.length := by
  cases hS : L.m_players.find c with
  | none => simp only [on_1a0, hS, raise]; exact le_rfl
  | some S =>
    cases hr : S.m_room with
    | none => simp only [on_1a0, hS, hr, done]; exact le_rfl
    | some r =>
      cases hR : L.m_rooms.find r with
      | none => simp only [on_1a0, hS, hr, hR, done]; exact le_rfl
      | some R =>
        cases hn : R.m_players.getLast? with
        | none => simp only [on_1a0, hS, hr, hR, hn, raise]; exact le_rfl
        | some n =>
          by_cases hb : (decide (S.m_status = 5) || decide (S.m_status = 15)) = true
          · have l1 := leave_all_length R.m_players L
              ((p.write_byte 1).write_int R.m_players.length)
            rw [Packet.write_int_length, Packet.write_byte_length] at l1
            simp only [on_1a0, hS, hr, hR, hn, hb, if_true]
            generalize leave_all L ((p.write_byte 1).write_int R.m_players.length) R.m_players
              = res at l1 ⊢
            cases ht : res.thrown
            · simp only [Bool.false_eq_true, if_false, done]
              by_cases hd : (decide (S.m_status = 15) && decide (1 < R.m_players.length)) = true
              · simp only [hd, if_true]
                rw [send_1be_length, Packet.seek_to_start_length, compose_1bd_length,
                  Packet.write_header_length]
                exact l1.ge
              · simp only [hd, Bool.false_eq_true, if_false]
                rw [Packet.write_header_length]
                exact l1.ge
            · simp only [if_true]
              exact l1.ge
          · simp only [on_1a0, hS, hr, hR, hn, hb, Bool.false_eq_true, if_false, done]
            by_cases hd : (decide (S.m_status = 15) && decide (1 < R.m_players.length)) = true
            · simp only [hd, if_true]
              rw [send_1be_length, Packet.seek_to_start_length, compose_1bd_length,
                Packet.write_header_length, Packet.write_byte_length,
                Packet.write_int_length, Packet.write_int_length, Packet.write_byte_length]
            · simp only [hd, Bool.false_eq_true, if_false]
              rw [Packet.write_header_length, Packet.write_byte_length,
                Packet.write_int_length, Packet.write_int_length, Packet.write_byte_length]

end Lobby

namespace Packet

theorem ctor_m_buf (buf : Buffer) (src : Nat) : (ctor buf src).m_buf = buf := rfl

theorem ctor_m_seek_pos (buf : Buffer) (src : Nat) : (ctor buf src).m_seek_pos = 14 := rfl

/-- The header written by `Lobby::disconnect` to simulate a `0x1a0` packet. -/
theorem leave_header (buf : Buffer) (c : Nat) (h : 14 ≤ buf.length) :
    (ctor ((ctor buf c).write_header 0x1a0 c 0).m_buf c).m_cmd = 0x1a0 ∧
    (ctor ((ctor buf c).write_header 0x1a0 c 0).m_buf c).m_buf.length = buf.length := by
  rw [write_header_of_le _ _ _ _ (by rw [ctor_m_buf]; exact h)]
  simp only [ctor_m_buf]
  obtain ⟨h1, -, -, -, h5, -⟩ := ctor_facts
    (((ctor buf c).m_seek_pos % 2 ^ 32 + 2 ^ 32 - packet_header_size) % 2 ^ 32)
    (0x1a0 % 2 ^ 16) (c % 2 ^ 32) (0 % 2 ^ 32) c (buf.drop 14)
  refine ⟨h1.trans (by norm_num), h5.trans ?_⟩
  rw [List.length_drop]
  omega

end Packet

namespace Lobby

end Lobby

namespace Lobby

end Lobby

/-! ## Disconnect: the claim -/

set_option maxRecDepth 1000000 in
/-- C31 fails on the code: clients 2 and 3 are members of the room of host 1
and member 2 sends the start-game packet `0x1a2`. Afterwards player 2 is
linked to room 1, whose host id is 1, and has status `0x0f`, while the host 1
is linked to its own room and has status `0x0b`. -/
theorem C31_member_start_marks_member_as_host :
    (lobby_r123.m_rooms.find 1).map (fun R => (R.m_host_id, R.m_players))
      = some (1, [1, 2, 3]) ∧
    (lobby_r123.process_buf 2 (bare_packet 0x1a2 2 0)).thrown = false ∧
    ((lobby_r123.process_buf 2 (bare_packet 0x1a2 2 0)).lobby.m_rooms.find 1).map
      (fun R => R.m_host_id) = some 1 ∧
    ((lobby_r123.process_buf 2 (bare_packet 0x1a2 2 0)).lobby.m_players.find 2).map
      (fun pl => (pl.m_id, pl.m_status, pl.m_room)) = some (2, 0x0f, some 1) ∧
    ((lobby_r123.process_buf 2 (bare_packet 0x1a2 2 0)).lobby.m_players.find 1).map
      (fun pl => (pl.m_id, pl.m_status, pl.m_room)) = some (1, 0x0b, some 1) := by
  decide

set_option maxRecDepth 1000000 in
/-- C34 fails on the code: member 2 of the room of host 1 starts the game
(host 1 gets status `0x0b`) and joins the room once more (member list
`[1, 2, 2]`, status `0x03`). Client 1 leaves with `0x1a0` (member branch,
list `[2, 2]`), then client 2 leaves with `0x1a0`: the member branch removes
its id, the member list of room 1 is empty, and room 1 is still in `rooms`. -/
theorem C34_empty_room_stays :
    ((((lobby_member_start.process_buf 2 (join_of 2 1)).lobby.process_buf 1
      (bare_packet 0x1a0 1 0)).lobby.m_rooms.find 1).map (fun R => R.m_players))
        = some [2, 2] ∧
    ((((lobby_member_start.process_buf 2 (join_of 2 1)).lobby.process_buf 1
      (bare_packet 0x1a0 1 0)).lobby.m_players.find 2).map
        (fun pl => (pl.m_status, pl.m_room))) = some (0x03, some 1) ∧
    (((lobby_member_start.process_buf 2 (join_of 2 1)).lobby.process_buf 1
      (bare_packet 0x1a0 1 0)).lobby.process_buf 2 (bare_packet 0x1a0 2 0)).thrown = false ∧
    (((((lobby_member_start.process_buf 2 (join_of 2 1)).lobby.process_buf 1
      (bare_packet 0x1a0 1 0)).lobby.process_buf 2 (bare_packet 0x1a0 2 0)).lobby.m_rooms.find
        1).map (fun R => R.m_players)) = some [] := by
  decide

/-! ## The assertion of `Player::leave_room` -/

set_option maxRecDepth 1000000 in
/-- C37 fails on the code: client 2 joins the room of host 1 twice, so the
member list is `[1, 2, 2]`. Host 1 (status `0x05`, linked to room 1) sends
`0x1a0`: the host branch calls `leave_room` for the ids 1, 2 and 2 in turn,
and in the third call the room link of player 2 is null, the second call
having cleared it. -/
theorem C37_leave_room_called_without_link :
    (lobby_joined_twice.m_players.find 1).map (fun pl => (pl.m_status, pl.m_room))
      = some (0x05, some 1) ∧
    (lobby_joined_twice.m_rooms.find 1).map (fun R => R.m_players) = some [1, 2, 2] ∧
    lobby_joined_twice.leave_links [1, 2, 2] = [some 1, some 1, none] ∧
    (lobby_joined_twice.process_buf 1 (bare_packet 0x1a0 1 0)).thrown = false ∧
    (lobby_joined_twice.process_buf 1 (bare_packet 0x1a0 1 0)).lobby.m_rooms = [] := by
  decide

/-! ## Bytes behind the announced size -/

set_option maxRecDepth 1000000 in
/-- C39 fails on the code: two buffers hold the same header, which announces
size 0 and the command `0x19a`, and differ behind it. They agree on the first
`14 + 0` bytes, yet `process_buf` reads the login form from the bytes behind
the header: the one buffer logs the client in as `alice`, the other as
`bobby`, and the queued responses differ. -/
theorem C39_dispatch_reads_behind_announced_size :
    (login_packet 0 0 0 (lit "1.0.0.7") (lit "2.0.7") (lit "a") (lit "b") (lit "alice")
        (List.replicate 200 0)).take 14
      = (login_packet 0 0 0 (lit "1.0.0.7") (lit "2.0.7") (lit "a") (lit "b") (lit "bobby")
        (List.replicate 200 0)).take 14 ∧
    (Packet.ctor (login_packet 0 0 0 (lit "1.0.0.7") (lit "2.0.7") (lit "a") (lit "b")
        (lit "alice") (List.replicate 200 0)) 1).m_size = 0 ∧
    ((Lobby.ctor.connect.1.process_buf 1 (login_packet 0 0 0 (lit "1.0.0.7") (lit "2.0.7")
        (lit "a") (lit "b") (lit "alice") (List.replicate 200 0))).lobby.m_players.find 1).map
      (fun pl => pl.m_name) = some (lit "alice") ∧
    ((Lobby.ctor.connect.1.process_buf 1 (login_packet 0 0 0 (lit "1.0.0.7") (lit "2.0.7")
        (lit "a") (lit "b") (lit "bobby") (List.replicate 200 0))).lobby.m_players.find 1).map
      (fun pl => pl.m_name) = some (lit "bobby") ∧
    (Lobby.ctor.connect.1.process_buf 1 (login_packet 0 0 0 (lit "1.0.0.7") (lit "2.0.7")
        (lit "a") (lit "b") (lit "alice") (List.replicate 200 0))).lobby.m_clients
      ≠ (Lobby.ctor.connect.1.process_buf 1 (login_packet 0 0 0 (lit "1.0.0.7") (lit "2.0.7")
        (lit "a") (lit "b") (lit "bobby") (List.replicate 200 0))).lobby.m_clients := by
  decide

/-! ## The length field of the `0x1bd` packet -/

theorem packetBytes_frame (cmd id1 id2 : Nat) (e : List Byte) :
    (packetBytes cmd id1 id2 e).length = 14 + e.length ∧
    (packetBytes cmd id1 id2 e).take 4 = le32 e.length ∧
    (packetBytes cmd id1 id2 e).drop 14 = e := by
  refine ⟨?_, ?_, ?_⟩
  · simp only [packetBytes, List.length_append, encHeader_length]
  · simp only [packetBytes, encHeader, List.append_assoc]
    exact List.take_left' (le32_length _)
  · simp only [packetBytes]
    exact List.drop_left' (encHeader_length _ _ _ _)

/-- C35: the `0x1bd` packet composed for the new host `n` of a room with
description `desc`, info `info` and non-empty member list `M`, when it fits
the buffer, is the header followed by a payload whose first u32 is the number
of payload bytes behind it: the size field of the header minus 4, and the
length of the packet minus 18. -/
theorem C35_backpatched_length (p : Packet) (desc info : Str) (M : List Nat) (n : Nat)
    (hM : M ≠ [])
    (hfit : 18 + (dict_1bd desc info n (M.drop 1)).length ≤ p.m_buf.length)
    (h32 : 18 + (dict_1bd desc info n (M.drop 1)).length < 2 ^ 32) :
    (Lobby.compose_1bd p desc info M n).m_buf.take (Lobby.compose_1bd p desc info M n).m_send_size
      = encHeader (4 + (dict_1bd desc info n (M.drop 1)).length) 0x1bd n n
          ++ (le32 (dict_1bd desc info n (M.drop 1)).length
            ++ dict_1bd desc info n (M.drop 1)) ∧
    ((Lobby.compose_1bd p desc info M n).m_buf.take
        (Lobby.compose_1bd p desc info M n).m_send_size).length
      = 18 + (dict_1bd desc info n (M.drop 1)).length ∧
    (((Lobby.compose_1bd p desc info M n).m_buf.take
        (Lobby.compose_1bd p desc info M n).m_send_size).drop 14).take 4
      = le32 (((Lobby.compose_1bd p desc info M n).m_buf.take
          (Lobby.compose_1bd p desc info M n).m_send_size).length - 18) ∧
    ((Lobby.compose_1bd p desc info M n).m_buf.take
        (Lobby.compose_1bd p desc info M n).m_send_size).take 4
      = le32 (((Lobby.compose_1bd p desc info M n).m_buf.take
          (Lobby.compose_1bd p desc info M n).m_send_size).length - 14) := by
  obtain ⟨h1, h2, -, -⟩ := Lobby.compose_1bd_spec p desc info M n hM hfit h32
  rw [h1, h2]
  obtain ⟨f1, f2, f3⟩ := packetBytes_frame 0x1bd n n (payload_1bd desc info n (M.drop 1))
  have hp : (payload_1bd desc info n (M.drop 1)).length
      = 4 + (dict_1bd desc info n (M.drop 1)).length := by
    simp only [payload_1bd, List.length_append, le32_length]
  have g3 : ((packetBytes 0x1bd n n (payload_1bd desc info n (M.drop 1))).drop 14).take 4
      = le32 (dict_1bd desc info n (M.drop 1)).length := by
    rw [f3, payload_1bd, List.take_left' (le32_length _)]
  rw [hp] at f1 f2
  rw [g3, f2, f1]
  have g1 : packetBytes 0x1bd n n (payload_1bd desc info n (M.drop 1))
      = encHeader (4 + (dict_1bd desc info n (M.drop 1)).length) 0x1bd n n
          ++ (le32 (dict_1bd desc info n (M.drop 1)).length
            ++ dict_1bd desc info n (M.drop 1)) := by
    rw [packetBytes, hp, payload_1bd]
  generalize (dict_1bd desc info n (M.drop 1)).length = d at g1 ⊢
  refine ⟨g1, ?_, ?_, ?_⟩
  · omega
  · exact congrArg le32 (by omega)
  · exact congrArg le32 (by omega)

set_option maxRecDepth 1000000 in
theorem C35_backpatched_length_witness :
    ((Lobby.compose_1bd (Packet.ctor (bare_packet 0x1a0 1 0) 1) (lit "r1") (lit "0") [1, 2, 3]
        3).m_buf.take (Lobby.compose_1bd (Packet.ctor (bare_packet 0x1a0 1 0) 1) (lit "r1")
          (lit "0") [1, 2, 3] 3).m_send_size).length
      = 18 + (dict_1bd (lit "r1") (lit "0") 3 ([1, 2, 3].drop 1)).length :=
  (C35_backpatched_length (Packet.ctor (bare_packet 0x1a0 1 0) 1) (lit "r1") (lit "0") [1, 2, 3]
    3 (by decide) (by decide) (by decide)).2.1

/-! ## What every call keeps -/

namespace Lobby

theorem Inv.of_maps {L L1 : Lobby} (h : Inv L) (hc : L1.m_clients = L.m_clients)
    (hp : L1.m_players = L.m_players) (hr : L1.m_rooms = L.m_rooms) : Inv L1 := by
  unfold Inv at h ⊢
  rw [hc, hp, hr]
  exact h

theorem KeepsRooms.same_rooms (L : Lobby) : KeepsRooms L L := fun _ R h => ⟨R, h, rfl⟩

theorem KeepsRooms.chain_rooms {L1 L2 L3 : Lobby} (h1 : KeepsRooms L1 L2) (h2 : KeepsRooms L2 L3) :
    KeepsRooms L1 L3 := by
  intro k R3 h3
  obtain ⟨R2, f2, e2⟩ := h2 k R3 h3
  obtain ⟨R1, f1, e1⟩ := h1 k R2 f2
  exact ⟨R1, f1, e2.trans e1⟩

theorem KeepsRooms.of_rooms {L L1 L2 : Lobby} (h : KeepsRooms L L1)
    (hr : L2.m_rooms = L1.m_rooms) : KeepsRooms L L2 := by
  unfold KeepsRooms at h ⊢
  rw [hr]
  exact h

/-- A step that changes neither the players nor the rooms and keeps the set
of registered clients. -/
theorem step_same {L L1 L2 : Lobby} (h : Step L L1)
    (hc : ∀ k, (L2.m_clients.find k).isSome = (L1.m_clients.find k).isSome)
    (hp : L2.m_players = L1.m_players) (hr : L2.m_rooms = L1.m_rooms) :
    Step L L2 := by
  refine ⟨fun hi => ?_, h.2.of_rooms hr⟩
  obtain ⟨a, b, c, d⟩ := h.1 hi
  unfold Inv
  rw [hp, hr]
  exact ⟨fun k hk => a k (by rw [← hc k]; exact hk), b, c, d⟩

theorem step_refl (L : Lobby) : Step L L := ⟨id, KeepsRooms.same_rooms L⟩

theorem step_send {L L1 : Lobby} (h : Step L L1) (p : Packet)
    (t : SendTo) : Step L (L1.send p t) :=
  step_same h (fun k => send_clients_isSome L1 p t k) rfl rfl

/-- A Player is replaced by one with the same id and the same room link. -/
theorem step_set_player {L L1 L2 : Lobby} (h : Step L L1)
    (k : Nat) (P Q : Player) (hf : L1.m_players.find k = some P) (hid : Q.m_id = P.m_id)
    (hroom : Q.m_room = P.m_room) (hc : L2.m_clients = L1.m_clients)
    (hp : L2.m_players = L1.m_players.set k Q) (hr : L2.m_rooms = L1.m_rooms) :
    Step L L2 := by
  refine ⟨fun hi => ?_, h.2.of_rooms hr⟩
  obtain ⟨a, b, c, d⟩ := h.1 hi
  unfold Inv
  rw [hc, hp, hr]
  refine ⟨a, b, fun j X hj => ?_, fun j X r hj hX => ?_⟩
  · rw [IdMap.find_set_of_find _ _ _ _ _ hf] at hj
    by_cases e : j = k
    · rw [if_pos e] at hj
      cases hj
      rw [hid, e]
      exact c k P hf
    · rw [if_neg e] at hj
      exact c j X hj
  · rw [IdMap.find_set_of_find _ _ _ _ _ hf] at hj
    by_cases e : j = k
    · rw [if_pos e] at hj
      cases hj
      rw [e]
      exact d k P r hf (hroom ▸ hX)
    · rw [if_neg e] at hj
      exact d j X r hj hX

/-- A Room is replaced by one with the same host id, description and member
list. -/
theorem step_set_room {L L1 L2 : Lobby} (h : Step L L1)
    (k : Nat) (R S : Room) (hf : L1.m_rooms.find k = some R) (hh : S.m_host_id = R.m_host_id)
    (hd : S.m_description = R.m_description) (hm : S.m_players = R.m_players)
    (hc : L2.m_clients = L1.m_clients) (hp : L2.m_players = L1.m_players)
    (hr : L2.m_rooms = L1.m_rooms.set k S) : Step L L2 := by
  have hfind : ∀ j, L2.m_rooms.find j = if j = k then some S else L1.m_rooms.find j := by
    intro j
    rw [hr, IdMap.find_set_of_find _ _ _ _ _ hf]
  refine ⟨fun hi => ?_, ?_⟩
  · obtain ⟨a, b, c, d⟩ := h.1 hi
    unfold Inv
    rw [hc, hp]
    refine ⟨a, fun j X hj => ?_, c, fun j X r hj hX => ?_⟩
    · rw [hfind] at hj
      by_cases e : j = k
      · rw [if_pos e] at hj
        cases hj
        rw [hh, e]
        exact b k R hf
      · rw [if_neg e] at hj
        exact b j X hj
    · obtain ⟨R0, f0, m0⟩ := d j X r hj hX
      rw [hfind]
      by_cases e : r = k
      · rw [if_pos e]
        rw [e, hf] at f0
        cases f0
        exact ⟨S, rfl, hm ▸ m0⟩
      · rw [if_neg e]
        exact ⟨R0, f0, m0⟩
  · refine KeepsRooms.chain_rooms h.2 ?_
    intro j X hj
    rw [hfind] at hj
    by_cases e : j = k
    · rw [if_pos e] at hj
      cases hj
      exact ⟨R, e ▸ hf, hd⟩
    · rw [if_neg e] at hj
      exact ⟨X, hj, rfl⟩

theorem leave_room_find (P : Player) (rooms : IdMap Room) (j : Nat) :
    (P.leave_room rooms).2.find j
      = (rooms.find j).map (fun R => if P.m_room = some j then R.remove_player P.m_id else R) := by
  unfold Player.leave_room
  cases hr : P.m_room with
  | none =>
    simp only []
    cases rooms.find j <;> simp
  | some key =>
    simp only []
    by_cases e : j = key
    · rw [e, IdMap.find_modify_self]
      cases rooms.find key <;> simp
    · rw [IdMap.find_modify_ne _ _ _ _ e]
      have : ¬ (some key = some j) := fun h => e (Option.some.inj h).symm
      cases rooms.find j <;> simp [this]

/-- A Player leaves the Room it is linked to. -/
theorem step_leave {L L1 L2 : Lobby} (h : Step L L1)
    (k : Nat) (P : Player) (hf : L1.m_players.find k = some P)
    (hc : L2.m_clients = L1.m_clients)
    (hp : L2.m_players = L1.m_players.set k { P with m_status := 0x01, m_room := none })
    (hr : L2.m_rooms = (P.leave_room L1.m_rooms).2) :
    Step L L2 := by
  refine ⟨fun hi => ?_, ?_⟩
  · obtain ⟨a, b, c, d⟩ := h.1 hi
    unfold Inv
    rw [hc, hp, hr]
    refine ⟨a, fun j X hj => ?_, fun j X hj => ?_, fun j X r hj hX => ?_⟩
    · rw [leave_room_find] at hj
      cases hR : L1.m_rooms.find j with
      | none => rw [hR] at hj; cases hj
      | some R =>
        rw [hR] at hj
        simp only [Option.map_some', Option.some.injEq] at hj
        rw [← hj]
        have hb := b j R hR
        split
        · exact hb
        · exact hb
    · rw [IdMap.find_set_of_find _ _ _ _ _ hf] at hj
      by_cases e : j = k
      · rw [if_pos e] at hj
        cases hj
        rw [e]
        exact c k P hf
      · rw [if_neg e] at hj
        exact c j X hj
    · rw [IdMap.find_set_of_find _ _ _ _ _ hf] at hj
      by_cases e : j = k
      · rw [if_pos e] at hj
        cases hj
        cases hX
      · rw [if_neg e] at hj
        obtain ⟨R0, f0, m0⟩ := d j X r hj hX
        rw [leave_room_find, f0]
        refine ⟨_, rfl, ?_⟩
        split
        · show j ∈ R0.m_players.filter (fun x => x != P.m_id)
          rw [List.mem_filter]
          refine ⟨m0, ?_⟩
          rw [c k P hf]
          simpa using e
        · exact m0
  · refine KeepsRooms.chain_rooms h.2 ?_
    intro j X hj
    rw [hr, leave_room_find] at hj
    cases hR : L1.m_rooms.find j with
    | none => rw [hR] at hj; cases hj
    | some R =>
      rw [hR] at hj
      simp only [Option.map_some', Option.some.injEq] at hj
      refine ⟨R, rfl, ?_⟩
      rw [← hj]
      split <;> rfl

/-- A Player joins a Room. -/
theorem step_join {L L1 L2 : Lobby} (h : Step L L1)
    (k g : Nat) (P : Player) (R : Room) (hf : L1.m_players.find k = some P)
    (hR : L1.m_rooms.find g = some R) (hc : L2.m_clients = L1.m_clients)
    (hp : L2.m_players = L1.m_players.set k (P.join_room g R).1)
    (hr : L2.m_rooms = L1.m_rooms.set g (P.join_room g R).2) :
    Step L L2 := by
  have hfind : ∀ j, L2.m_rooms.find j
      = if j = g then some (P.join_room g R).2 else L1.m_rooms.find j := by
    intro j
    rw [hr, IdMap.find_set_of_find _ _ _ _ _ hR]
  have h2 : (P.join_room g R).2 = R.add_player P.m_id := by
    unfold Player.join_room
    split <;> rfl
  have h1 : (P.join_room g R).1.m_id = P.m_id ∧ (P.join_room g R).1.m_room = some g := by
    unfold Player.join_room
    split <;> exact ⟨rfl, rfl⟩
  refine ⟨fun hi => ?_, ?_⟩
  · obtain ⟨a, b, c, d⟩ := h.1 hi
    unfold Inv
    rw [hc, hp]
    refine ⟨a, fun j X hj => ?_, fun j X hj => ?_, fun j X r hj hX => ?_⟩
    · rw [hfind] at hj
      by_cases e : j = g
      · rw [if_pos e, h2] at hj
        cases hj
        rw [e]
        exact b g R hR
      · rw [if_neg e] at hj
        exact b j X hj
    · rw [IdMap.find_set_of_find _ _ _ _ _ hf] at hj
      by_cases e : j = k
      · rw [if_pos e] at hj
        cases hj
        rw [h1.1, e]
        exact c k P hf
      · rw [if_neg e] at hj
        exact c j X hj
    · rw [IdMap.find_set_of_find _ _ _ _ _ hf] at hj
      by_cases e : j = k
      · rw [if_pos e] at hj
        cases hj
        rw [h1.2] at hX
        cases hX
        rw [hfind, if_pos rfl, h2]
        refine ⟨_, rfl, ?_⟩
        show j ∈ R.m_players ++ [P.m_id]
        rw [c k P hf, e]
        simp
      · rw [if_neg e] at hj
        obtain ⟨R0, f0, m0⟩ := d j X r hj hX
        rw [hfind]
        by_cases er : r = g
        · rw [if_pos er, h2]
          rw [er, hR] at f0
          cases f0
          refine ⟨_, rfl, ?_⟩
          show j ∈ R.m_players ++ [P.m_id]
          exact List.mem_append_left _ m0
        · rw [if_neg er]
          exact ⟨R0, f0, m0⟩
  · refine KeepsRooms.chain_rooms h.2 ?_
    intro j X hj
    rw [hfind] at hj
    by_cases e : j = g
    · rw [if_pos e, h2] at hj
      cases hj
      exact ⟨R, e ▸ hR, rfl⟩
    · rw [if_neg e] at hj
      exact ⟨X, hj, rfl⟩

/-- A Room that no Player is linked to is erased. -/
theorem step_erase_room {L L1 L2 : Lobby} (h : Step L L1)
    (r : Nat)
    (hno : Inv L → Inv L1 → ∀ j X, L1.m_players.find j = some X → X.m_room ≠ some r)
    (hc : L2.m_clients = L1.m_clients) (hp : L2.m_players = L1.m_players)
    (hr : L2.m_rooms = L1.m_rooms.erase r) : Step L L2 := by
  have hfind : ∀ j X, L2.m_rooms.find j = some X → L1.m_rooms.find j = some X := by
    intro j X hj
    rw [hr] at hj
    by_cases e : j = r
    · rw [e, IdMap.find_erase_self] at hj
      cases hj
    · rw [IdMap.find_erase_ne _ _ _ e] at hj
      exact hj
  refine ⟨fun hi => ?_, ?_⟩
  · have hi1 := h.1 hi
    obtain ⟨a, b, c, d⟩ := hi1
    unfold Inv
    rw [hc, hp]
    refine ⟨a, fun j X hj => b j X (hfind j X hj), c, fun j X g hj hX => ?_⟩
    obtain ⟨R0, f0, m0⟩ := d j X g hj hX
    have e : g ≠ r := fun e => hno hi (h.1 hi) j X hj (e ▸ hX)
    rw [hr, IdMap.find_erase_ne _ _ _ e]
    exact ⟨R0, f0, m0⟩
  · refine KeepsRooms.chain_rooms h.2 ?_
    intro j X hj
    exact ⟨X, hfind j X hj, rfl⟩

/-- A Player is erased. -/
theorem step_erase_player {L L1 L2 : Lobby} (h : Step L L1)
    (c : Nat) (hc : ∀ k, (L2.m_clients.find k).isSome → (L1.m_clients.find k).isSome)
    (hp : L2.m_players = L1.m_players.erase c) (hr : L2.m_rooms = L1.m_rooms) :
    Step L L2 := by
  have hfind : ∀ j X, L2.m_players.find j = some X → L1.m_players.find j = some X := by
    intro j X hj
    rw [hp] at hj
    by_cases e : j = c
    · rw [e, IdMap.find_erase_self] at hj
      cases hj
    · rw [IdMap.find_erase_ne _ _ _ e] at hj
      exact hj
  refine ⟨fun hi => ?_, h.2.of_rooms hr⟩
  obtain ⟨a, b, c0, d⟩ := h.1 hi
  unfold Inv
  rw [hr]
  exact ⟨fun k hk => a k (hc k hk), b, fun j X hj => c0 j X (hfind j X hj),
    fun j X g hj hX => d j X g (hfind j X hj) hX⟩

/-- A Player is emplaced under a 32-bit id. -/
theorem step_emplace_player {L L1 L2 : Lobby} (h : Step L L1)
    (c : Nat) (name v1 v2 : Str) (hlt : c < 2 ^ 32) (hc : L2.m_clients = L1.m_clients)
    (hp : L2.m_players = L1.m_players.emplace c (Player.ctor c name v1 v2))
    (hr : L2.m_rooms = L1.m_rooms) : Step L L2 := by
  have hfind : ∀ j X, L2.m_players.find j = some X →
      L1.m_players.find j = some X ∨ (j = c ∧ X = Player.ctor c name v1 v2) := by
    intro j X hj
    rw [hp] at hj
    by_cases e : j = c
    · rw [e, IdMap.find_emplace] at hj
      cases hf : L1.m_players.find c with
      | none =>
        rw [IdMap.emplaced_of_none _ _ _ hf] at hj
        exact Or.inr ⟨e, (Option.some.inj hj).symm⟩
      | some Y =>
        left
        rw [e, hf]
        simp only [IdMap.emplaced, hf, Option.getD_some] at hj
        exact hj
    · rw [IdMap.find_emplace_ne _ _ _ _ e] at hj
      exact Or.inl hj
  refine ⟨fun hi => ?_, h.2.of_rooms hr⟩
  obtain ⟨a, b, c0, d⟩ := h.1 hi
  unfold Inv
  rw [hc, hr]
  refine ⟨a, b, fun j X hj => ?_, fun j X g hj hX => ?_⟩
  · rcases hfind j X hj with h1 | ⟨e, rfl⟩
    · exact c0 j X h1
    · rw [e]
      exact Nat.mod_eq_of_lt hlt
  · rcases hfind j X hj with h1 | ⟨e, rfl⟩
    · exact d j X g h1 hX
    · cases hX

/-- A Room is emplaced under a 32-bit id. -/
theorem inv_emplace_room {L1 L2 : Lobby} (hi : Inv L1) (c : Nat) (desc : Str)
    (hlt : c < 2 ^ 32) (hc : L2.m_clients = L1.m_clients) (hp : L2.m_players = L1.m_players)
    (hr : L2.m_rooms = L1.m_rooms.emplace c (Room.ctor c desc)) : Inv L2 := by
  obtain ⟨a, b, c0, d⟩ := hi
  unfold Inv
  rw [hc, hp, hr]
  refine ⟨a, fun j X hj => ?_, c0, fun j X g hj hX => ?_⟩
  · by_cases e : j = c
    · rw [e, IdMap.find_emplace] at hj
      cases hf : L1.m_rooms.find c with
      | none =>
        rw [IdMap.emplaced_of_none _ _ _ hf] at hj
        rw [← Option.some.inj hj, e]
        exact Nat.mod_eq_of_lt hlt
      | some Y =>
        simp only [IdMap.emplaced, hf, Option.getD_some] at hj
        rw [e]
        exact b c X (hf.trans hj)
    · rw [IdMap.find_emplace_ne _ _ _ _ e] at hj
      exact b j X hj
  · obtain ⟨R0, f0, m0⟩ := d j X g hj hX
    refine ⟨R0, ?_, m0⟩
    by_cases e : g = c
    · rw [e, IdMap.find_emplace]
      rw [e] at f0
      simp only [IdMap.emplaced, f0, Option.getD_some]
    · rw [IdMap.find_emplace_ne _ _ _ _ e]
      exact f0

/-- A Player leaves the Room it is linked to (the Player as returned by
`leave_room`). -/
theorem step_leave_fst {L L1 L2 : Lobby} (h : Step L L1)
    (k : Nat) (P : Player) (hf : L1.m_players.find k = some P)
    (hc : L2.m_clients = L1.m_clients)
    (hp : L2.m_players = L1.m_players.set k (P.leave_room L1.m_rooms).1)
    (hr : L2.m_rooms = (P.leave_room L1.m_rooms).2) :
    Step L L2 := by
  rw [Player.leave_room_fst] at hp
  exact step_leave h k P hf hc hp hr

theorem leave_all_step (ids : List Nat) : ∀ (L0 L : Lobby) (p : Packet),
    Step L0 L →
    Step L0 (leave_all L p ids).lobby := by
  induction ids with
  | nil => intro L0 L p h; exact h
  | cons id ids ih =>
    intro L0 L p h
    cases hf : L.m_players.find id with
    | none =>
      simp only [leave_all, hf, raise]
      exact h
    | some pl =>
      rw [leave_all_cons L p id ids pl hf]
      refine ih L0 _ _ ?_
      exact step_leave h id pl hf rfl rfl rfl

/-- A Player without room link has none after the loop of branch `0x1a0`. -/
theorem leave_all_link_none (ids : List Nat) : ∀ (L : Lobby) (p : Packet) (m : Nat),
    (∀ Y, L.m_players.find m = some Y → Y.m_room = none) →
    ∀ Y, (leave_all L p ids).lobby.m_players.find m = some Y → Y.m_room = none := by
  induction ids with
  | nil => intro L p m h; exact h
  | cons id ids ih =>
    intro L p m h
    cases hf : L.m_players.find id with
    | none =>
      simp only [leave_all, hf, raise]
      exact h
    | some pl =>
      rw [leave_all_cons L p id ids pl hf]
      refine ih _ _ m ?_
      intro Y hY
      have hY2 : (L.m_players.set id { pl with m_status := 0x01, m_room := none }).find m
          = some Y := hY
      rw [IdMap.find_set_of_find _ _ _ _ _ hf] at hY2
      by_cases e : m = id
      · rw [if_pos e] at hY2
        cases hY2
        rfl
      · rw [if_neg e] at hY2
        exact h Y hY2

/-- After a loop of branch `0x1a0` that ran to its end, no listed Player has
a room link. -/
theorem leave_all_links_cleared (ids : List Nat) : ∀ (L : Lobby) (p : Packet),
    (leave_all L p ids).thrown = false →
    ∀ m ∈ ids, ∀ Y, (leave_all L p ids).lobby.m_players.find m = some Y → Y.m_room = none := by
  induction ids with
  | nil => intro L p _ m hm; cases hm
  | cons id ids ih =>
    intro L p ht m hm
    cases hf : L.m_players.find id with
    | none =>
      simp only [leave_all, hf, raise] at ht
      cases ht
    | some pl =>
      rw [leave_all_cons L p id ids pl hf] at ht ⊢
      by_cases e : m = id
      · refine leave_all_link_none ids _ _ m ?_
        intro Y hY
        have hY2 : (L.m_players.set id { pl with m_status := 0x01, m_room := none }).find m
            = some Y := hY
        rw [IdMap.find_set_of_find _ _ _ _ _ hf, if_pos e] at hY2
        cases hY2
        rfl
      · have hm2 : m ∈ ids := by
          rcases List.mem_cons.1 hm with h | h
          · exact absurd h e
          · exact h
        exact ih _ _ ht m hm2

/-- The loop of branch `0x1a0` creates no Room and adds no member. -/
theorem leave_all_members (ids : List Nat) : ∀ (L : Lobby) (p : Packet) (g : Nat) (R1 : Room),
    (leave_all L p ids).lobby.m_rooms.find g = some R1 →
    ∃ R0, L.m_rooms.find g = some R0 ∧ ∀ x ∈ R1.m_players, x ∈ R0.m_players := by
  induction ids with
  | nil => intro L p g R1 h; exact ⟨R1, h, fun _ hx => hx⟩
  | cons id ids ih =>
    intro L p g R1 h
    cases hf : L.m_players.find id with
    | none =>
      simp only [leave_all, hf, raise] at h
      exact ⟨R1, h, fun _ hx => hx⟩
    | some pl =>
      rw [leave_all_cons L p id ids pl hf] at h
      obtain ⟨R2, f2, s2⟩ := ih _ _ g R1 h
      have f3 : (pl.leave_room L.m_rooms).2.find g = some R2 := f2
      rw [leave_room_find] at f3
      cases hR : L.m_rooms.find g with
      | none => rw [hR] at f3; cases f3
      | some R0 =>
        rw [hR] at f3
        simp only [Option.map_some', Option.some.injEq] at f3
        refine ⟨R0, rfl, fun x hx => ?_⟩
        have hx2 := s2 x hx
        rw [← f3] at hx2
        split at hx2
        · exact (List.mem_filter.1 hx2).1
        · exact hx2

theorem start_all_step (c : Nat) (ids : List Nat) : ∀ (L0 L : Lobby) (p : Packet),
    Step L0 L →
    Step L0 (start_all L p c ids).lobby := by
  induction ids with
  | nil => intro L0 L p h; exact h
  | cons id ids ih =>
    intro L0 L p h
    cases hf : L.m_players.find id with
    | none =>
      simp only [start_all, hf, raise]
      exact h
    | some pl =>
      rw [start_all_cons L p c id ids pl hf]
      refine ih L0 _ _ ?_
      exact step_set_player h id pl { pl with m_status := if id = c then 0x0f else 0x0b }
        hf rfl rfl rfl rfl rfl

theorem send_1be_step (n : Nat) (ids : List Nat) : ∀ (L0 L : Lobby) (p : Packet),
    Step L0 L →
    Step L0 (send_1be L p n ids).1 := by
  induction ids with
  | nil => intro L0 L p h; exact h
  | cons id ids ih =>
    intro L0 L p h
    simp only [send_1be]
    split
    · exact ih _ _ _ h
    · exact ih _ _ _ (step_send h _ _)

theorem send_1be_m_rooms (n : Nat) (ids : List Nat) : ∀ (L : Lobby) (p : Packet),
    (send_1be L p n ids).1.m_rooms = L.m_rooms := by
  induction ids with
  | nil => intro L p; rfl
  | cons id ids ih =>
    intro L p
    simp only [send_1be]
    split
    · exact ih _ _
    · rw [ih, send_m_rooms]

end Lobby

/-! ## What every branch keeps -/

namespace Lobby

/-- From the two facts every branch but `0x19c` is shown to keep, to their
form for a whole call. -/
theorem kept_of_step {L L1 : Lobby} (h : Step L L1) :
    (Inv L → Inv L1) ∧
    ∀ k R R1, L.m_rooms.find k = some R → L1.m_rooms.find k = some R1 →
      R1.m_description = R.m_description := by
  refine ⟨h.1, fun k R R1 hR hR1 => ?_⟩
  obtain ⟨R0, f0, e0⟩ := h.2 k R1 hR1
  rw [hR] at f0
  cases f0
  exact e0

theorem forward_step (L : Lobby) (p : Packet) (cmd : Nat) (t : SendTo) :
    Step L (forward L p cmd t).lobby :=
  step_send (step_refl L) _ _

theorem done_step (L : Lobby) (p : Packet) :
    Step L (done L p).lobby := step_refl L

theorem on_192_step (L : Lobby) (p : Packet) :
    Step L (on_192 L p).lobby := by
  simp only [on_192]
  split
  · exact step_refl L
  · exact step_send (step_refl L) _ _

theorem on_1ad_step (L : Lobby) (p : Packet) (c : Nat) :
    Step L (on_1ad L p c).lobby := by
  simp only [on_1ad]
  split
  · exact step_refl L
  · exact step_send (step_refl L) _ _

theorem on_1b3_step (L : Lobby) (p : Packet) (c : Nat) :
    Step L (on_1b3 L p c).lobby := by
  cases hS : L.m_players.find c with
  | none => simp only [on_1b3, hS, raise]; exact step_refl L
  | some S =>
    simp only [on_1b3, hS, done]
    exact step_set_player (step_refl L) c S (S.set_props p.read_string.2.read_string.2.read_string.2.read_string.1) hS rfl rfl rfl rfl rfl

theorem on_19e_step (L : Lobby) (p : Packet) :
    Step L (on_19e L p).lobby := by
  cases hR : L.m_rooms.find p.read_int.1 with
  | none => simp only [on_19e, hR, raise]; exact step_refl L
  | some R =>
    cases hS : L.m_players.find p.m_id1 with
    | none => simp only [on_19e, hR, hS, raise]; exact step_refl L
    | some S =>
      simp only [on_19e, hR, hS, done]
      refine step_send ?_ _ _
      exact step_join (step_refl L) p.m_id1 p.read_int.1 S R hS hR rfl rfl rfl

theorem on_1b5_step (L : Lobby) (p : Packet) :
    Step L (on_1b5 L p).lobby :=
  step_send (step_send (step_refl L) _ _) _ _

theorem on_196_step (L : Lobby) (p : Packet) :
    Step L (on_196 L p).lobby := by
  simp only [on_196]
  split
  · exact step_send (step_refl L) _ _
  · split
    · exact step_send (step_refl L) _ _
    · exact step_send (step_send (step_refl L) _ _) _ _

theorem on_1a8_step (L : Lobby) (p : Packet) :
    Step L (on_1a8 L p).lobby :=
  step_send (step_refl L) _ _

theorem on_19a_step (L : Lobby) (p : Packet) (c : Nat) (hc : c < 2 ^ 32) :
    Step L (on_19a L p c).lobby := by
  rw [on_19a_lobby]
  refine step_send (step_send ?_ _ _) _ _
  exact step_emplace_player (step_refl L) c _ _ _ hc rfl rfl rfl

theorem on_1a2_step (L : Lobby) (p : Packet) (c : Nat) :
    Step L (on_1a2 L p c).lobby := by
  cases hS : L.m_players.find c with
  | none => simp only [on_1a2, hS, raise]; exact step_refl L
  | some S =>
    cases hr : S.m_room with
    | none => simp only [on_1a2, hS, hr, done]; exact step_refl L
    | some r =>
      cases hR : L.m_rooms.find r with
      | none => simp only [on_1a2, hS, hr, hR, done]; exact step_refl L
      | some R =>
        have h1 : Step L { L with m_rooms := L.m_rooms.set r R.hide_from_lobby } :=
          step_set_room (step_refl L) r R R.hide_from_lobby hR rfl rfl rfl rfl rfl rfl
        have hk := start_all_step c R.m_players.reverse L
          { L with m_rooms := L.m_rooms.set r R.hide_from_lobby }
          (p.write_int R.m_players.length) h1
        simp only [on_1a2, hS, hr, hR]
        generalize start_all { L with m_rooms := L.m_rooms.set r R.hide_from_lobby }
          (p.write_int R.m_players.length) c R.m_players.reverse = res at hk ⊢
        cases ht : res.thrown
        · simp only [Bool.false_eq_true, if_false, done]
          exact step_send hk _ _
        · simp only [if_true]
          exact hk

theorem on_1aa_step (L : Lobby) (p : Packet) (c : Nat) :
    Step L (on_1aa L p c).lobby := by
  cases hS : L.m_players.find c with
  | none => simp only [on_1aa, hS, raise]; exact step_refl L
  | some S =>
    cases hr : S.m_room with
    | none => simp only [on_1aa, hS, hr, done]; exact step_refl L
    | some r =>
      cases hR : L.m_rooms.find r with
      | none => simp only [on_1aa, hS, hr, hR, done]; exact step_refl L
      | some R =>
        simp only [on_1aa, hS, hr, hR, status_all_lobby]
        split
        · rw [status_all_lobby]
          exact step_set_room (step_refl L) r R (R.set_info p.read_string.2.read_string.1) hR
            rfl rfl rfl rfl rfl rfl
        · simp only [done, status_all_lobby]
          refine step_send ?_ _ _
          exact step_set_room (step_refl L) r R (R.set_info p.read_string.2.read_string.1) hR
            rfl rfl rfl rfl rfl rfl

end Lobby

namespace Lobby

/-- The Room of a leaving host is erased once the member loop has run to its
end: by then no Player is linked to it. -/
theorem step_erase_host {L : Lobby} (L1 X : Lobby) (r : Nat) (R : Room)
    (hR : L.m_rooms.find r = some R)
    (h : Step L X)
    (hp : X.m_players = L1.m_players) (hr : X.m_rooms = L1.m_rooms)
    (h2 : ∀ m ∈ R.m_players, ∀ Y, L1.m_players.find m = some Y → Y.m_room = none)
    (h3 : ∀ g R1, L1.m_rooms.find g = some R1 →
      ∃ R0, L.m_rooms.find g = some R0 ∧ ∀ x ∈ R1.m_players, x ∈ R0.m_players) :
    Step L { m_clients := X.m_clients, m_players := X.m_players,
             m_rooms := X.m_rooms.erase R.m_host_id,
             m_last_issued_id := X.m_last_issued_id } := by
  refine step_erase_room h R.m_host_id ?_ rfl rfl rfl
  intro hi hi1 j Y hj hY
  have hb : R.m_host_id = r := hi.2.1 r R hR
  obtain ⟨R1, f1, m1⟩ := hi1.2.2.2 j Y R.m_host_id hj hY
  rw [hr, hb] at f1
  obtain ⟨R0, f0, s0⟩ := h3 r R1 f1
  rw [hR] at f0
  cases f0
  rw [hp] at hj
  have := h2 j (s0 j m1) Y hj
  rw [this] at hY
  cases hY

theorem on_1a0_step (L : Lobby) (p : Packet) (c : Nat) :
    Step L (on_1a0 L p c).lobby := by
  cases hS : L.m_players.find c with
  | none => simp only [on_1a0, hS, raise]; exact step_refl L
  | some S =>
    cases hr : S.m_room with
    | none => simp only [on_1a0, hS, hr, done]; exact step_refl L
    | some r =>
      cases hR : L.m_rooms.find r with
      | none => simp only [on_1a0, hS, hr, hR, done]; exact step_refl L
      | some R =>
        cases hn : R.m_players.getLast? with
        | none => simp only [on_1a0, hS, hr, hR, hn, raise]; exact step_refl L
        | some n =>
          by_cases hb : (decide (S.m_status = 5) || decide (S.m_status = 15)) = true
          · have hk := leave_all_step R.m_players L L
              ((p.write_byte 1).write_int R.m_players.length) (step_refl L)
            have h2 := leave_all_links_cleared R.m_players L
              ((p.write_byte 1).write_int R.m_players.length)
            have h3 := leave_all_members R.m_players L
              ((p.write_byte 1).write_int R.m_players.length)
            simp only [on_1a0, hS, hr, hR, hn, hb, if_true]
            generalize leave_all L ((p.write_byte 1).write_int R.m_players.length) R.m_players
              = res at hk h2 h3 ⊢
            cases ht : res.thrown
            · simp only [Bool.false_eq_true, if_false, done]
              by_cases hd : (decide (S.m_status = 15) && decide (1 < R.m_players.length)) = true
              · simp only [hd, if_true]
                refine step_erase_host res.lobby _ r R hR ?_ ?_ ?_ (h2 ht) h3
                · exact send_1be_step _ _ _ _ _ (step_send (step_send hk _ _) _ _)
                · exact (send_1be_m_players _ _ _ _).trans
                    ((send_m_players _ _ _).trans (send_m_players _ _ _))
                · exact (send_1be_m_rooms _ _ _ _).trans
                    ((send_m_rooms _ _ _).trans (send_m_rooms _ _ _))
              · simp only [hd, Bool.false_eq_true, if_false]
                refine step_erase_host res.lobby _ r R hR ?_ ?_ ?_ (h2 ht) h3
                · exact step_send hk _ _
                · exact send_m_players _ _ _
                · exact send_m_rooms _ _ _
            · simp only [if_true]
              exact hk
          · simp only [on_1a0, hS, hr, hR, hn, hb, Bool.false_eq_true, if_false, done]
            by_cases hd : (decide (S.m_status = 15) && decide (1 < R.m_players.length)) = true
            · simp only [hd, if_true]
              refine send_1be_step n (R.m_players.drop 1) L _ _ ?_
              refine step_send (step_send ?_ _ _) _ _
              exact step_leave_fst (step_refl L) c S hS rfl rfl rfl
            · simp only [hd, Bool.false_eq_true, if_false]
              refine step_send ?_ _ _
              exact step_leave_fst (step_refl L) c S hS rfl rfl rfl

theorem find_emplace_of_find {α : Type} (m : IdMap α) (c k : Nat) (v w : α)
    (h : m.find k = some w) : (m.emplace c v).find k = some w := by
  by_cases e : k = c
  · rw [e, IdMap.find_emplace]
    rw [e] at h
    simp only [IdMap.emplaced, h, Option.getD_some]
  · rw [IdMap.find_emplace_ne _ _ _ _ e]
    exact h

theorem on_19c_kept (L : Lobby) (p : Packet) (c : Nat) (hc : c < 2 ^ 32) :
    (Inv L → Inv (on_19c L p c).lobby) ∧
    ∀ k R R1, L.m_rooms.find k = some R → (on_19c L p c).lobby.m_rooms.find k = some R1 →
      R1.m_description = R.m_description := by
  have hi1 : Inv L →
      Inv { L with m_rooms := L.m_rooms.emplace c (Room.ctor c (read_create_room p).1) } :=
    fun hi => inv_emplace_room hi c _ hc rfl rfl rfl
  cases hS : L.m_players.find c with
  | none =>
    simp only [on_19c, hS, raise]
    refine ⟨hi1, fun k R R1 hR hR1 => ?_⟩
    have := find_emplace_of_find L.m_rooms c k (Room.ctor c (read_create_room p).1) R hR
    have h2 : (L.m_rooms.emplace c (Room.ctor c (read_create_room p).1)).find k = some R1 := hR1
    rw [this] at h2
    cases h2
    rfl
  | some S =>
    rw [on_19c_of_player L p c S hS]
    have hj : Step { L with m_rooms := L.m_rooms.emplace c (Room.ctor c (read_create_room p).1) }
        ({ L with
            m_players := L.m_players.set c
              (S.join_room c (L.m_rooms.emplaced c (Room.ctor c (read_create_room p).1))).1
            m_rooms := (L.m_rooms.emplace c (Room.ctor c (read_create_room p).1)).set c
              (S.join_room c (L.m_rooms.emplaced c (Room.ctor c (read_create_room p).1))).2 } :
          Lobby) :=
      step_join
        (step_refl { L with m_rooms := L.m_rooms.emplace c (Room.ctor c (read_create_room p).1) })
        c c S (L.m_rooms.emplaced c (Room.ctor c (read_create_room p).1)) hS
        (IdMap.find_emplace _ _ _) rfl rfl rfl
    have hs := step_send hj
      ((((((((read_create_room p).2.2.2.seek_to_start.write_byte 7).write_int 8).write_string
            (read_create_room p).1).write_string (read_create_room p).2.1).write_int
            (read_create_room p).2.2.1).write_short 0).write_header 0x19d p.m_id1 0) .Everyone
    refine ⟨fun hi => hs.1 (hi1 hi), fun k R R1 hR hR1 => ?_⟩
    obtain ⟨R0, f0, e0⟩ := hs.2 k R1 hR1
    have := find_emplace_of_find L.m_rooms c k (Room.ctor c (read_create_room p).1) R hR
    have h2 : (L.m_rooms.emplace c (Room.ctor c (read_create_room p).1)).find k = some R0 := f0
    rw [this] at h2
    cases h2
    exact e0

theorem process_buf_kept (L : Lobby) (c : Nat) (buf : Buffer) (hc : c < 2 ^ 32) :
    (Inv L → Inv (L.process_buf c buf).lobby) ∧
    ∀ k R R1, L.m_rooms.find k = some R → (L.process_buf c buf).lobby.m_rooms.find k = some R1 →
      R1.m_description = R.m_description := by
  unfold process_buf
  lift_lets
  intro p cmd
  clear_value cmd p
  repeat' with_reducible refine ite_ind (fun o : Outcome => (Inv L → Inv o.lobby) ∧
    ∀ k R R1, L.m_rooms.find k = some R → o.lobby.m_rooms.find k = some R1 →
      R1.m_description = R.m_description) _ _ _ ?_ ?_
  all_goals first
    | with_reducible exact kept_of_step (forward_step _ _ _ _)
    | with_reducible exact kept_of_step (on_192_step _ _)
    | with_reducible exact kept_of_step (on_1ad_step _ _ _)
    | with_reducible exact kept_of_step (on_1b3_step _ _ _)
    | with_reducible exact on_19c_kept _ _ _ hc
    | with_reducible exact kept_of_step (on_19e_step _ _)
    | with_reducible exact kept_of_step (on_1a0_step _ _ _)
    | with_reducible exact kept_of_step (on_1a2_step _ _ _)
    | with_reducible exact kept_of_step (on_1aa_step _ _ _)
    | with_reducible exact kept_of_step (on_1b5_step _ _)
    | with_reducible exact kept_of_step (on_196_step _ _)
    | with_reducible exact kept_of_step (on_1a8_step _ _)
    | with_reducible exact kept_of_step (on_19a_step _ _ _ hc)
    | with_reducible exact kept_of_step (done_step _ _)

end Lobby

/-! ## The states the Server can reach -/

namespace Lobby

/-- The Client is erased from `m_clients`. -/
theorem step_erase_client (L : Lobby) (c : Nat) :
    Step L { L with m_clients := L.m_clients.erase c } := by
  refine ⟨fun hi => ?_, KeepsRooms.same_rooms L⟩
  obtain ⟨a, b, c0, d⟩ := hi
  refine ⟨fun k hk => a k ?_, b, c0, d⟩
  have hk2 : ((L.m_clients.erase c).find k).isSome = true := hk
  by_cases e : k = c
  · rw [e, IdMap.find_erase_self] at hk2
    cases hk2
  · rw [IdMap.find_erase_ne _ _ _ e] at hk2
    exact hk2

theorem disconnect_kept (L : Lobby) (c : Nat) (buf : Buffer) (hc : c < 2 ^ 32) :
    (Inv L → Inv (L.disconnect c buf).lobby) ∧
    ∀ k R R1, L.m_rooms.find k = some R → (L.disconnect c buf).lobby.m_rooms.find k = some R1 →
      R1.m_description = R.m_description := by
  have h1 := step_erase_client L c
  cases hS : L.m_players.find c with
  | none =>
    unfold disconnect
    simp only [hS, done]
    exact kept_of_step h1
  | some S =>
    by_cases hr : S.m_room.isSome = true
    · have K := process_buf_kept { L with m_clients := L.m_clients.erase c } c
        ((Packet.ctor buf c).write_header 0x1a0 c 0).m_buf hc
      unfold disconnect
      simp -proj only [hS, hr, if_true, done]
      generalize process_buf { L with m_clients := L.m_clients.erase c } c
        ((Packet.ctor buf c).write_header 0x1a0 c 0).m_buf = res at K ⊢
      cases ht : res.thrown
      · simp -proj only [Bool.false_eq_true, if_false]
        have E : Step res.lobby
            ({ res.lobby with m_players := res.lobby.m_players.erase c } : Lobby) :=
          step_erase_player (step_refl res.lobby) c (fun _ h => h) rfl rfl
        have T : Step res.lobby
            (({ res.lobby with m_players := res.lobby.m_players.erase c } : Lobby).send
              (({ (Packet.ctor buf c).write_header 0x1a0 c 0 with
                  m_buf := res.p.m_buf
                  oob_writes := ((Packet.ctor buf c).write_header 0x1a0 c 0).oob_writes
                    ++ res.p.oob_writes } : Packet).seek_to_start.write_header 0x1a7 c 0)
              .Everyone) :=
          step_send E _ _
        refine ⟨fun hi => T.1 (K.1 (h1.1 hi)), fun k R R1 hR hR1 => ?_⟩
        obtain ⟨R0, f0, e0⟩ := T.2 k R1 hR1
        exact e0.trans (K.2 k R R0 hR f0)
      · simp -proj only [if_true]
        exact ⟨fun hi => K.1 (h1.1 hi), fun k R R1 hR hR1 => K.2 k R R1 hR hR1⟩
    · unfold disconnect
      simp -proj only [hS, hr, Bool.false_eq_true, if_false, done]
      have E : Step { L with m_clients := L.m_clients.erase c }
          ({ L with m_clients := L.m_clients.erase c,
                    m_players := L.m_players.erase c } : Lobby) :=
        step_erase_player (step_refl _) c (fun _ h => h) rfl rfl
      have T : Step { L with m_clients := L.m_clients.erase c }
          (({ L with m_clients := L.m_clients.erase c,
                     m_players := L.m_players.erase c } : Lobby).send
            ((Packet.ctor buf c).seek_to_start.write_header 0x1a7 c 0) .Everyone) :=
        step_send E _ _
      refine ⟨fun hi => T.1 (h1.1 hi), fun k R R1 hR hR1 => ?_⟩
      obtain ⟨R0, f0, e0⟩ := T.2 k R1 hR1
      have f1 : L.m_rooms.find k = some R0 := f0
      rw [hR] at f1
      cases f1
      exact e0

theorem connect_inv (L : Lobby) (hi : Inv L) : Inv L.connect.1 := by
  obtain ⟨a, b, c0, d⟩ := hi
  refine ⟨fun k hk => ?_, b, c0, d⟩
  have hk2 : ((L.m_clients.emplace ((L.m_last_issued_id + 1) % 2 ^ 32) []).find k).isSome
      = true := hk
  by_cases e : k = (L.m_last_issued_id + 1) % 2 ^ 32
  · rw [e]
    exact Nat.mod_lt _ (by norm_num)
  · rw [IdMap.find_emplace_ne _ _ _ _ e] at hk2
    exact a k hk2

theorem ctor_inv : Inv Lobby.ctor :=
  ⟨fun k hk => (by cases hk), fun k R h => (by cases h), fun k P h => (by cases h),
    fun k P r h => (by cases h)⟩

/-- The facts `Inv` hold in every state the Server can reach. -/
theorem run_inv (es : List Event) : ∀ (L : Lobby), Inv L → L.admits es = true →
    Inv (L.run es) := by
  induction es with
  | nil => intro L hi _; exact hi
  | cons e es ih =>
    intro L hi ha
    rw [run_cons]
    cases e with
    | connect => exact ih _ (connect_inv L hi) ha
    | packet c buf =>
      simp only [admits, Bool.and_eq_true] at ha
      exact ih _ ((process_buf_kept L c buf (hi.1 c ha.1)).1 hi) ha.2
    | disconnect c buf =>
      simp only [admits, Bool.and_eq_true] at ha
      exact ih _ ((disconnect_kept L c buf (hi.1 c ha.1)).1 hi) ha.2

theorem admits_append (es : List Event) : ∀ (L : Lobby) (fs : List Event),
    L.admits (es ++ fs) = (L.admits es && (L.run es).admits fs) := by
  induction es with
  | nil => intro L fs; rfl
  | cons e es ih =>
    intro L fs
    cases e with
    | connect => exact ih _ _
    | packet c buf =>
      show (L.m_clients.contains c && admits _ (es ++ fs)) = _
      rw [ih]
      simp only [admits, run_cons, step, Bool.and_assoc]
    | disconnect c buf =>
      show (L.m_clients.contains c && admits _ (es ++ fs)) = _
      rw [ih]
      simp only [admits, run_cons, step, Bool.and_assoc]

end Lobby

namespace Lobby

/-- A call of an admitted sequence keeps the description of every Room that
is there before and after it. -/
theorem step_description (L : Lobby) (hi : Inv L) (e : Event) (ha : L.admits [e] = true)
    (k : Nat) (R R1 : Room) (hR : L.m_rooms.find k = some R)
    (hR1 : (L.step e).m_rooms.find k = some R1) : R1.m_description = R.m_description := by
  cases e with
  | connect =>
    have h : L.m_rooms.find k = some R1 := hR1
    rw [hR] at h
    cases h
    rfl
  | packet c buf =>
    simp only [admits, Bool.and_eq_true] at ha
    exact (process_buf_kept L c buf (hi.1 c ha.1)).2 k R R1 hR hR1
  | disconnect c buf =>
    simp only [admits, Bool.and_eq_true] at ha
    exact (disconnect_kept L c buf (hi.1 c ha.1)).2 k R R1 hR hR1

theorem admits_cons (L : Lobby) (e : Event) (es : List Event) :
    L.admits (e :: es) = (L.admits [e] && (L.step e).admits es) := by
  cases e with
  | connect => rfl
  | packet c buf => simp only [admits, step, Bool.and_true]
  | disconnect c buf => simp only [admits, step, Bool.and_true]

/-- Along an admitted sequence of calls, a Room that is there after every
call has at the end the description it had at the start. -/
theorem run_description (fs : List Event) : ∀ (L : Lobby), Inv L → L.admits fs = true →
    ∀ (k : Nat) (R R1 : Room), L.m_rooms.find k = some R →
    (∀ n, n ≤ fs.length → ((L.run (fs.take n)).m_rooms.find k).isSome = true) →
    (L.run fs).m_rooms.find k = some R1 → R1.m_description = R.m_description := by
  induction fs with
  | nil =>
    intro L _ _ k R R1 hR _ hR1
    have h : L.m_rooms.find k = some R1 := hR1
    rw [hR] at h
    cases h
    rfl
  | cons e fs ih =>
    intro L hi ha k R R1 hR hall hR1
    rw [admits_cons, Bool.and_eq_true] at ha
    have h1 := hall 1 (by simp)
    have h1b : ((L.step e).m_rooms.find k).isSome = true := h1
    obtain ⟨R2, hR2⟩ := Option.isSome_iff_exists.1 h1b
    have hi2 : Inv (L.step e) := run_inv [e] L hi ha.1
    have d1 := step_description L hi e ha.1 k R R2 hR hR2
    have d2 := ih (L.step e) hi2 ha.2 k R2 R1 hR2
      (fun n hn => hall (n + 1) (by simpa using hn)) hR1
    exact d2.trans d1

end Lobby

/-- C32: in every state reached from the empty Lobby by connects, and by
packets and disconnects of registered clients, every entry of `rooms` holds a
Room whose host id is its key; and from there on, along every further such
sequence of calls, a Room that stays in `rooms` (it is there after every
call) keeps its description. -/
theorem C32_room_key_and_description (es : List Event)
    (ha : Lobby.ctor.admits es = true) :
    (∀ k R, (Lobby.ctor.run es).m_rooms.find k = some R → R.m_host_id = k) ∧
    (∀ (fs : List Event), (Lobby.ctor.run es).admits fs = true →
      ∀ (k : Nat) (R R1 : Room), (Lobby.ctor.run es).m_rooms.find k = some R →
      (∀ n, n ≤ fs.length →
        (((Lobby.ctor.run es).run (fs.take n)).m_rooms.find k).isSome = true) →
      ((Lobby.ctor.run es).run fs).m_rooms.find k = some R1 →
      R1.m_description = R.m_description) :=
  ⟨(Lobby.run_inv es Lobby.ctor Lobby.ctor_inv ha).2.1,
    fun fs hf => Lobby.run_description fs _ (Lobby.run_inv es Lobby.ctor Lobby.ctor_inv ha) hf⟩

set_option maxRecDepth 1000000 in
theorem C32_room_key_and_description_witness :
    Lobby.ctor.admits [Event.connect, Event.packet 1 (login_of "alice"),
        Event.packet 1 (create_of 1 "r1")] = true ∧
    ∀ k R, (Lobby.ctor.run [Event.connect, Event.packet 1 (login_of "alice"),
        Event.packet 1 (create_of 1 "r1")]).m_rooms.find k = some R → R.m_host_id = k :=
  ⟨by decide, (C32_room_key_and_description [Event.connect, Event.packet 1 (login_of "alice"),
    Event.packet 1 (create_of 1 "r1")] (by decide)).1⟩

/-- C36: in every state reached from the empty Lobby by connects, and by
packets and disconnects of registered clients, every Player whose room link
is set is linked to a Room that is in `rooms`, and the member list of that
Room holds the Player's id. -/
theorem C36_linked_room_lists_player (es : List Event)
    (ha : Lobby.ctor.admits es = true) :
    ∀ k P r, (Lobby.ctor.run es).m_players.find k = some P → P.m_room = some r →
      ∃ R, (Lobby.ctor.run es).m_rooms.find r = some R ∧ k ∈ R.m_players :=
  (Lobby.run_inv es Lobby.ctor Lobby.ctor_inv ha).2.2.2

set_option maxRecDepth 1000000 in
theorem C36_linked_room_lists_player_witness :
    Lobby.ctor.admits [Event.connect, Event.connect, Event.packet 1 (login_of "alice"),
        Event.packet 2 (login_of "bob"), Event.packet 1 (create_of 1 "r1"),
        Event.packet 2 (join_of 2 1)] = true ∧
    ∀ k P r, (Lobby.ctor.run [Event.connect, Event.connect, Event.packet 1 (login_of "alice"),
        Event.packet 2 (login_of "bob"), Event.packet 1 (create_of 1 "r1"),
        Event.packet 2 (join_of 2 1)]).m_players.find k = some P → P.m_room = some r →
      ∃ R, (Lobby.ctor.run [Event.connect, Event.connect, Event.packet 1 (login_of "alice"),
        Event.packet 2 (login_of "bob"), Event.packet 1 (create_of 1 "r1"),
        Event.packet 2 (join_of 2 1)]).m_rooms.find r = some R ∧ k ∈ R.m_players :=
  ⟨by decide, C36_linked_room_lists_player [Event.connect, Event.connect,
    Event.packet 1 (login_of "alice"), Event.packet 2 (login_of "bob"),
    Event.packet 1 (create_of 1 "r1"), Event.packet 2 (join_of 2 1)] (by decide)⟩

/-! ## Creating a room: the first member -/

namespace Packet

theorem framed_of_same (p q : Packet) (h : p.Framed) (hs : q.m_send_size = p.m_send_size)
    (hl : q.m_buf.length = p.m_buf.length) (h4 : q.m_buf.take 4 = p.m_buf.take 4) :
    q.Framed := by
  rcases h with h | ⟨h1, h2⟩
  · exact Or.inl (hs.trans h)
  · right
    rw [List.length_take] at h1 h2
    have hss : 14 ≤ p.m_send_size := le_trans h1 (Nat.min_le_left _ _)
    refine ⟨?_, ?_⟩
    · rw [List.length_take, hs, hl]
      exact h1
    · have h44 : min 4 p.m_send_size = 4 := Nat.min_eq_left (by omega)
      rw [List.take_take, h44] at h2
      rw [List.length_take, hs, hl, List.take_take, h44, h4]
      exact h2

theorem store_oob (p : Packet) (i : Nat) (b : Byte) (h : (p.store i b).oob_writes = []) :
    i < p.m_buf.length ∧ p.oob_writes = [] := by
  unfold store at h
  split at h
  · exact ⟨by assumption, h⟩
  · exact absurd h (by simp)

theorem store_take4 (p : Packet) (i : Nat) (b : Byte) (h4 : 4 < i) :
    (p.store i b).m_buf.take 4 = p.m_buf.take 4 := by
  unfold store
  split
  · show (p.m_buf.set i b).take 4 = p.m_buf.take 4
    exact List.take_set_of_lt b p.m_buf h4
  · rfl

theorem store_fields (p : Packet) (i : Nat) (b : Byte) :
    (p.store i b).m_seek_pos = p.m_seek_pos ∧ (p.store i b).m_send_size = p.m_send_size := by
  unfold store
  split <;> exact ⟨rfl, rfl⟩

end Packet

namespace Tight

theorem of_nop : Tight (fun p => p) :=
  ⟨fun _ h => h, fun _ hi _ => ⟨hi, fun h => h⟩⟩

theorem comp {W1 W2 : Packet → Packet} (h1 : Tight W1) (h2 : Tight W2) :
    Tight (fun p => W2 (W1 p)) := by
  refine ⟨fun p h => h1.1 p (h2.1 _ h), fun p hi h => ?_⟩
  obtain ⟨i1, f1⟩ := h1.2 p hi (h2.1 _ h)
  obtain ⟨i2, f2⟩ := h2.2 _ i1 h
  exact ⟨i2, fun hf => f2 (f1 hf)⟩

theorem of_write_byte (b : Nat) : Tight (fun p => p.write_byte b) := by
  refine ⟨fun p h => (Packet.store_oob p _ _ h).2, fun p hi h => ?_⟩
  beta_reduce at h ⊢
  obtain ⟨hlt, -⟩ := Packet.store_oob p p.m_seek_pos (toByte b) h
  obtain ⟨h14, hle, h32⟩ := hi
  have hlen : (p.write_byte b).m_buf.length = p.m_buf.length := Packet.write_byte_length p b
  have hpos : (p.write_byte b).m_seek_pos = p.m_seek_pos + 1 := by
    show ((p.store p.m_seek_pos (toByte b)).m_seek_pos + 1) % 2 ^ 32 = _
    rw [(Packet.store_fields p _ _).1]
    exact Nat.mod_eq_of_lt (by omega)
  refine ⟨⟨by omega, by omega, by omega⟩, fun hf => ?_⟩
  refine Packet.framed_of_same p _ hf (Packet.store_fields p _ _).2 hlen ?_
  exact Packet.store_take4 p _ _ (by omega)

theorem of_write_short (s : Nat) : Tight (fun p => p.write_short s) := by
  show Tight (fun p => (p.write_byte s).write_byte (s / 256))
  have h := comp (of_write_byte s) (of_write_byte (s / 256))
  exact h

theorem of_write_int (i : Nat) : Tight (fun p => p.write_int i) := by
  show Tight (fun p => (((p.write_byte i).write_byte (i / 256)).write_byte
    (i / 65536)).write_byte (i / 16777216))
  have h := comp (comp (comp (of_write_byte i) (of_write_byte (i / 256)))
    (of_write_byte (i / 65536))) (of_write_byte (i / 16777216))
  exact h

theorem of_foldl {α : Type} (f : Packet → α → Packet) (l : List α)
    (h : ∀ a, Tight (fun p => f p a)) : Tight (fun p => l.foldl f p) := by
  induction l with
  | nil => exact of_nop
  | cons a l ih =>
    have h2 := comp (h a) ih
    exact h2

end Tight

namespace Packet

theorem memcpy_fields (s : Str) : ∀ (p : Packet) (i : Nat),
    (p.memcpy i s).m_seek_pos = p.m_seek_pos ∧ (p.memcpy i s).m_send_size = p.m_send_size := by
  induction s with
  | nil => intro p i; exact ⟨rfl, rfl⟩
  | cons b bs ih =>
    intro p i
    obtain ⟨a1, a2⟩ := ih (p.store i b) (i + 1)
    obtain ⟨b1, b2⟩ := store_fields p i b
    exact ⟨a1.trans b1, a2.trans b2⟩

theorem memcpy_take4 (s : Str) : ∀ (p : Packet) (i : Nat), 4 < i →
    (p.memcpy i s).m_buf.take 4 = p.m_buf.take 4 := by
  induction s with
  | nil => intro p i _; rfl
  | cons b bs ih =>
    intro p i h
    exact (ih (p.store i b) (i + 1) (by omega)).trans (store_take4 p i b h)

theorem memcpy_oob (s : Str) : ∀ (p : Packet) (i : Nat), (p.memcpy i s).oob_writes = [] →
    p.oob_writes = [] ∧ (s = [] ∨ i + s.length ≤ p.m_buf.length) := by
  induction s with
  | nil => intro p i h; exact ⟨h, Or.inl rfl⟩
  | cons b bs ih =>
    intro p i h
    obtain ⟨h1, h2⟩ := ih (p.store i b) (i + 1) h
    obtain ⟨h3, h4⟩ := store_oob p i b h1
    refine ⟨h4, Or.inr ?_⟩
    rw [store_length] at h2
    rcases h2 with h2 | h2
    · rw [h2]
      simp only [List.length_cons, List.length_nil]
      omega
    · simp only [List.length_cons]
      omega

end Packet

namespace Tight

theorem memcpy_advance (s : Str) :
    Tight (fun p => (p.memcpy p.m_seek_pos s).advance s.length) := by
  refine ⟨fun p h => (Packet.memcpy_oob s p _ h).1, fun p hi h => ?_⟩
  beta_reduce at h ⊢
  obtain ⟨-, hb⟩ := Packet.memcpy_oob s p p.m_seek_pos h
  obtain ⟨h14, hle, h32⟩ := hi
  have hlen : ((p.memcpy p.m_seek_pos s).advance s.length).m_buf.length = p.m_buf.length :=
    Packet.memcpy_length s p _
  have hbound : p.m_seek_pos + s.length ≤ p.m_buf.length := by
    rcases hb with hb | hb
    · rw [hb]; exact hle
    · exact hb
  have hpos : ((p.memcpy p.m_seek_pos s).advance s.length).m_seek_pos
      = p.m_seek_pos + s.length := by
    show ((p.memcpy p.m_seek_pos s).m_seek_pos + s.length) % 2 ^ 32 = _
    rw [(Packet.memcpy_fields s p _).1]
    exact Nat.mod_eq_of_lt (by omega)
  refine ⟨⟨by omega, by omega, by omega⟩, fun hf => ?_⟩
  exact Packet.framed_of_same p _ hf (Packet.memcpy_fields s p _).2 hlen
    (Packet.memcpy_take4 s p _ (by omega))

theorem of_write_string (s : Str) (lt : LengthType) : Tight (fun p => p.write_string s lt) := by
  cases lt
  · show Tight (fun p => ((p.write_byte s.length).memcpy (p.write_byte s.length).m_seek_pos
      s).advance s.length)
    have h := comp (of_write_byte s.length) (memcpy_advance s)
    exact h
  · show Tight (fun p => ((p.write_short s.length).memcpy (p.write_short s.length).m_seek_pos
      s).advance s.length)
    have h := comp (of_write_short s.length) (memcpy_advance s)
    exact h
  · show Tight (fun p => ((p.write_int s.length).memcpy (p.write_int s.length).m_seek_pos
      s).advance s.length)
    have h := comp (of_write_int s.length) (memcpy_advance s)
    exact h

end Tight

namespace Packet

theorem write_header_mono (p : Packet) (cmd id1 id2 : Nat)
    (h : (p.write_header cmd id1 id2).oob_writes = []) : p.oob_writes = [] :=
  (Tight.comp (Tight.comp (Tight.comp (Tight.of_write_int _) (Tight.of_write_short _))
    (Tight.of_write_int _)) (Tight.of_write_int _)).1
    { p with
      m_send_size := p.m_seek_pos
      m_seek_pos := 0
      m_size := (p.m_seek_pos % 2 ^ 32 + 2 ^ 32 - packet_header_size) % 2 ^ 32
      m_cmd := cmd % 2 ^ 16
      m_id1 := id1 % 2 ^ 32
      m_id2 := id2 % 2 ^ 32 } h

/-- The header written behind a composition that stayed inside the buffer:
the slice to send is a well-formed frame. -/
theorem write_header_framed (p : Packet) (cmd id1 id2 : Nat) (hi : p.InBuf) :
    (p.write_header cmd id1 id2).oob_writes = p.oob_writes ∧
    (p.write_header cmd id1 id2).InBuf ∧ (p.write_header cmd id1 id2).Framed := by
  obtain ⟨h14, hle, h32⟩ := hi
  have h14b : 14 ≤ p.m_buf.length := le_trans h14 hle
  rw [write_header_of_le p cmd id1 id2 h14b]
  have hlen : (encHeader ((p.m_seek_pos % 2 ^ 32 + 2 ^ 32 - packet_header_size) % 2 ^ 32)
      (cmd % 2 ^ 16) (id1 % 2 ^ 32) (id2 % 2 ^ 32) ++ p.m_buf.drop 14).length
      = p.m_buf.length := by
    rw [List.length_append, encHeader_length, List.length_drop]
    omega
  have hsz : (p.m_seek_pos % 2 ^ 32 + 2 ^ 32 - packet_header_size) % 2 ^ 32
      = p.m_seek_pos - 14 := by
    have : packet_header_size = 14 := rfl
    rw [this, Nat.mod_eq_of_lt (by omega : p.m_seek_pos < 2 ^ 32)]
    omega
  refine ⟨rfl, ⟨le_refl 14, ?_, ?_⟩, Or.inr ⟨?_, ?_⟩⟩
  · show 14 ≤ (encHeader _ _ _ _ ++ p.m_buf.drop 14).length
    rw [hlen]; exact h14b
  · show (encHeader _ _ _ _ ++ p.m_buf.drop 14).length < 2 ^ 32
    rw [hlen]; exact h32
  · show 14 ≤ ((encHeader _ _ _ _ ++ p.m_buf.drop 14).take p.m_seek_pos).length
    rw [List.length_take, hlen]
    omega
  · show ((encHeader _ _ _ _ ++ p.m_buf.drop 14).take p.m_seek_pos).take 4
      = le32 (((encHeader _ _ _ _ ++ p.m_buf.drop 14).take p.m_seek_pos).length - 14)
    rw [List.length_take, hlen, List.take_take, Nat.min_eq_left (by omega : 4 ≤ p.m_seek_pos),
      Nat.min_eq_left hle, hsz]
    simp only [encHeader, List.append_assoc]
    exact List.take_left' (le32_length _)

end Packet

/-! ## Queues that grow by frames -/

namespace Lobby

theorem find_map_append (m : IdMap (List Buffer)) (k : Nat) :
    (m.find k).map (fun q => q ++ List.replicate 0 ([] : Buffer)) = m.find k := by
  cases m.find k <;> simp

theorem find_map_but (m : IdMap (List Buffer)) (src k : Nat) (s : Buffer) :
    IdMap.find (m.map (fun c => if src = c.1 then c else (c.1, c.2 ++ [s]))) k
      = (m.find k).map (fun q => q ++ List.replicate (if src = k then 0 else 1) s) := by
  induction m with
  | nil => rfl
  | cons e m ih =>
    obtain ⟨k0, v0⟩ := e
    rw [List.map_cons]
    have hc : ∀ (v : List Buffer) (t : IdMap (List Buffer)),
        IdMap.find ((k0, v) :: t) k = if k0 = k then some v else IdMap.find t k :=
      fun _ _ => rfl
    by_cases hs : src = k0
    · have hf : (if src = (k0, v0).1 then (k0, v0) else ((k0, v0).1, (k0, v0).2 ++ [s]))
          = (k0, v0) := if_pos hs
      rw [hf, hc, hc, ih]
      by_cases h : k0 = k
      · rw [if_pos h, if_pos h, if_pos (hs.trans h)]
        simp
      · rw [if_neg h, if_neg h]
    · have hf : (if src = (k0, v0).1 then (k0, v0) else ((k0, v0).1, (k0, v0).2 ++ [s]))
          = (k0, v0 ++ [s]) := if_neg hs
      rw [hf, hc, hc, ih]
      by_cases h : k0 = k
      · rw [if_pos h, if_pos h, if_neg (fun e => hs (e.trans h.symm))]
        simp
      · rw [if_neg h, if_neg h]

theorem send_clients_find_pos (L : Lobby) (p : Packet) (target : SendTo) (k : Nat)
    (hz : p.m_send_size ≠ 0) :
    ∃ n, (send_clients L p target).find k
      = (L.m_clients.find k).map
          (fun q => q ++ List.replicate n (p.m_buf.take p.m_send_size)) := by
  have h0 : ∃ n, L.m_clients.find k
      = (L.m_clients.find k).map
          (fun q => q ++ List.replicate n (p.m_buf.take p.m_send_size)) :=
    ⟨0, by cases L.m_clients.find k <;> simp⟩
  have hd : ∀ ids, ∃ n, (deliver L.m_clients (p.m_buf.take p.m_send_size) ids).find k
      = (L.m_clients.find k).map
          (fun q => q ++ List.replicate n (p.m_buf.take p.m_send_size)) :=
    fun ids => ⟨_, deliver_find_takeWhile _ ids L.m_clients k⟩
  unfold send_clients
  simp only []
  rw [if_neg hz]
  cases target <;> simp only []
  case Source => exact hd _
  case Id2 => exact hd _
  case Everyone =>
    exact ⟨1, IdMap.find_map_values L.m_clients
      (fun q => q ++ [p.m_buf.take p.m_send_size]) k⟩
  case EveryoneButSource =>
    exact ⟨_, find_map_but L.m_clients p.m_source_id k _⟩
  all_goals
    split
    · exact h0
    · split
      · exact h0
      · split
        · exact h0
        · first
          | exact hd _
          | (split <;> exact hd _)

/-- What `Lobby::send` does to a queue: some copies of the slice are put
behind it, none when the send size is 0. -/
theorem send_clients_find (L : Lobby) (p : Packet) (target : SendTo) (k : Nat) :
    ∃ n, (send_clients L p target).find k
      = (L.m_clients.find k).map (fun q => q ++ List.replicate n (p.m_buf.take p.m_send_size))
      ∧ (p.m_send_size = 0 → n = 0) := by
  by_cases hz : p.m_send_size = 0
  · refine ⟨0, ?_, fun _ => rfl⟩
    unfold send_clients
    simp only []
    rw [if_pos hz]
    cases L.m_clients.find k <;> simp
  · obtain ⟨n, hn⟩ := send_clients_find_pos L p target k hz
    exact ⟨n, hn, fun h => absurd h hz⟩

theorem Sends.nothing (L : Lobby) : Sends L L :=
  fun _ q h => ⟨q, [], h, (List.append_nil q).symm, fun _ hs => absurd hs (List.not_mem_nil _)⟩

theorem Sends.of_clients {L0 L L1 : Lobby} (h : Sends L0 L) (hc : L1.m_clients = L.m_clients) :
    Sends L0 L1 := by
  unfold Sends at h ⊢
  rw [hc]
  exact h

theorem Sends.then_ {L0 L1 L2 : Lobby} (h1 : Sends L0 L1) (h2 : Sends L1 L2) : Sends L0 L2 := by
  intro k q2 hq2
  obtain ⟨q1, n2, f1, e2, a2⟩ := h2 k q2 hq2
  obtain ⟨q0, n1, f0, e1, a1⟩ := h1 k q1 f1
  refine ⟨q0, n1 ++ n2, f0, ?_, fun s hs => ?_⟩
  · rw [e2, e1, List.append_assoc]
  · rcases List.mem_append.1 hs with h | h
    · exact a1 s h
    · exact a2 s h

/-- A framed Packet is sent. -/
theorem Sends.queued {L0 L : Lobby} (h : Sends L0 L) (p : Packet) (t : SendTo)
    (hf : p.Framed) : Sends L0 (L.send p t) := by
  refine Sends.then_ h ?_
  intro k q hq
  obtain ⟨n, hn, hz⟩ := send_clients_find L p t k
  have hq2 : (send_clients L p t).find k = some q := hq
  rw [hn] at hq2
  cases hL : L.m_clients.find k with
  | none => rw [hL] at hq2; cases hq2
  | some q1 =>
    rw [hL] at hq2
    simp only [Option.map_some', Option.some.injEq] at hq2
    refine ⟨q1, _, rfl, hq2.symm, fun s hs => ?_⟩
    have hs2 := List.eq_of_mem_replicate hs
    rcases hf with hf | hf
    · rw [hz hf] at hs
      exact absurd hs (List.not_mem_nil _)
    · rw [hs2]
      exact hf

end Lobby

/-! ## Frames of the branches -/

namespace Packet

theorem read_int_same (p : Packet) :
    p.read_int.2.m_buf = p.m_buf ∧ p.read_int.2.m_size = p.m_size ∧
    p.read_int.2.oob_writes = p.oob_writes := by
  simp only [read_int, read_byte, advance, and_self]

theorem read_string_same (p : Packet) (lt : LengthType) :
    (p.read_string lt).2.m_buf = p.m_buf ∧ (p.read_string lt).2.m_size = p.m_size ∧
    (p.read_string lt).2.oob_writes = p.oob_writes := by
  cases lt <;> simp only [read_string, read_int, read_short, read_byte, advance, and_self]

theorem seek_to_start_inbuf (p : Packet) (h14 : 14 ≤ p.m_buf.length)
    (h32 : p.m_buf.length < 2 ^ 32) : p.seek_to_start.InBuf :=
  ⟨le_refl 14, h14, h32⟩

theorem seek_to_end_inbuf (p : Packet) (h32 : p.m_buf.length < 2 ^ 32)
    (hfit : 14 + p.m_size ≤ p.m_buf.length) : p.seek_to_end.InBuf := by
  have hp : p.seek_to_end.m_seek_pos = 14 + p.m_size := by
    show (14 + p.m_size) % 2 ^ 32 = _
    exact Nat.mod_eq_of_lt (by omega)
  refine ⟨?_, ?_, h32⟩
  · rw [hp]; omega
  · rw [hp]; exact hfit

/-- A received packet that lies inside the buffer, re-tagged. -/
theorem keep_whole_message_framed (p : Packet) (cmd : Nat) (h32 : p.m_buf.length < 2 ^ 32)
    (hfit : 14 + p.m_size ≤ p.m_buf.length) :
    (p.keep_whole_message cmd).oob_writes = p.oob_writes ∧
    (p.keep_whole_message cmd).InBuf ∧ (p.keep_whole_message cmd).Framed ∧
    (p.keep_whole_message cmd).m_buf.length = p.m_buf.length :=
  ⟨(write_header_framed _ _ _ _ (seek_to_end_inbuf p h32 hfit)).1,
    (write_header_framed _ _ _ _ (seek_to_end_inbuf p h32 hfit)).2.1,
    (write_header_framed _ _ _ _ (seek_to_end_inbuf p h32 hfit)).2.2,
    write_header_length _ _ _ _⟩

end Packet

namespace Lobby

/-- The Packet composed by `W` from the start of the data section and closed
by `write_header` is sent. -/
theorem Sends.composed {L0 L : Lobby} (h : Sends L0 L) (W : Packet → Packet) (hW : Tight W)
    (q : Packet) (cmd id1 id2 : Nat) (t : SendTo) (hi : q.InBuf)
    (ho : ((W q).write_header cmd id1 id2).oob_writes = []) :
    Sends L0 (L.send ((W q).write_header cmd id1 id2) t) :=
  h.queued _ _ (Packet.write_header_framed _ _ _ _
    (hW.2 q hi (Packet.write_header_mono _ _ _ _ ho)).1).2.2

theorem forward_sends (L : Lobby) (p : Packet) (cmd : Nat) (t : SendTo)
    (h32 : p.m_buf.length < 2 ^ 32) (hfit : 14 + p.m_size ≤ p.m_buf.length) :
    Sends L (forward L p cmd t).lobby :=
  (Sends.nothing L).queued _ _ (Packet.keep_whole_message_framed p cmd h32 hfit).2.2.1

theorem on_196_sends (L : Lobby) (p : Packet)
    (h32 : p.m_buf.length < 2 ^ 32) (hfit : 14 + p.m_size ≤ p.m_buf.length) :
    Sends L (on_196 L p).lobby := by
  have hf := (Packet.keep_whole_message_framed p 0x197 h32 hfit).2.2.1
  simp only [on_196]
  split
  · exact (Sends.nothing L).queued _ _ hf
  · split
    · exact (Sends.nothing L).queued _ _ hf
    · exact ((Sends.nothing L).queued _ _ hf).queued _ _ hf

theorem on_1a8_sends (L : Lobby) (p : Packet)
    (h32 : p.m_buf.length < 2 ^ 32) (hfit : 14 + p.m_size ≤ p.m_buf.length)
    (ho : (on_1a8 L p).p.oob_writes = []) : Sends L (on_1a8 L p).lobby :=
  Sends.composed (Sends.nothing L) (fun q => q.write_byte 1) (Tight.of_write_byte 1) p.seek_to_end
    0x1a9 0 0 .Source (Packet.seek_to_end_inbuf p h32 hfit) ho

theorem on_1b3_sends (L : Lobby) (p : Packet) (c : Nat) : Sends L (on_1b3 L p c).lobby := by
  simp only [on_1b3]
  split
  · exact Sends.nothing L
  · exact (Sends.nothing L).of_clients rfl

theorem on_192_sends (L : Lobby) (p : Packet) (h14 : 14 ≤ p.m_buf.length)
    (h32 : p.m_buf.length < 2 ^ 32) (ho : (on_192 L p).p.oob_writes = []) :
    Sends L (on_192 L p).lobby := by
  have hb := (Packet.read_int_same p).1
  cases hS : L.m_players.find p.read_int.1 with
  | none => simp only [on_192, hS, raise]; exact Sends.nothing L
  | some S =>
    simp only [on_192, hS, done] at ho ⊢
    have T := Tight.comp (Tight.comp (Tight.comp (Tight.comp (Tight.comp (Tight.comp
      (Tight.comp (Tight.comp (Tight.comp (Tight.of_write_int p.read_int.1)
      (Tight.of_write_byte S.m_status)) (Tight.of_write_string S.m_name .Byte))
      (Tight.of_write_byte 0)) (Tight.of_write_int 0)) (Tight.of_write_int 0))
      (Tight.of_write_int 0)) (Tight.of_write_int 0)) (Tight.of_write_int 0))
      (Tight.of_write_string S.m_props .Byte)
    exact Sends.composed (Sends.nothing L) _ T p.read_int.2.seek_to_start _ _ _ _
      (Packet.seek_to_start_inbuf _ (by rw [hb]; exact h14) (by rw [hb]; exact h32)) ho

end Lobby

namespace Packet

theorem seek_to_start_of_inbuf (p : Packet) (hi : p.InBuf) : p.seek_to_start.InBuf :=
  ⟨le_refl 14, le_trans hi.1 hi.2.1, hi.2.2⟩

/-- A Packet composed by `W` from the start of the data section and closed by
`write_header`, with no write outside the buffer recorded. -/
theorem composed_facts (W : Packet → Packet) (hW : Tight W) (q : Packet) (cmd id1 id2 : Nat)
    (h14 : 14 ≤ q.m_buf.length) (h32 : q.m_buf.length < 2 ^ 32)
    (ho : ((W q.seek_to_start).write_header cmd id1 id2).oob_writes = []) :
    ((W q.seek_to_start).write_header cmd id1 id2).Framed ∧
    ((W q.seek_to_start).write_header cmd id1 id2).InBuf ∧ q.oob_writes = [] := by
  have h1 := write_header_mono _ _ _ _ ho
  have h2 := (hW.2 _ (seek_to_start_inbuf q h14 h32) h1).1
  have h3 := write_header_framed _ cmd id1 id2 h2
  exact ⟨h3.2.2, h3.2.1, hW.1 q.seek_to_start h1⟩

theorem inbuf_bounds (p : Packet) (hi : p.InBuf) :
    14 ≤ p.m_buf.length ∧ p.m_buf.length < 2 ^ 32 :=
  ⟨le_trans hi.1 hi.2.1, hi.2.2⟩

end Packet

namespace Lobby

theorem on_1ad_sends (L : Lobby) (p : Packet) (c : Nat) (hi : p.InBuf)
    (ho : (on_1ad L p c).p.oob_writes = []) : Sends L (on_1ad L p c).lobby := by
  cases hS : L.m_players.find c with
  | none => simp only [on_1ad, hS, raise]; exact Sends.nothing L
  | some S =>
    simp only [on_1ad, hS, done] at ho ⊢
    have T := Tight.comp (Tight.comp (Tight.of_write_string S.m_ver1 .Byte)
      (Tight.of_write_string S.m_ver2 .Byte)) (Tight.of_write_int 0)
    exact Sends.composed (Sends.nothing L) _ T p _ _ _ _ hi ho

theorem on_19e_sends (L : Lobby) (p : Packet) (h14 : 14 ≤ p.m_buf.length)
    (h32 : p.m_buf.length < 2 ^ 32) (ho : (on_19e L p).p.oob_writes = []) :
    Sends L (on_19e L p).lobby := by
  have hb := (Packet.read_int_same p).1
  cases hR : L.m_rooms.find p.read_int.1 with
  | none => simp only [on_19e, hR, raise]; exact Sends.nothing L
  | some R =>
    cases hS : L.m_players.find p.m_id1 with
    | none => simp only [on_19e, hR, hS, raise]; exact Sends.nothing L
    | some S =>
      simp only [on_19e, hR, hS, done] at ho ⊢
      have T := Tight.comp (Tight.of_write_int p.read_int.1)
        (Tight.of_write_byte (S.join_room p.read_int.1 R).1.m_status)
      refine Sends.composed ?_ _ T p.read_int.2.seek_to_start _ _ _ _
        (Packet.seek_to_start_inbuf _ (by rw [hb]; exact h14) (by rw [hb]; exact h32)) ho
      exact (Sends.nothing L).of_clients rfl

theorem on_1b5_sends (L : Lobby) (p : Packet) (h32 : p.m_buf.length < 2 ^ 32)
    (hfit : 14 + p.m_size ≤ p.m_buf.length) (ho : (on_1b5 L p).p.oob_writes = []) :
    Sends L (on_1b5 L p).lobby := by
  obtain ⟨hb, hs, -⟩ := Packet.read_int_same p
  obtain ⟨-, ki, kf, -⟩ := Packet.keep_whole_message_framed p.read_int.2 0x1b6
    (by rw [hb]; exact h32) (by rw [hb, hs]; exact hfit)
  have T := Tight.comp (Tight.comp (Tight.comp (Tight.of_write_byte 0) (Tight.of_write_int 1))
    (Tight.of_write_int p.read_int.1)) (Tight.of_write_byte 1)
  exact Sends.composed ((Sends.nothing L).queued _ _ kf) _ T
    (p.read_int.2.keep_whole_message 0x1b6).seek_to_start _ _ _ _
    (Packet.seek_to_start_of_inbuf _ ki) ho

theorem on_19c_sends (L : Lobby) (p : Packet) (c : Nat) (h14 : 14 ≤ p.m_buf.length)
    (h32 : p.m_buf.length < 2 ^ 32) (ho : (on_19c L p c).p.oob_writes = []) :
    Sends L (on_19c L p c).lobby := by
  have hb := (read_create_room_frame p).1
  cases hS : L.m_players.find c with
  | none =>
    simp only [on_19c, hS, raise]
    exact (Sends.nothing L).of_clients rfl
  | some S =>
    rw [on_19c_of_player L p c S hS] at ho ⊢
    have T := Tight.comp (Tight.comp (Tight.comp (Tight.comp (Tight.comp (Tight.of_write_byte 7)
      (Tight.of_write_int 8)) (Tight.of_write_string (read_create_room p).1 .Byte))
      (Tight.of_write_string (read_create_room p).2.1 .Byte))
      (Tight.of_write_int (read_create_room p).2.2.1)) (Tight.of_write_short 0)
    refine Sends.composed ?_ _ T (read_create_room p).2.2.2.seek_to_start _ _ _ _
      (Packet.seek_to_start_inbuf _ (by rw [hb]; exact h14) (by rw [hb]; exact h32)) ho
    exact (Sends.nothing L).of_clients rfl

/-- The writes of the loop of branch `0x1a0`. -/
theorem tight_leave_all (ids : List Nat) : ∀ (L : Lobby),
    Tight (fun p => (leave_all L p ids).p) := by
  induction ids with
  | nil => intro L; exact Tight.of_nop
  | cons id ids ih =>
    intro L
    cases hf : L.m_players.find id with
    | none =>
      have h : (fun p => (leave_all L p (id :: ids)).p) = fun p => p := by
        funext p
        simp only [leave_all, hf, raise]
      rw [h]
      exact Tight.of_nop
    | some pl =>
      have h : (fun p => (leave_all L p (id :: ids)).p) = fun p =>
          (leave_all { L with
            m_players := L.m_players.set id { pl with m_status := 0x01, m_room := none }
            m_rooms := (pl.leave_room L.m_rooms).2 } ((p.write_int id).write_byte 0x01) ids).p := by
        funext p
        rw [leave_all_cons L p id ids pl hf]
      rw [h]
      have T := Tight.comp (Tight.comp (Tight.of_write_int id) (Tight.of_write_byte 0x01)) (ih
        { L with
          m_players := L.m_players.set id { pl with m_status := 0x01, m_room := none }
          m_rooms := (pl.leave_room L.m_rooms).2 })
      exact T

/-- The writes of the loop of branch `0x1a2`. -/
theorem tight_start_all (c : Nat) (ids : List Nat) : ∀ (L : Lobby),
    Tight (fun p => (start_all L p c ids).p) := by
  induction ids with
  | nil => intro L; exact Tight.of_nop
  | cons id ids ih =>
    intro L
    cases hf : L.m_players.find id with
    | none =>
      have h : (fun p => (start_all L p c (id :: ids)).p) = fun p => p := by
        funext p
        simp only [start_all, hf, raise]
      rw [h]
      exact Tight.of_nop
    | some pl =>
      have h : (fun p => (start_all L p c (id :: ids)).p) = fun p =>
          (start_all { L with
            m_players := L.m_players.set id
              { pl with m_status := if id = c then 0x0f else 0x0b } }
            ((p.write_int id).write_byte (if id = c then 0x0f else 0x0b)) c ids).p := by
        funext p
        rw [start_all_cons L p c id ids pl hf]
      rw [h]
      have T := Tight.comp (Tight.comp (Tight.of_write_int id)
        (Tight.of_write_byte (if id = c then 0x0f else 0x0b))) (ih
        { L with
          m_players := L.m_players.set id
            { pl with m_status := if id = c then 0x0f else 0x0b } })
      exact T

/-- The writes of the loop of branch `0x1aa`. -/
theorem tight_status_all (ids : List Nat) (L : Lobby) :
    Tight (fun p => (status_all L p ids).p) := by
  induction ids with
  | nil => exact Tight.of_nop
  | cons id ids ih =>
    cases hf : L.m_players.find id with
    | none =>
      have h : (fun p => (status_all L p (id :: ids)).p) = fun p => p.write_int id := by
        funext p
        simp only [status_all, hf, raise]
      rw [h]
      exact Tight.of_write_int id
    | some pl =>
      have h : (fun p => (status_all L p (id :: ids)).p) = fun p =>
          (status_all L ((p.write_int id).write_byte pl.m_status) ids).p := by
        funext p
        simp only [status_all, hf]
      rw [h]
      have T := Tight.comp (Tight.comp (Tight.of_write_int id) (Tight.of_write_byte pl.m_status)) ih
      exact T

end Lobby

namespace Packet

theorem composed_mono (W : Packet → Packet) (hW : Tight W) (q : Packet) (cmd id1 id2 : Nat)
    (ho : ((W q.seek_to_start).write_header cmd id1 id2).oob_writes = []) :
    q.oob_writes = [] :=
  hW.1 q.seek_to_start (write_header_mono _ _ _ _ ho)

end Packet

namespace Lobby

theorem tight_player_entry (e : Nat × Player) : Tight (fun p => write_player_entry p e) := by
  have T := Tight.comp (Tight.comp (Tight.comp (Tight.comp (Tight.of_write_int e.1)
    (Tight.of_write_byte e.2.m_status)) (Tight.of_write_string e.2.m_name .Byte))
    (Tight.of_write_byte 0)) (Tight.of_write_string e.2.m_props .Byte)
  exact T

theorem tight_room_entry (e : Nat × Room) : Tight (fun p => write_room_entry p e) := by
  by_cases h : e.2.m_hidden = true
  · have hf : (fun p => write_room_entry p e) = fun p => p := by
      funext p
      simp only [write_room_entry, h, if_true]
    rw [hf]
    exact Tight.of_nop
  · have hf : (fun p => write_room_entry p e) = fun p =>
        e.2.m_players.reverse.foldl (fun p id => p.write_int id)
          (((((((p.write_int e.1).write_int 8).write_string e.2.m_description).write_string
            e.2.m_info).write_int 0).write_short 0).write_int e.2.m_players.length) := by
      funext p
      simp only [write_room_entry, h, Bool.false_eq_true, if_false]
    rw [hf]
    have T := Tight.comp (Tight.comp (Tight.comp (Tight.comp (Tight.comp (Tight.comp
      (Tight.comp (Tight.of_write_int e.1) (Tight.of_write_int 8))
      (Tight.of_write_string e.2.m_description .Byte)) (Tight.of_write_string e.2.m_info .Byte))
      (Tight.of_write_int 0)) (Tight.of_write_short 0)) (Tight.of_write_int e.2.m_players.length))
      (Tight.of_foldl (fun p id => p.write_int id) e.2.m_players.reverse
        (fun id => Tight.of_write_int id))
    exact T

theorem tight_19b (L : Lobby) (name props : Str) :
    Tight (fun p => (L.m_rooms.reverse.foldl write_room_entry
      ((L.m_players.foldl write_player_entry
        (((((((((p.write_byte 0).write_string name).write_byte 0).write_int 0).write_int
          0).write_int 0).write_int 0).write_int 0).write_string props)).write_int
            0)).write_int 0) := by
  have T := Tight.comp (Tight.comp (Tight.comp (Tight.comp (Tight.comp (Tight.comp (Tight.comp
    (Tight.comp (Tight.comp (Tight.comp (Tight.comp (Tight.comp (Tight.of_write_byte 0)
    (Tight.of_write_string name .Byte)) (Tight.of_write_byte 0)) (Tight.of_write_int 0))
    (Tight.of_write_int 0)) (Tight.of_write_int 0)) (Tight.of_write_int 0)) (Tight.of_write_int 0))
    (Tight.of_write_string props .Byte))
    (Tight.of_foldl write_player_entry L.m_players tight_player_entry)) (Tight.of_write_int 0))
    (Tight.of_foldl write_room_entry L.m_rooms.reverse tight_room_entry)) (Tight.of_write_int 0)
  exact T

theorem tight_1a6 (player : Player) :
    Tight (fun p => (((p.write_string player.m_name).write_byte 0).write_string
      player.m_props).write_byte player.m_status) := by
  have T := Tight.comp (Tight.comp (Tight.comp (Tight.of_write_string player.m_name .Byte)
    (Tight.of_write_byte 0)) (Tight.of_write_string player.m_props .Byte))
    (Tight.of_write_byte player.m_status)
  exact T

theorem on_19a_p (L : Lobby) (p : Packet) (c : Nat) :
    (on_19a L p c).p =
      compose_1a6
        (compose_19b { L with m_players := L.m_players.emplace c (Player.ctor c
            (normalise_name (read_login p).2.2.1) (read_login p).1 (read_login p).2.1) }
          (read_login p).2.2.2 c (normalise_name (read_login p).2.2.1)
          (L.m_players.emplaced c (Player.ctor c (normalise_name (read_login p).2.2.1)
            (read_login p).1 (read_login p).2.1)).m_props) c
        (L.m_players.emplaced c (Player.ctor c (normalise_name (read_login p).2.2.1)
          (read_login p).1 (read_login p).2.1)) := by
  simp only [on_19a, done]

theorem compose_19b_facts (L : Lobby) (p : Packet) (c : Nat) (name props : Str)
    (h14 : 14 ≤ p.m_buf.length) (h32 : p.m_buf.length < 2 ^ 32)
    (ho : (compose_19b L p c name props).oob_writes = []) :
    (compose_19b L p c name props).Framed ∧ (compose_19b L p c name props).InBuf :=
  ⟨(Packet.composed_facts _ (tight_19b L name props) p 0x19b c c h14 h32 ho).1,
    (Packet.composed_facts _ (tight_19b L name props) p 0x19b c c h14 h32 ho).2.1⟩

theorem compose_1a6_facts (q : Packet) (c : Nat) (player : Player)
    (ho : (compose_1a6 q c player).oob_writes = []) :
    q.oob_writes = [] ∧ (q.InBuf → (compose_1a6 q c player).Framed) :=
  ⟨Packet.composed_mono _ (tight_1a6 player) q 0x1a6 c 0 ho,
    fun hi => (Packet.composed_facts _ (tight_1a6 player) q 0x1a6 c 0
      (Packet.inbuf_bounds q hi).1 (Packet.inbuf_bounds q hi).2 ho).1⟩

theorem on_19a_sends (L : Lobby) (p : Packet) (c : Nat) (h14 : 14 ≤ p.m_buf.length)
    (h32 : p.m_buf.length < 2 ^ 32) (ho : (on_19a L p c).p.oob_writes = []) :
    Sends L (on_19a L p c).lobby := by
  have hb := (read_login_frame p).1
  rw [on_19a_p] at ho
  rw [on_19a_lobby]
  have hs1 : Sends L ({ L with m_players := L.m_players.emplace c (Player.ctor c
      (normalise_name (read_login p).2.2.1) (read_login p).1 (read_login p).2.1) } : Lobby) :=
    (Sends.nothing L).of_clients rfl
  generalize (L.m_players.emplaced c (Player.ctor c (normalise_name (read_login p).2.2.1)
    (read_login p).1 (read_login p).2.1)) = player at ho ⊢
  generalize ({ L with m_players := L.m_players.emplace c (Player.ctor c
    (normalise_name (read_login p).2.2.1) (read_login p).1 (read_login p).2.1) } : Lobby)
    = L1 at ho hs1 ⊢
  obtain ⟨m1, f6⟩ := compose_1a6_facts _ c player ho
  obtain ⟨f9, i9⟩ := compose_19b_facts L1 (read_login p).2.2.2 c
    (normalise_name (read_login p).2.2.1) player.m_props (by rw [hb]; exact h14)
    (by rw [hb]; exact h32) m1
  exact (hs1.queued _ _ f9).queued _ _ (f6 i9)

end Lobby

namespace Lobby

theorem on_1a2_sends (L : Lobby) (p : Packet) (c : Nat) (hi : p.InBuf)
    (ho : (on_1a2 L p c).p.oob_writes = []) : Sends L (on_1a2 L p c).lobby := by
  cases hS : L.m_players.find c with
  | none => simp only [on_1a2, hS, raise]; exact Sends.nothing L
  | some S =>
    cases hr : S.m_room with
    | none => simp only [on_1a2, hS, hr, done]; exact Sends.nothing L
    | some r =>
      cases hR : L.m_rooms.find r with
      | none => simp only [on_1a2, hS, hr, hR, done]; exact Sends.nothing L
      | some R =>
        have T := Tight.comp (Tight.of_write_int R.m_players.length)
          (tight_start_all c R.m_players.reverse
            { L with m_rooms := L.m_rooms.set r R.hide_from_lobby })
        have hin := T.2 p hi
        have hcl := (start_all_frame c R.m_players.reverse
          { L with m_rooms := L.m_rooms.set r R.hide_from_lobby }
          (p.write_int R.m_players.length)).1
        simp only [on_1a2, hS, hr, hR] at ho ⊢
        simp only [] at hin
        generalize start_all { L with m_rooms := L.m_rooms.set r R.hide_from_lobby }
          (p.write_int R.m_players.length) c R.m_players.reverse = res at hin hcl ho ⊢
        have hs : Sends L res.lobby := (Sends.nothing L).of_clients hcl
        cases ht : res.thrown
        · rw [ht] at ho
          simp only [Bool.false_eq_true, if_false, done] at ho ⊢
          have m := Packet.write_header_mono _ _ _ _ ho
          exact hs.queued _ _ (Packet.write_header_framed _ _ _ _ (hin m).1).2.2
        · simp only [if_true]
          exact hs

theorem on_1aa_sends (L : Lobby) (p : Packet) (c : Nat) (h14 : 14 ≤ p.m_buf.length)
    (h32 : p.m_buf.length < 2 ^ 32) (ho : (on_1aa L p c).p.oob_writes = []) :
    Sends L (on_1aa L p c).lobby := by
  have hb : p.read_string.2.read_string.2.m_buf = p.m_buf :=
    (Packet.read_string_same _ _).1.trans (Packet.read_string_same _ _).1
  cases hS : L.m_players.find c with
  | none => simp only [on_1aa, hS, raise]; exact Sends.nothing L
  | some S =>
    cases hr : S.m_room with
    | none => simp only [on_1aa, hS, hr, done]; exact Sends.nothing L
    | some r =>
      cases hR : L.m_rooms.find r with
      | none => simp only [on_1aa, hS, hr, hR, done]; exact Sends.nothing L
      | some R =>
        have T := Tight.comp (Tight.comp (Tight.comp (Tight.comp (Tight.comp (Tight.comp
          (Tight.of_write_int 8) (Tight.of_write_string p.read_string.1 .Byte))
          (Tight.of_write_string p.read_string.2.read_string.1 .Byte)) (Tight.of_write_int 0))
          (Tight.of_write_short 0)) (Tight.of_write_int R.m_players.length))
          (tight_status_all R.m_players.reverse
            { L with m_rooms := L.m_rooms.set r (R.set_info p.read_string.2.read_string.1) })
        have hin := T.2 p.read_string.2.read_string.2.seek_to_start
          (Packet.seek_to_start_inbuf _ (by rw [hb]; exact h14) (by rw [hb]; exact h32))
        have hcl : (status_all
            { L with m_rooms := L.m_rooms.set r (R.set_info p.read_string.2.read_string.1) }
            ((((((p.read_string.2.read_string.2.seek_to_start.write_int 8).write_string
              p.read_string.1).write_string p.read_string.2.read_string.1).write_int
              0).write_short 0).write_int R.m_players.length)
            R.m_players.reverse).lobby.m_clients = L.m_clients := by
          rw [status_all_lobby]
        simp only [on_1aa, hS, hr, hR] at ho ⊢
        simp only [] at hin
        generalize status_all
          { L with m_rooms := L.m_rooms.set r (R.set_info p.read_string.2.read_string.1) }
          ((((((p.read_string.2.read_string.2.seek_to_start.write_int 8).write_string
            p.read_string.1).write_string p.read_string.2.read_string.1).write_int
            0).write_short 0).write_int R.m_players.length) R.m_players.reverse
          = res at hin hcl ho ⊢
        have hs : Sends L res.lobby := (Sends.nothing L).of_clients hcl
        cases ht : res.thrown
        · rw [ht] at ho
          simp only [Bool.false_eq_true, if_false, done] at ho ⊢
          have m := Packet.write_header_mono _ _ _ _ ho
          exact hs.queued _ _ (Packet.write_header_framed _ _ _ _ (hin m).1).2.2
        · simp only [if_true]
          exact hs

end Lobby

namespace Packet

theorem write_int_pos (p : Packet) (i : Nat) (h : (p.write_int i).oob_writes = []) :
    p.m_seek_pos < p.m_buf.length := by
  have h1 := (Tight.of_write_byte (i / 16777216)).1 _ h
  have h2 := (Tight.of_write_byte (i / 65536)).1 _ h1
  have h3 := (Tight.of_write_byte (i / 256)).1 _ h2
  exact (store_oob p p.m_seek_pos (toByte i) h3).1

/-- A Packet whose data section starts with a length that is written last,
with no write outside the buffer recorded: what was there before had none
either. -/
theorem backpatched_mono (W : Packet → Packet) (hW : Tight W) (q : Packet)
    (cmd id1 id2 x : Nat)
    (ho : (((W ((q.seek_to_start.seek 4).write_int 0)).write_header cmd id1 id2).write_int
      x).oob_writes = []) : q.oob_writes = [] :=
  (Tight.of_write_int 0).1 (q.seek_to_start.seek 4)
    (hW.1 _ (write_header_mono _ _ _ _ ((Tight.of_write_int x).1 _ ho)))

/-- A Packet whose data section starts with a length that is written last,
with no write outside the buffer recorded: the slice to send is a well-formed
frame. -/
theorem backpatched_facts (W : Packet → Packet) (hW : Tight W) (q : Packet)
    (cmd id1 id2 x : Nat) (h32 : q.m_buf.length < 2 ^ 32)
    (ho : (((W ((q.seek_to_start.seek 4).write_int 0)).write_header cmd id1 id2).write_int
      x).oob_writes = []) :
    (((W ((q.seek_to_start.seek 4).write_int 0)).write_header cmd id1 id2).write_int x).Framed ∧
    (((W ((q.seek_to_start.seek 4).write_int 0)).write_header cmd id1 id2).write_int
        x).InBuf := by
  have h1 := (Tight.of_write_int x).1 _ ho
  have h2 := write_header_mono _ _ _ _ h1
  have h3 := hW.1 _ h2
  have hpos : (q.seek_to_start.seek 4).m_seek_pos = 18 := by
    show (14 + 4) % 2 ^ 32 = 18
    norm_num
  have h4 := write_int_pos _ 0 h3
  rw [hpos] at h4
  have hi1 : (q.seek_to_start.seek 4).InBuf :=
    ⟨by rw [hpos]; omega, by rw [hpos]; exact Nat.le_of_lt h4, h32⟩
  have hi2 := ((Tight.of_write_int 0).2 _ hi1 h3).1
  have hi3 := (hW.2 _ hi2 h2).1
  obtain ⟨-, hi4, hf4⟩ := write_header_framed _ cmd id1 id2 hi3
  obtain ⟨hi5, hf5⟩ := (Tight.of_write_int x).2 _ hi4 ho
  exact ⟨hf5 hf4, hi5⟩

end Packet

namespace Lobby

theorem tight_clientslist (ids : List Nat) : Tight (fun p => write_clientslist p ids) := by
  have T := Tight.of_foldl
    (fun p id => (p.write_string (lit "*") .Int).write_string (to_string id) .Int) ids
    (fun id => by
      have T2 := Tight.comp (Tight.of_write_string (lit "*") .Int)
        (Tight.of_write_string (to_string id) .Int)
      exact T2)
  exact T

theorem tight_dict (description info : Str) (players : List Nat) (new_host_id : Nat) :
    Tight (fun p => 
      ((write_clientslist ((((((((((((((((((((((p.write_int 1).write_byte 0).write_int
        6).write_string (lit "gamename") .Int).write_string description .Int).write_int
        0).write_string (lit "mapname") .Int).write_string info .Int).write_int 0).write_string
        (lit "master") .Int).write_string (to_string new_host_id) .Int).write_int
        0).write_string (lit "session") .Int).write_string (lit "1337") .Int).write_int
        0).write_string (lit "clients") .Int).write_string (to_string (players.length - 1))
        .Int).write_int 0).write_string (lit "clientslist") .Int).write_int 1).write_byte
        0).write_int (players.length % 2 ^ 32 + 2 ^ 32 - 1)) (players.drop 1)).write_int 0)) :=
        by
  have T := (Tight.comp (Tight.comp (Tight.comp (Tight.comp (Tight.comp (Tight.comp
        (Tight.comp (Tight.comp (Tight.comp (Tight.comp (Tight.comp (Tight.comp (Tight.comp
        (Tight.comp (Tight.comp (Tight.comp (Tight.comp (Tight.comp (Tight.comp (Tight.comp
        (Tight.comp (Tight.comp (Tight.comp (Tight.of_write_int 1)
      (Tight.of_write_byte 0))
      (Tight.of_write_int 6))
      (Tight.of_write_string (lit "gamename") .Int))
      (Tight.of_write_string description .Int))
      (Tight.of_write_int 0))
      (Tight.of_write_string (lit "mapname") .Int))
      (Tight.of_write_string info .Int))
      (Tight.of_write_int 0))
      (Tight.of_write_string (lit "master") .Int))
      (Tight.of_write_string (to_string new_host_id) .Int))
      (Tight.of_write_int 0))
      (Tight.of_write_string (lit "session") .Int))
      (Tight.of_write_string (lit "1337") .Int))
      (Tight.of_write_int 0))
      (Tight.of_write_string (lit "clients") .Int))
      (Tight.of_write_string (to_string (players.length - 1)) .Int))
      (Tight.of_write_int 0))
      (Tight.of_write_string (lit "clientslist") .Int))
      (Tight.of_write_int 1))
      (Tight.of_write_byte 0))
      (Tight.of_write_int (players.length % 2 ^ 32 + 2 ^ 32 - 1)))
      (tight_clientslist (players.drop 1)))
      (Tight.of_write_int 0))
  exact T

theorem compose_1bd_mono (q : Packet) (description info : Str) (players : List Nat)
    (new_host_id : Nat)
    (ho : (compose_1bd q description info players new_host_id).oob_writes = []) :
    q.oob_writes = [] :=
  Packet.backpatched_mono _ (tight_dict description info players new_host_id) q
    0x1bd new_host_id new_host_id _ ho

theorem compose_1bd_facts (q : Packet) (description info : Str) (players : List Nat)
    (new_host_id : Nat) (h32 : q.m_buf.length < 2 ^ 32)
    (ho : (compose_1bd q description info players new_host_id).oob_writes = []) :
    (compose_1bd q description info players new_host_id).Framed ∧
    (compose_1bd q description info players new_host_id).InBuf :=
  Packet.backpatched_facts _ (tight_dict description info players new_host_id) q
    0x1bd new_host_id new_host_id _ h32 ho

theorem send_1be_mono (n : Nat) (ids : List Nat) : ∀ (L : Lobby) (p : Packet),
    (send_1be L p n ids).2.oob_writes = [] → p.oob_writes = [] := by
  induction ids with
  | nil => intro L p h; exact h
  | cons id ids ih =>
    intro L p h
    simp only [send_1be] at h
    split at h
    · exact ih _ _ h
    · exact Packet.write_header_mono _ _ _ _ (ih _ _ h)

theorem send_1be_sends (n : Nat) (ids : List Nat) : ∀ (L0 L : Lobby) (p : Packet),
    Sends L0 L → p.InBuf → Sends L0 (send_1be L p n ids).1 := by
  induction ids with
  | nil => intro L0 L p h _; exact h
  | cons id ids ih =>
    intro L0 L p h hi
    simp only [send_1be]
    split
    · exact ih _ _ _ h hi
    · obtain ⟨-, i1, f1⟩ := Packet.write_header_framed p 0x1be n id hi
      exact ih _ _ _ (h.queued _ _ f1) i1

end Lobby

theorem Packet.seek_to_start_oob (p : Packet) : p.seek_to_start.oob_writes = p.oob_writes := rfl

namespace Lobby

/-- The sends of branch `0x1a0` behind its loop, with a host transfer. -/
theorem transfer_sends (L0 X : Lobby) (q : Packet) (d i : Str) (M ids : List Nat) (n id1 : Nat)
    (hs : Sends L0 X) (hq : q.oob_writes = [] → q.InBuf)
    (ho : (send_1be ((X.send (q.write_header 0x1a1 id1 0) .Everyone).send
        (compose_1bd (q.write_header 0x1a1 id1 0) d i M n) .Id2)
        (compose_1bd (q.write_header 0x1a1 id1 0) d i M n).seek_to_start n ids).2.oob_writes
        = []) :
    Sends L0 (send_1be ((X.send (q.write_header 0x1a1 id1 0) .Everyone).send
        (compose_1bd (q.write_header 0x1a1 id1 0) d i M n) .Id2)
        (compose_1bd (q.write_header 0x1a1 id1 0) d i M n).seek_to_start n ids).1 := by
  have m0 := send_1be_mono n ids _ _ ho
  have m1 : (compose_1bd (q.write_header 0x1a1 id1 0) d i M n).oob_writes = [] :=
    (Packet.seek_to_start_oob (compose_1bd (q.write_header 0x1a1 id1 0) d i M n)).symm.trans m0
  have m2 := compose_1bd_mono _ _ _ _ _ m1
  have m3 := Packet.write_header_mono _ _ _ _ m2
  obtain ⟨-, i1, f1⟩ := Packet.write_header_framed q 0x1a1 id1 0 (hq m3)
  obtain ⟨fc, ic⟩ := compose_1bd_facts _ d i M n i1.2.2 m1
  exact send_1be_sends n ids L0 _ _ ((hs.queued _ .Everyone f1).queued _ .Id2 fc)
    (Packet.seek_to_start_of_inbuf _ ic)

/-- The send of branch `0x1a0` behind its loop, without a host transfer. -/
theorem leave_sends (L0 X : Lobby) (q : Packet) (id1 : Nat)
    (hs : Sends L0 X) (hq : q.oob_writes = [] → q.InBuf)
    (ho : (q.write_header 0x1a1 id1 0).oob_writes = []) :
    Sends L0 (X.send (q.write_header 0x1a1 id1 0) .Everyone) :=
  hs.queued _ .Everyone
    (Packet.write_header_framed q 0x1a1 id1 0 (hq (Packet.write_header_mono _ _ _ _ ho))).2.2

/-- Erasing a Room sends nothing. -/
theorem Sends.erased {L0 : Lobby} (X : Lobby) (k : Nat) (h : Sends L0 X) :
    Sends L0 { m_clients := X.m_clients, m_players := X.m_players,
               m_rooms := X.m_rooms.erase k,
               m_last_issued_id := X.m_last_issued_id } :=
  h.of_clients rfl

theorem on_1a0_sends (L : Lobby) (p : Packet) (c : Nat) (hi : p.InBuf)
    (ho : (on_1a0 L p c).p.oob_writes = []) : Sends L (on_1a0 L p c).lobby := by
  cases hS : L.m_players.find c with
  | none => simp only [on_1a0, hS, raise]; exact Sends.nothing L
  | some S =>
    cases hr : S.m_room with
    | none => simp only [on_1a0, hS, hr, done]; exact Sends.nothing L
    | some r =>
      cases hR : L.m_rooms.find r with
      | none => simp only [on_1a0, hS, hr, hR, done]; exact Sends.nothing L
      | some R =>
        cases hn : R.m_players.getLast? with
        | none => simp only [on_1a0, hS, hr, hR, hn, raise]; exact Sends.nothing L
        | some n =>
          by_cases hb : (decide (S.m_status = 5) || decide (S.m_status = 15)) = true
          · have T := Tight.comp (Tight.comp (Tight.of_write_byte 1)
              (Tight.of_write_int R.m_players.length)) (tight_leave_all R.m_players L)
            have hin := T.2 p hi
            have hcl := (leave_all_frame R.m_players L
              ((p.write_byte 1).write_int R.m_players.length)).1
            simp only [on_1a0, hS, hr, hR, hn, hb, if_true] at ho ⊢
            simp only [] at hin
            generalize leave_all L ((p.write_byte 1).write_int R.m_players.length) R.m_players
              = res at hin hcl ho ⊢
            have hs : Sends L res.lobby := (Sends.nothing L).of_clients hcl
            have hq : res.p.oob_writes = [] → res.p.InBuf := fun h => (hin h).1
            cases ht : res.thrown
            · rw [ht] at ho
              simp only [Bool.false_eq_true, if_false, done] at ho ⊢
              by_cases hd : (decide (S.m_status = 15) && decide (1 < R.m_players.length)) = true
              · simp only [hd, if_true] at ho ⊢
                exact Sends.erased _ _ (transfer_sends L res.lobby res.p R.m_description R.m_info
                  R.m_players (R.m_players.drop 1) n p.m_id1 hs hq ho)
              · simp only [hd, Bool.false_eq_true, if_false] at ho ⊢
                exact Sends.erased _ _ (leave_sends L res.lobby res.p p.m_id1 hs hq ho)
            · simp only [if_true]
              exact hs
          · have T := Tight.comp (Tight.comp (Tight.comp (Tight.of_write_byte 0)
              (Tight.of_write_int 1)) (Tight.of_write_int (S.leave_room L.m_rooms).1.m_id))
              (Tight.of_write_byte (S.leave_room L.m_rooms).1.m_status)
            have hin := T.2 p hi
            simp only [] at hin
            have hq := fun h => (hin h).1
            simp only [on_1a0, hS, hr, hR, hn, hb, Bool.false_eq_true, if_false, done] at ho ⊢
            by_cases hd : (decide (S.m_status = 15) && decide (1 < R.m_players.length)) = true
            · simp only [hd, if_true] at ho ⊢
              exact transfer_sends L _ _ R.m_description R.m_info R.m_players
                (R.m_players.drop 1) n p.m_id1 ((Sends.nothing L).of_clients rfl) hq ho
            · simp only [hd, Bool.false_eq_true, if_false] at ho ⊢
              exact leave_sends L _ _ p.m_id1 ((Sends.nothing L).of_clients rfl) hq ho

end Lobby

/-! ## Frames of every call -/

namespace Lobby

theorem done_sends (L : Lobby) (p : Packet) : Sends L (done L p).lobby := Sends.nothing L

/-- Every branch of the dispatcher enqueues well-formed frames only, when the
Packet announces no more than the Session buffer holds and no write fell
outside the buffer. -/
theorem process_buf_sends (L : Lobby) (c : Nat) (buf : Buffer)
    (h32 : buf.length < 2 ^ 32) (hfit : 14 + (Packet.ctor buf c).m_size ≤ buf.length) :
    (L.process_buf c buf).p.oob_writes = [] → Sends L (L.process_buf c buf).lobby := by
  unfold process_buf
  lift_lets
  intro p cmd
  have e1 : p.m_buf = buf := Packet.ctor_m_buf buf c
  have e2 : p.m_seek_pos = 14 := Packet.ctor_m_seek_pos buf c
  have e3 : p.m_size = (Packet.ctor buf c).m_size := Eq.refl p.m_size
  have hf : 14 + p.m_size ≤ p.m_buf.length := by rw [e1, e3]; exact hfit
  have hb : p.m_buf.length < 2 ^ 32 := by rw [e1]; exact h32
  have h14 : 14 ≤ p.m_buf.length := le_trans (Nat.le_add_right 14 _) hf
  have hi : p.InBuf := ⟨e2.ge, e2.le.trans h14, hb⟩
  clear e1 e2 e3
  clear_value cmd p
  repeat' with_reducible refine ite_ind (fun o : Outcome =>
    o.p.oob_writes = [] → Sends L o.lobby) _ _ _ ?_ ?_
  all_goals first
    | with_reducible exact fun _ => forward_sends _ _ _ _ hb hf
    | with_reducible exact fun ho => on_192_sends _ _ h14 hb ho
    | with_reducible exact fun ho => on_1ad_sends _ _ _ hi ho
    | with_reducible exact fun _ => on_1b3_sends _ _ _
    | with_reducible exact fun ho => on_19c_sends _ _ _ h14 hb ho
    | with_reducible exact fun ho => on_19e_sends _ _ h14 hb ho
    | with_reducible exact fun ho => on_1a0_sends _ _ _ hi ho
    | with_reducible exact fun ho => on_1a2_sends _ _ _ hi ho
    | with_reducible exact fun ho => on_1aa_sends _ _ _ h14 hb ho
    | with_reducible exact fun ho => on_1b5_sends _ _ hb hf ho
    | with_reducible exact fun _ => on_196_sends _ _ hb hf
    | with_reducible exact fun ho => on_1a8_sends _ _ hb hf ho
    | with_reducible exact fun ho => on_19a_sends _ _ _ h14 hb ho
    | with_reducible exact fun _ => done_sends _ _

end Lobby

/-- The header written by `Lobby::disconnect` to simulate a `0x1a0` packet
announces an empty data section. -/
theorem Packet.leave_header_size (buf : Buffer) (c : Nat) (h : 14 ≤ buf.length) :
    (Packet.ctor ((Packet.ctor buf c).write_header 0x1a0 c 0).m_buf c).m_size = 0 := by
  rw [Packet.write_header_of_le _ _ _ _ (by rw [Packet.ctor_m_buf]; exact h)]
  simp only [Packet.ctor_m_buf]
  obtain ⟨-, -, -, -, -, -, h7⟩ := Packet.ctor_facts
    (((Packet.ctor buf c).m_seek_pos % 2 ^ 32 + 2 ^ 32 - packet_header_size) % 2 ^ 32)
    (0x1a0 % 2 ^ 16) (c % 2 ^ 32) (0 % 2 ^ 32) c (buf.drop 14)
  refine h7.trans ?_
  rw [Packet.ctor_m_seek_pos]
  norm_num [packet_header_size]

namespace Lobby

theorem on_1a0_length_le (L : Lobby) (p : Packet) (c : Nat) :
    (on_1a0 L p c).p.m_buf.length ≤ p.m_buf.length := by
  cases hS : L.m_players.find c with
  | none => simp only [on_1a0, hS, raise]; exact le_rfl
  | some S =>
    cases hr : S.m_room with
    | none => simp only [on_1a0, hS, hr, done]; exact le_rfl
    | some r =>
      cases hR : L.m_rooms.find r with
      | none => simp only [on_1a0, hS, hr, hR, done]; exact le_rfl
      | some R =>
        cases hn : R.m_players.getLast? with
        | none => simp only [on_1a0, hS, hr, hR, hn, raise]; exact le_rfl
        | some n =>
          by_cases hb : (decide (S.m_status = 5) || decide (S.m_status = 15)) = true
          · have l1 := leave_all_length R.m_players L
              ((p.write_byte 1).write_int R.m_players.length)
            rw [Packet.write_int_length, Packet.write_byte_length] at l1
            simp only [on_1a0, hS, hr, hR, hn, hb, if_true]
            generalize leave_all L ((p.write_byte 1).write_int R.m_players.length) R.m_players
              = res at l1 ⊢
            cases ht : res.thrown
            · simp only [Bool.false_eq_true, if_false, done]
              by_cases hd : (decide (S.m_status = 15) && decide (1 < R.m_players.length)) = true
              · simp only [hd, if_true]
                rw [send_1be_length, Packet.seek_to_start_length, compose_1bd_length,
                  Packet.write_header_length]
                exact l1.le
              · simp only [hd, Bool.false_eq_true, if_false]
                rw [Packet.write_header_length]
                exact l1.le
            · simp only [if_true]
              exact l1.le
          · simp only [on_1a0, hS, hr, hR, hn, hb, Bool.false_eq_true, if_false, done]
            by_cases hd : (decide (S.m_status = 15) && decide (1 < R.m_players.length)) = true
            · simp only [hd, if_true]
              rw [send_1be_length, Packet.seek_to_start_length, compose_1bd_length,
                Packet.write_header_length, Packet.write_byte_length,
                Packet.write_int_length, Packet.write_int_length, Packet.write_byte_length]
            · simp only [hd, Bool.false_eq_true, if_false]
              rw [Packet.write_header_length, Packet.write_byte_length,
                Packet.write_int_length, Packet.write_int_length, Packet.write_byte_length]

/-- Erasing a Client sends nothing. -/
theorem Sends.erase_client (L : Lobby) (c : Nat) :
    Sends L { L with m_clients := L.m_clients.erase c } := by
  intro k q hq
  have hq2 : (L.m_clients.erase c).find k = some q := hq
  by_cases e : k = c
  · rw [e, IdMap.find_erase_self] at hq2
    cases hq2
  · rw [IdMap.find_erase_ne _ _ _ e] at hq2
    exact ⟨q, [], hq2, (List.append_nil q).symm, fun _ hs => absurd hs (List.not_mem_nil _)⟩

/-- The end of `Lobby::disconnect`: the `0x1a7` packet is a well-formed frame. -/
theorem Sends.tail_1a7 {L0 : Lobby} (X : Lobby) (q : Packet) (c : Nat) (h : Sends L0 X)
    (h14 : 14 ≤ q.m_buf.length) (h32 : q.m_buf.length < 2 ^ 32) :
    Sends L0 (({ X with m_players := X.m_players.erase c } : Lobby).send
      (q.seek_to_start.write_header 0x1a7 c 0) .Everyone) := by
  have h1 : Sends L0 ({ X with m_players := X.m_players.erase c } : Lobby) := h.of_clients rfl
  exact h1.queued _ _
    (Packet.write_header_framed _ _ _ _ (Packet.seek_to_start_inbuf q h14 h32)).2.2

theorem disconnect_sends (L : Lobby) (c : Nat) (buf : Buffer) (h14 : 14 ≤ buf.length)
    (h32 : buf.length < 2 ^ 32) :
    (L.disconnect c buf).p.oob_writes = [] → Sends L (L.disconnect c buf).lobby := by
  have h0 := Sends.erase_client L c
  cases hS : L.m_players.find c with
  | none =>
    intro _
    unfold disconnect
    simp -proj only [hS, done]
    exact h0
  | some S =>
    by_cases hr : S.m_room.isSome = true
    · obtain ⟨g1, g2⟩ := Packet.leave_header buf c h14
      have g3 := Packet.leave_header_size buf c h14
      rw [Packet.ctor_m_buf] at g2
      have hp := process_buf_1a0 { L with m_clients := L.m_clients.erase c } c
        ((Packet.ctor buf c).write_header 0x1a0 c 0).m_buf g1
      have hl := on_1a0_length { L with m_clients := L.m_clients.erase c }
        (Packet.ctor ((Packet.ctor buf c).write_header 0x1a0 c 0).m_buf c) c
      have hl2 := on_1a0_length_le { L with m_clients := L.m_clients.erase c }
        (Packet.ctor ((Packet.ctor buf c).write_header 0x1a0 c 0).m_buf c) c
      rw [← hp, Packet.ctor_m_buf, g2] at hl hl2
      have hs := process_buf_sends { L with m_clients := L.m_clients.erase c } c
        ((Packet.ctor buf c).write_header 0x1a0 c 0).m_buf (by rw [g2]; exact h32)
        (by rw [g3, g2]; exact h14)
      clear hp g1 g2 g3
      unfold disconnect
      simp -proj only [hS, hr, if_true, done]
      generalize process_buf { L with m_clients := L.m_clients.erase c } c
        ((Packet.ctor buf c).write_header 0x1a0 c 0).m_buf = res at hs hl hl2 ⊢
      cases ht : res.thrown
      · simp -proj only [Bool.false_eq_true, if_false]
        intro ho
        have m := Packet.write_header_mono _ _ _ _ ho
        have m2 : ((Packet.ctor buf c).write_header 0x1a0 c 0).oob_writes ++ res.p.oob_writes
            = [] := m
        exact Sends.tail_1a7 res.lobby
          { (Packet.ctor buf c).write_header 0x1a0 c 0 with
            m_buf := res.p.m_buf
            oob_writes := ((Packet.ctor buf c).write_header 0x1a0 c 0).oob_writes
              ++ res.p.oob_writes } c (h0.then_ (hs (List.append_eq_nil.1 m2).2))
          (h14.trans hl) (lt_of_le_of_lt hl2 h32)
      · simp -proj only [if_true]
        intro ho
        have m2 : ((Packet.ctor buf c).write_header 0x1a0 c 0).oob_writes ++ res.p.oob_writes
            = [] := ho
        exact h0.then_ (hs (List.append_eq_nil.1 m2).2)
    · unfold disconnect
      simp -proj only [hS, hr, Bool.false_eq_true, if_false, done]
      intro _
      exact Sends.tail_1a7 { L with m_clients := L.m_clients.erase c } (Packet.ctor buf c) c h0
        (by rw [Packet.ctor_m_buf]; exact h14) (by rw [Packet.ctor_m_buf]; exact h32)

end Lobby

/-! ## Frames: the claim -/

/-- C38: every byte slice that the dispatcher or `Lobby::disconnect` appends
to the queue of a client is a well-formed frame, of length at least 14 with
its first four bytes the little-endian encoding of its length minus 14. The
Session buffer is shorter than `2 ^ 32` bytes and no store of the call fell
outside it, that is, every composed packet fits. The dispatcher is given a
packet whose announced size lies within the buffer, as `Session` hands it
over; `Lobby::disconnect` is given a buffer that holds a header. This covers
every branch of the dispatcher, the back-patched `0x1bd` packet and the
re-tagged pass-through packets included. -/
theorem C38_enqueued_slices_are_frames (L : Lobby) (c : Nat) (buf : Buffer)
    (h32 : buf.length < 2 ^ 32) :
    (14 + (Packet.ctor buf c).m_size ≤ buf.length →
      (L.process_buf c buf).p.oob_writes = [] →
      ∀ k q1, (L.process_buf c buf).lobby.m_clients.find k = some q1 →
        ∃ q news, L.m_clients.find k = some q ∧ q1 = q ++ news ∧ ∀ s ∈ news, Frame s) ∧
    (14 ≤ buf.length →
      (L.disconnect c buf).p.oob_writes = [] →
      ∀ k q1, (L.disconnect c buf).lobby.m_clients.find k = some q1 →
        ∃ q news, L.m_clients.find k = some q ∧ q1 = q ++ news ∧ ∀ s ∈ news, Frame s) :=
  ⟨fun hfit ho => Lobby.process_buf_sends L c buf h32 hfit ho,
   fun h14 ho => Lobby.disconnect_sends L c buf h14 h32 ho⟩

set_option maxRecDepth 1000000 in
theorem C38_enqueued_slices_are_frames_witness :
    (bare_packet 0x1a0 1 0).length < 2 ^ 32 ∧
    (∀ k q1, (lobby_game.process_buf 1 (bare_packet 0x1a0 1 0)).lobby.m_clients.find k
        = some q1 →
      ∃ q news, lobby_game.m_clients.find k = some q ∧ q1 = q ++ news ∧
        ∀ s ∈ news, Frame s) ∧
    (∀ k q1, (lobby_game.disconnect 1 (bare_packet 0x1a0 1 0)).lobby.m_clients.find k
        = some q1 →
      ∃ q news, lobby_game.m_clients.find k = some q ∧ q1 = q ++ news ∧
        ∀ s ∈ news, Frame s) :=
  ⟨by decide,
   (C38_enqueued_slices_are_frames lobby_game 1 (bare_packet 0x1a0 1 0) (by decide)).1
     (by decide) (by decide),
   (C38_enqueued_slices_are_frames lobby_game 1 (bare_packet 0x1a0 1 0) (by decide)).2
     (by decide) (by decide)⟩

end Cossacks
